import Mathlib

/-!
# SIC/XE two-pass assembler: object-code generation and record emission

A shallow embedding of the line parser and string helpers (`utils.cpp`), the catalog
(`instruction_table.cpp`), pass 1 (`pass1.cpp`), the pass-2 engine (`pass2.cpp`) and the
record emitter (`object_generator.cpp`), followed by the properties proved of them.

Conventions of the embedding:

* `std::string` is `List Char`; string literals are written `"...".toList`.
* `int` is `Int`; every arithmetic result is passed through `wrapInt`
  (two's complement, 32 bits), bitwise operators act on the 32-bit pattern.
* `std::map<string, V>` is an association list read with `mapFind`
  (first match), which is what `find` / `operator[]` on an existing key return.
* `exit(1)` and thrown exceptions are values of `Option` / `Except`.
* member variables that a method mutates are threaded through `Assembler`.
-/

namespace SICXE

/-! ## Machine integers -/

/-- Value of a mathematical integer stored in a 32-bit two's complement `int`. -/
def wrapInt (x : Int) : Int := (x + 2147483648) % 4294967296 - 2147483648

/-- The 32-bit pattern of an `int`, read as an unsigned number. -/
def toUnsigned (x : Int) : Nat := (x % 4294967296).toNat

/-- C++ `a & b` on `int`. -/
def andInt (a b : Int) : Int := wrapInt (Int.ofNat (toUnsigned a &&& toUnsigned b))

/-- C++ `a | b` on `int`. -/
def orInt (a b : Int) : Int := wrapInt (Int.ofNat (toUnsigned a ||| toUnsigned b))

/-- C++ `a << k` on `int` (the result is reduced to 32 bits). -/
def shlInt (a : Int) (k : Nat) : Int := wrapInt (a * 2 ^ k)

/-- C++ `a >> k` on `int` (arithmetic shift: floor division). -/
def shrInt (a : Int) (k : Nat) : Int := a / 2 ^ k

/-! ## Strings (`utils.cpp`) -/

/-- Membership in the set `" \t\r\n"` used by `trim`. -/
def isTrimChar (c : Char) : Bool := c == ' ' || c == '\t' || c == '\r' || c == '\n'

/-- Source `SICXEAssembler::trim`: drop `" \t\r\n"` at both ends. -/
def trim (str : List Char) : List Char :=
  ((str.dropWhile isTrimChar).reverse.dropWhile isTrimChar).reverse

/-- The tokens read by `while (getline(ss, token, delimiter))`: the pieces between
delimiters; a final piece is produced only when it is non-empty. -/
def getlineTokens (delimiter : Char) : List Char → List (List Char)
  | [] => []
  | c :: cs =>
    if c = delimiter then [] :: getlineTokens delimiter cs
    else
      match getlineTokens delimiter cs with
      | [] => [[c]]
      | p :: ps => (c :: p) :: ps

/-- Source `SICXEAssembler::split`: every token is trimmed. -/
def split (str : List Char) (delimiter : Char) : List (List Char) :=
  (getlineTokens delimiter str).map trim

/-- Source `isspace` of the C locale, as used by `std::stoi` to skip leading blanks. -/
def isSpace (c : Char) : Bool :=
  c == ' ' || c == '\t' || c == '\n' || c == '\x0b' || c == '\x0c' || c == '\r'

/-- Value of a run of decimal digits, most significant first. -/
def digitsValue (ds : List Char) : Nat :=
  ds.foldl (fun acc c => acc * 10 + (c.toNat - 48)) 0

/-- Source `std::stoi(str)`: skip blanks, read an optional sign and the longest run of decimal
digits, ignore what follows. `none` stands for a thrown exception: `invalid_argument`
when there is no digit, `out_of_range` when the value does not fit an `int`. -/
def stoi (str : List Char) : Option Int :=
  let s1 := str.dropWhile isSpace
  let neg := s1.head? == some '-'
  let s2 := if s1.head? == some '-' || s1.head? == some '+' then s1.tail else s1
  let ds := s2.takeWhile Char.isDigit
  if ds.isEmpty then none
  else
    let v : Int := if neg then - (Int.ofNat (digitsValue ds)) else Int.ofNat (digitsValue ds)
    if -2147483648 ≤ v ∧ v ≤ 2147483647 then some v else none

/-- Value of one hexadecimal digit, `none` for any other character. -/
def hexDigitValue (c : Char) : Option Nat :=
  if c.isDigit then some (c.toNat - 48)
  else if 'A'.toNat ≤ c.toNat ∧ c.toNat ≤ 'F'.toNat then some (c.toNat - 55)
  else if 'a'.toNat ≤ c.toNat ∧ c.toNat ≤ 'f'.toNat then some (c.toNat - 87)
  else none

/-- Value of the longest prefix of hexadecimal digits; the flag tells whether any digit
was read. -/
def hexPrefixValue : List Char → Nat → Bool → Nat × Bool
  | [], acc, seen => (acc, seen)
  | c :: cs, acc, seen =>
    match hexDigitValue c with
    | some d => hexPrefixValue cs (acc * 16 + d) true
    | none => (acc, seen)

/-- Source `SICXEAssembler::hexToDecimal`: formatted extraction of an `int` in base 16 from a
string stream: leading blanks, an optional sign and an optional `0x` / `0X` are skipped,
the result is 0 when no digit is read and is clamped to the range of `int` on overflow. -/
def hexToDecimal (hex : List Char) : Int :=
  let s1 := hex.dropWhile isSpace
  let neg := s1.head? == some '-'
  let s2 := if s1.head? == some '-' || s1.head? == some '+' then s1.tail else s1
  let s3 :=
    match s2 with
    | '0' :: 'x' :: rest => rest
    | '0' :: 'X' :: rest => rest
    | _ => s2
  let r := hexPrefixValue s3 0 false
  if r.2 then
    let v : Int := if neg then - (Int.ofNat r.1) else Int.ofNat r.1
    if v < -2147483648 then -2147483648
    else if 2147483647 < v then 2147483647
    else v
  else 0

/-- The upper-case hexadecimal digit of a value below 16. -/
def hexDigit (n : Nat) : Char :=
  if n < 10 then Char.ofNat (48 + n) else Char.ofNat (55 + n)

/-- Hexadecimal digits of `n`, most significant first, no leading zero (`"0"` for 0);
`fuel` bounds the number of digits. -/
def hexDigits : Nat → Nat → List Char
  | 0, _ => []
  | fuel + 1, n =>
    if n < 16 then [hexDigit n] else hexDigits fuel (n / 16) ++ [hexDigit (n % 16)]

/-- Source `SICXEAssembler::intToHex`: `hex << uppercase << setfill('0') << setw(width) << value`.
An `int` is printed in base 16 as its unsigned 32-bit pattern (at most 8 digits); `setw`
pads on the left up to `width` and never truncates. -/
def intToHex (value : Int) (width : Nat) : List Char :=
  let ds := hexDigits 8 (toUnsigned value)
  List.replicate (width - ds.length) '0' ++ ds

/-- Source `(int)c` for a `char` of the string: bytes from 0x80 are negative. -/
def charToInt (c : Char) : Int :=
  if c.toNat < 128 then Int.ofNat c.toNat else Int.ofNat c.toNat - 256

/-- Source `str.find(pat)`: index of the first occurrence, `none` for `npos`. -/
def findSub (pat : List Char) : List Char → Option Nat
  | [] => if pat.isEmpty then some 0 else none
  | c :: cs =>
    if pat.isPrefixOf (c :: cs) then some 0
    else (findSub pat cs).map (· + 1)

/-! ## Data model (`assembler.h`) -/

/-- One row of source after parsing (`struct AssemblyLine`). -/
structure AssemblyLine where
  lineNumber : Nat := 0
  label : List Char := []
  opcode : List Char := []
  operand : List Char := []
  comment : List Char := []
  address : Int := 0
  objectCode : List Char := []
  isComment : Bool := false
  controlSection : List Char := []
deriving DecidableEq, Repr

/-- Symbol table entry (`struct Symbol`). -/
structure Symbol where
  address : Int := 0
  controlSection : List Char := []
  isExternal : Bool := false
  isDefined : Bool := false
deriving DecidableEq, Repr

/-- Catalog entry (`struct Instruction`); `machineCode` is the opcode byte in hex. -/
structure Instruction where
  opcode : List Char := []
  format : Nat := 0
  machineCode : List Char := []
deriving DecidableEq, Repr

/-- One relocatable unit (`struct ControlSection`). -/
structure ControlSection where
  name : List Char := []
  startAddress : Int := 0
  length : Int := 0
  extDef : List (List Char) := []
  extRef : List (List Char) := []
deriving DecidableEq, Repr

/-- Relocation entry (`struct ModificationRecord`); `isAddition` is the sign. -/
structure ModificationRecord where
  address : Int
  length : Int
  symbol : List Char
  isAddition : Bool := true
deriving DecidableEq, Repr

/-- Packet of object codes (`struct TextRecord`). -/
structure TextRecord where
  startAddress : Int
  objectCodes : List (List Char) := []
  controlSection : List Char := []
deriving DecidableEq, Repr

/-- Source `map.find(key)`: the mapped value, `none` for `end()`. -/
def mapFind {V : Type} (m : List (List Char × V)) (key : List Char) : Option V :=
  match m with
  | [] => none
  | (k, v) :: rest => if k = key then some v else mapFind rest key

/-- The catalog built by `initializeInstructionTable`. The constructor fills it once and
no method changes it afterwards (every `instructionTable[...]` is guarded by `find`). -/
def instructionTable : List (List Char × Instruction) := [
  ("FIX".toList, ⟨"FIX".toList, 1, "C4".toList⟩),
  ("FLOAT".toList, ⟨"FLOAT".toList, 1, "C0".toList⟩),
  ("HIO".toList, ⟨"HIO".toList, 1, "F4".toList⟩),
  ("NORM".toList, ⟨"NORM".toList, 1, "C8".toList⟩),
  ("SIO".toList, ⟨"SIO".toList, 1, "F0".toList⟩),
  ("TIO".toList, ⟨"TIO".toList, 1, "F8".toList⟩),
  ("ADDR".toList, ⟨"ADDR".toList, 2, "90".toList⟩),
  ("CLEAR".toList, ⟨"CLEAR".toList, 2, "B4".toList⟩),
  ("COMPR".toList, ⟨"COMPR".toList, 2, "A0".toList⟩),
  ("DIVR".toList, ⟨"DIVR".toList, 2, "9C".toList⟩),
  ("MULR".toList, ⟨"MULR".toList, 2, "98".toList⟩),
  ("RMO".toList, ⟨"RMO".toList, 2, "AC".toList⟩),
  ("SHIFTL".toList, ⟨"SHIFTL".toList, 2, "A4".toList⟩),
  ("SHIFTR".toList, ⟨"SHIFTR".toList, 2, "A8".toList⟩),
  ("SUBR".toList, ⟨"SUBR".toList, 2, "94".toList⟩),
  ("SVC".toList, ⟨"SVC".toList, 2, "B0".toList⟩),
  ("TIXR".toList, ⟨"TIXR".toList, 2, "B8".toList⟩),
  ("ADD".toList, ⟨"ADD".toList, 3, "18".toList⟩),
  ("ADDF".toList, ⟨"ADDF".toList, 3, "58".toList⟩),
  ("AND".toList, ⟨"AND".toList, 3, "40".toList⟩),
  ("COMP".toList, ⟨"COMP".toList, 3, "28".toList⟩),
  ("COMPF".toList, ⟨"COMPF".toList, 3, "88".toList⟩),
  ("DIV".toList, ⟨"DIV".toList, 3, "24".toList⟩),
  ("DIVF".toList, ⟨"DIVF".toList, 3, "64".toList⟩),
  ("J".toList, ⟨"J".toList, 3, "3C".toList⟩),
  ("JEQ".toList, ⟨"JEQ".toList, 3, "30".toList⟩),
  ("JGT".toList, ⟨"JGT".toList, 3, "34".toList⟩),
  ("JLT".toList, ⟨"JLT".toList, 3, "38".toList⟩),
  ("JSUB".toList, ⟨"JSUB".toList, 3, "48".toList⟩),
  ("LDA".toList, ⟨"LDA".toList, 3, "00".toList⟩),
  ("LDB".toList, ⟨"LDB".toList, 3, "68".toList⟩),
  ("LDCH".toList, ⟨"LDCH".toList, 3, "50".toList⟩),
  ("LDF".toList, ⟨"LDF".toList, 3, "70".toList⟩),
  ("LDL".toList, ⟨"LDL".toList, 3, "08".toList⟩),
  ("LDS".toList, ⟨"LDS".toList, 3, "6C".toList⟩),
  ("LDT".toList, ⟨"LDT".toList, 3, "74".toList⟩),
  ("LDX".toList, ⟨"LDX".toList, 3, "04".toList⟩),
  ("LPS".toList, ⟨"LPS".toList, 3, "D0".toList⟩),
  ("MUL".toList, ⟨"MUL".toList, 3, "20".toList⟩),
  ("MULF".toList, ⟨"MULF".toList, 3, "60".toList⟩),
  ("OR".toList, ⟨"OR".toList, 3, "44".toList⟩),
  ("RD".toList, ⟨"RD".toList, 3, "D8".toList⟩),
  ("RSUB".toList, ⟨"RSUB".toList, 3, "4C".toList⟩),
  ("SSK".toList, ⟨"SSK".toList, 3, "EC".toList⟩),
  ("STA".toList, ⟨"STA".toList, 3, "0C".toList⟩),
  ("STB".toList, ⟨"STB".toList, 3, "78".toList⟩),
  ("STCH".toList, ⟨"STCH".toList, 3, "54".toList⟩),
  ("STF".toList, ⟨"STF".toList, 3, "80".toList⟩),
  ("STI".toList, ⟨"STI".toList, 3, "D4".toList⟩),
  ("STL".toList, ⟨"STL".toList, 3, "14".toList⟩),
  ("STS".toList, ⟨"STS".toList, 3, "7C".toList⟩),
  ("STSW".toList, ⟨"STSW".toList, 3, "E8".toList⟩),
  ("STT".toList, ⟨"STT".toList, 3, "84".toList⟩),
  ("STX".toList, ⟨"STX".toList, 3, "10".toList⟩),
  ("SUB".toList, ⟨"SUB".toList, 3, "1C".toList⟩),
  ("SUBF".toList, ⟨"SUBF".toList, 3, "5C".toList⟩),
  ("TD".toList, ⟨"TD".toList, 3, "E0".toList⟩),
  ("TIX".toList, ⟨"TIX".toList, 3, "2C".toList⟩),
  ("WD".toList, ⟨"WD".toList, 3, "DC".toList⟩)
]

/-- Source `instructionTable[opcode]`: the entry, or a default-constructed one. -/
def instructionAt (opcode : List Char) : Instruction :=
  (mapFind instructionTable opcode).getD {}

/-- The member variables of `SICXEAssembler` (the catalog apart). -/
structure Assembler where
  sourceLines : List AssemblyLine := []
  symbolTable : List (List Char × Symbol) := []
  controlSections : List ControlSection := []
  modificationRecords : List ModificationRecord := []
  textRecords : List TextRecord := []
  literalTable : List (List Char × Int) := []
  pendingLiterals : List (List Char) := []
  ltorgLiterals : List (Nat × List (List Char)) := []
  currentControlSection : List Char := []
  locationCounter : Int := 0
  baseRegister : Int := 0
  baseSet : Bool := false
deriving DecidableEq, Repr

/-! ## Addressing-mode helpers (`pass2.cpp`) -/

/-- Source `SICXEAssembler::isImmediate`. -/
def isImmediate (operand : List Char) : Bool := operand.head? == some '#'

/-- Source `SICXEAssembler::isIndirect`. -/
def isIndirect (operand : List Char) : Bool := operand.head? == some '@'

/-- Source `SICXEAssembler::isIndexed`: the operand contains `",X"`. -/
def isIndexed (operand : List Char) : Bool := (findSub ",X".toList operand).isSome

/-- Source `SICXEAssembler::getBaseOperand`: drop one leading `#` or `@`, then cut at the first
`",X"`. -/
def getBaseOperand (operand : List Char) : List Char :=
  let result :=
    if operand.head? == some '#' || operand.head? == some '@' then operand.drop 1 else operand
  match findSub ",X".toList result with
  | some commaPos => result.take commaPos
  | none => result

/-- Source `SICXEAssembler::isRegisterName` (`utils.cpp`). -/
def isRegisterName (name : List Char) : Bool :=
  name == "A".toList || name == "X".toList || name == "L".toList || name == "B".toList ||
  name == "S".toList || name == "T".toList || name == "F".toList || name == "PC".toList ||
  name == "SW".toList

/-- Source `SICXEAssembler::isExternalReference` (`object_generator.cpp`): the symbol is flagged
external in the symbol table, or is in the `EXTREF` list of the first control section of
that name. -/
def isExternalReference (a : Assembler) (symbol controlSection : List Char) : Bool :=
  if (match mapFind a.symbolTable symbol with
      | some s => s.isExternal
      | none => false) then true
  else
    match a.controlSections.find? (fun cs => cs.name == controlSection) with
    | some cs => cs.extRef.contains symbol
    | none => false

/-- Source `SICXEAssembler::calculateTargetAddress`. The control section is that of the first
line whose address equals `currentAddress`. -/
def calculateTargetAddress (a : Assembler) (operand : List Char) (currentAddress : Int) : Int :=
  let currentCS : List Char :=
    match a.sourceLines.find? (fun line => line.address == currentAddress) with
    | some line => line.controlSection
    | none => []
  let currentCSObj := a.controlSections.find? (fun cs => cs.name == currentCS)
  if (match currentCSObj with
      | some cs => cs.extRef.contains operand
      | none => false) then 0
  else
    match a.sourceLines.find?
        (fun line => line.label == operand && line.controlSection == currentCS &&
          !line.isComment) with
    | some line => line.address
    | none =>
      match (mapFind a.symbolTable operand).filter
          (fun s => s.controlSection == currentCS && !s.isExternal && s.isDefined) with
      | some s => s.address
      | none =>
        match mapFind a.symbolTable operand with
        | some symbol => if symbol.isExternal then 0 else symbol.address
        | none =>
          match stoi operand with
          | some v => v
          | none => 0

/-! ## Object code per format (`pass2.cpp`) -/

/-- Source `SICXEAssembler::generateFormat1ObjectCode`. -/
def generateFormat1ObjectCode (opcode : List Char) : List Char :=
  (instructionAt opcode).machineCode

/-- The local `registers` map of `generateFormat2ObjectCode`. -/
def registers : List (List Char × List Char) := [
  ("A".toList, "0".toList), ("X".toList, "1".toList), ("L".toList, "2".toList),
  ("B".toList, "3".toList), ("S".toList, "4".toList), ("T".toList, "5".toList),
  ("F".toList, "6".toList), ("PC".toList, "8".toList), ("SW".toList, "9".toList)]

/-- Source `SICXEAssembler::generateFormat2ObjectCode`. -/
def generateFormat2ObjectCode (opcode operand : List Char) : List Char :=
  let result := (instructionAt opcode).machineCode
  if !operand.isEmpty then
    let regs := split operand ','
    let result1 :=
      match regs[0]?.bind (mapFind registers) with
      | some r => result ++ r
      | none => result ++ "0".toList
    match regs[1]?.bind (mapFind registers) with
    | some r => result1 ++ r
    | none => result1 ++ "0".toList
  else result ++ "00".toList

/-- The `n`, `i` and `x` bits of `nixbpe` as set by `generateFormat3ObjectCode` and
`generateFormat4ObjectCode`, starting from `nixbpe`. -/
def setNIX (nixbpe : Int) (operand : List Char) : Int :=
  let nixbpe1 :=
    if isImmediate operand then orInt nixbpe 0x10
    else if isIndirect operand then orInt nixbpe 0x20
    else orInt nixbpe 0x30
  if isIndexed operand then orInt nixbpe1 0x08 else nixbpe1

/-- The displacement selection shared by the two symbol branches of
`generateFormat3ObjectCode`: PC-relative first, then base-relative when a base is set.
Returns `(nixbpe, displacement)`. -/
def selectDisplacement (a : Assembler) (nixbpe targetAddress address : Int) : Int × Int :=
  let displacement := wrapInt (targetAddress - wrapInt (address + 3))
  if displacement ≥ -2048 ∧ displacement ≤ 2047 then (orInt nixbpe 0x02, displacement)
  else if a.baseSet then
    let displacement := wrapInt (targetAddress - a.baseRegister)
    if displacement ≥ 0 ∧ displacement ≤ 4095 then (orInt nixbpe 0x04, displacement)
    else (nixbpe, displacement)
  else (nixbpe, displacement)

/-- The first part of `generateFormat3ObjectCode`: `(nixbpe, displacement)` as they stand
before the displacement is reduced to 12 bits. -/
def format3Fields (a : Assembler) (operand : List Char) (address : Int) : Int × Int :=
  let nixbpe := setNIX 0 operand
  if operand.isEmpty then (nixbpe, 0)
  else
    let baseOperand := getBaseOperand operand
    let targetAddress := calculateTargetAddress a baseOperand address
    if isImmediate operand then
      match stoi baseOperand with
      | some v => (nixbpe, v)
      | none => selectDisplacement a nixbpe targetAddress address
    else selectDisplacement a nixbpe targetAddress address

/-- The last part of `generateFormat3ObjectCode`: the three bytes in hexadecimal. -/
def packFormat3 (opcodeValue nixbpe displacement : Int) : List Char :=
  let displacement := if displacement < 0 then andInt displacement 0xFFF else displacement
  let firstByte := orInt (andInt opcodeValue 0xFC) (andInt (shrInt nixbpe 4) 0x03)
  let secondByte := orInt (shlInt (andInt nixbpe 0x0F) 4) (andInt (shrInt displacement 8) 0x0F)
  let thirdByte := andInt displacement 0xFF
  intToHex firstByte 2 ++ intToHex secondByte 2 ++ intToHex thirdByte 2

/-- Source `SICXEAssembler::generateFormat3ObjectCode`. -/
def generateFormat3ObjectCode (a : Assembler) (opcode operand : List Char) (address : Int) :
    List Char :=
  let opcodeValue := hexToDecimal (instructionAt opcode).machineCode
  let fields := format3Fields a operand address
  packFormat3 opcodeValue fields.1 fields.2

/-- The opcode of a line without its `+` prefix. -/
def stripPlus (opcode : List Char) : List Char :=
  if opcode.head? == some '+' then opcode.drop 1 else opcode

/-- The control section that `generateFormat4ObjectCode` takes for the instruction: that
of the first line with the same address and (unprefixed) opcode, `""` when there is none. -/
def format4Section (a : Assembler) (opcode : List Char) (address : Int) : List Char :=
  match a.sourceLines.find?
      (fun line => line.address == address && !line.opcode.isEmpty &&
        stripPlus line.opcode == opcode) with
  | some line => line.controlSection
  | none => []

/-- The middle part of `generateFormat4ObjectCode`: the target address and the
Modification records pushed for the instruction. -/
def format4Target (a : Assembler) (opcode operand : List Char) (address : Int) :
    Int × List ModificationRecord :=
  let baseOperand := getBaseOperand operand
  let currentCS := format4Section a opcode address
  let inExtRef :=
    match a.controlSections.find? (fun cs => cs.name == currentCS) with
    | some cs => cs.extRef.contains baseOperand
    | none => false
  let flagged :=
    match mapFind a.symbolTable baseOperand with
    | some s => s.isExternal
    | none => false
  if inExtRef || flagged then
    (0, [{ address := wrapInt (address + 1), length := 5, symbol := baseOperand }])
  else
    let targetAddress := calculateTargetAddress a baseOperand address
    let internal : List ModificationRecord :=
      if (mapFind a.symbolTable baseOperand).isSome then
        [{ address := wrapInt (address + 1), length := 5, symbol := currentCS }]
      else []
    if isImmediate operand then
      match stoi baseOperand with
      | some v => (v, [])
      | none => (targetAddress, internal)
    else (targetAddress, internal)

/-- The last part of `generateFormat4ObjectCode`: the 32-bit word in hexadecimal. -/
def packFormat4 (opcodeValue nixbpe targetAddress : Int) : List Char :=
  let firstPart := orInt (shlInt (andInt opcodeValue 0xFC) 4) (andInt nixbpe 0x3F)
  let addressPart := andInt targetAddress 0xFFFFF
  let fullInstruction := orInt (shlInt firstPart 20) addressPart
  intToHex fullInstruction 8

/-- Source `SICXEAssembler::generateFormat4ObjectCode`: the object code and the assembler with
the new Modification records appended. -/
def generateFormat4ObjectCode (a : Assembler) (opcode operand : List Char) (address : Int) :
    List Char × Assembler :=
  let opcodeValue := hexToDecimal (instructionAt opcode).machineCode
  let nixbpe := setNIX (orInt 0 0x01) operand
  let target := format4Target a opcode operand address
  (packFormat4 opcodeValue nixbpe target.1,
    { a with modificationRecords := a.modificationRecords ++ target.2 })

/-- Source `a - b` on `size_t` (64 bits, wraps around below zero). -/
def sizeSub (a b : Nat) : Nat := (a + 18446744073709551616 - b) % 18446744073709551616

/-- Source `str.substr(pos, len)`; `none` stands for the `std::out_of_range` thrown when `pos`
is beyond the end of the string. -/
def substrChecked (str : List Char) (pos len : Nat) : Option (List Char) :=
  if pos ≤ str.length then some ((str.drop pos).take len) else none

/-- The character-constant loop `for (char c : chars) result += intToHex((int)c, 2)`. -/
def charsToHex (chars : List Char) : List Char :=
  (chars.map (fun c => intToHex (charToInt c) 2)).flatten

/-- Source `SICXEAssembler::generateLiteralObjectCode`. -/
def generateLiteralObjectCode (literal : List Char) : Option (List Char) :=
  if literal.take 2 == "=C".toList then
    (substrChecked literal 3 (sizeSub literal.length 4)).map charsToHex
  else if literal.take 2 == "=X".toList then
    substrChecked literal 3 (sizeSub literal.length 4)
  else some "000000".toList

/-- Source `SICXEAssembler::generateObjectCode`: the object code of one line and the assembler
after the call (`BASE` sets the base register, format 4 appends Modification records);
`none` stands for an uncaught `std::out_of_range`. -/
def generateObjectCode (a : Assembler) (line : AssemblyLine) :
    Option (List Char × Assembler) :=
  let opcode := line.opcode
  let operand := line.operand
  if opcode == "WORD".toList then
    if !operand.isEmpty then
      match stoi operand with
      | some value => some (intToHex value 6, a)
      | none =>
        match mapFind a.symbolTable operand with
        | some s => some (intToHex s.address 6, a)
        | none => some ("000000".toList, a)
    else some ("000000".toList, a)
  else if opcode == "BYTE".toList then
    if !operand.isEmpty then
      if operand.head? == some 'C' then
        (substrChecked operand 2 (sizeSub operand.length 3)).map
          (fun chars => (charsToHex chars, a))
      else if operand.head? == some 'X' then
        (substrChecked operand 2 (sizeSub operand.length 3)).map (fun digits => (digits, a))
      else some ([], a)
    else some ([], a)
  else if opcode == "BASE".toList then
    if !operand.isEmpty then
      match mapFind a.symbolTable operand with
      | some s => some ([], { a with baseRegister := s.address, baseSet := true })
      | none => some ([], a)
    else some ([], a)
  else if opcode == "LTORG".toList then some ([], a)
  else if !operand.isEmpty && operand.head? == some '=' && !line.label.isEmpty &&
      line.label == "*".toList then
    (generateLiteralObjectCode operand).map (fun code => (code, a))
  else
    let isExtended := opcode.head? == some '+'
    let opcode := if isExtended then opcode.drop 1 else opcode
    match mapFind instructionTable opcode with
    | none => some ([], a)
    | some instr =>
      let format := if isExtended && instr.format == 3 then 4 else instr.format
      if format == 1 then some (generateFormat1ObjectCode opcode, a)
      else if format == 2 then some (generateFormat2ObjectCode opcode operand, a)
      else if format == 3 then some (generateFormat3ObjectCode a opcode operand line.address, a)
      else if format == 4 then some (generateFormat4ObjectCode a opcode operand line.address)
      else some ([], a)

/-! ## Pre-pass-2 validation (`pass2.cpp`) -/

/-- What the assembler reports when it stops: one of the diagnostics printed before
`exit(1)` (`undefinedSymbol` and `invalidRegister` in `validateSymbolReferences`,
`undefinedSymbol` also in `EQU`, the others in pass 1), or an exception that no handler
of the assembler catches (`std::out_of_range`, `std::invalid_argument`). -/
inductive AsmError where
  | undefinedSymbol (lineNumber : Nat) (symbol : List Char)
  | invalidRegister (lineNumber : Nat) (reg : List Char)
  | duplicateSymbol (lineNumber : Nat) (symbol : List Char)
  | invalidOpcode (lineNumber : Nat) (opcode : List Char)
  | invalidExpression (lineNumber : Nat) (operand : List Char)
  | unsupportedDirective (lineNumber : Nat) (opcode : List Char)
  | uncaughtException
deriving DecidableEq, Repr

/-- The directives that `validateSymbolReferences` skips. -/
def validationSkipped (opcode : List Char) : Bool :=
  opcode == "START".toList || opcode == "END".toList || opcode == "CSECT".toList ||
  opcode == "EXTDEF".toList || opcode == "EXTREF".toList || opcode == "BASE".toList ||
  opcode == "NOBASE".toList || opcode == "RESW".toList || opcode == "RESB".toList ||
  opcode == "LTORG".toList || opcode == "EQU".toList || opcode == "BYTE".toList

/-- The test made on every symbol: absent from the symbol table and not an external
reference of the section. -/
def isUndefined (a : Assembler) (symbol controlSection : List Char) : Bool :=
  (mapFind a.symbolTable symbol).isNone && !isExternalReference a symbol controlSection

/-- The body of the loop of `validateSymbolReferences` for one line. -/
def validateLine (a : Assembler) (line : AssemblyLine) : Except AsmError Unit :=
  if line.isComment || line.operand.isEmpty then .ok ()
  else if validationSkipped line.opcode then .ok ()
  else
    let operand := line.operand
    if operand.head? == some '=' || operand.head? == some '#' then .ok ()
    else if line.opcode == "WORD".toList then
      match stoi operand with
      | some _ => .ok ()
      | none =>
        if operand.contains '-' then
          match ((split operand '-').map trim).find?
              (fun symbol => isUndefined a symbol line.controlSection) with
          | some symbol => .error (.undefinedSymbol line.lineNumber symbol)
          | none => .ok ()
        else if isUndefined a operand line.controlSection then
          .error (.undefinedSymbol line.lineNumber operand)
        else .ok ()
    else if (match mapFind instructionTable line.opcode with
        | some instr => instr.format == 2
        | none => false) then
      match (split operand ',').find? (fun reg => !isRegisterName reg) with
      | some reg => .error (.invalidRegister line.lineNumber reg)
      | none => .ok ()
    else
      let baseOperand := getBaseOperand operand
      if (stoi baseOperand).isSome then .ok ()
      else if isRegisterName baseOperand then .ok ()
      else if isUndefined a baseOperand line.controlSection then
        .error (.undefinedSymbol line.lineNumber baseOperand)
      else .ok ()

/-- The loop of `validateSymbolReferences` over the remaining lines: it stops at the
first line that fails. -/
def validateLines (a : Assembler) : List AssemblyLine → Except AsmError Unit
  | [] => .ok ()
  | line :: rest =>
    match validateLine a line with
    | .ok _ => validateLines a rest
    | .error e => .error e

/-- Source `SICXEAssembler::validateSymbolReferences`. -/
def validateSymbolReferences (a : Assembler) : Except AsmError Unit :=
  validateLines a a.sourceLines

/-! ## Record emitter (`object_generator.cpp`) -/

/-- The local variables of the inner loop of `generateTextRecords`, with the
`textRecords` member. -/
structure TextState where
  textRecords : List TextRecord
  currentRecord : TextRecord
  currentLength : Int
  lastObjectCodeEndAddress : Int
deriving DecidableEq, Repr

/-- Source `if (!currentRecord.objectCodes.empty()) textRecords.push_back(currentRecord)`. -/
def pushIfNonEmpty (textRecords : List TextRecord) (currentRecord : TextRecord) :
    List TextRecord :=
  if !currentRecord.objectCodes.isEmpty then textRecords ++ [currentRecord] else textRecords

/-- First block of the loop body of `generateTextRecords`: a new record is opened at the
first object code of the section and after a gap; the record so far is saved if it has
content. -/
def openOnGap (csName : List Char) (s : TextState) (line : AssemblyLine) : TextState :=
  let hasGap :=
    s.lastObjectCodeEndAddress != -1 && decide (line.address > s.lastObjectCodeEndAddress)
  if s.currentRecord.startAddress == -1 || hasGap then
    { s with
      textRecords :=
        if s.currentRecord.startAddress != -1 then
          pushIfNonEmpty s.textRecords s.currentRecord
        else s.textRecords
      currentRecord := { startAddress := line.address, controlSection := csName }
      currentLength := 0 }
  else s

/-- Second block: when the object code would bring the record over `MAX_TEXT_LENGTH = 60`
hexadecimal characters, the record is saved and a new one opened. -/
def openOnOverflow (csName : List Char) (s : TextState) (line : AssemblyLine) : TextState :=
  let objectCodeLength : Int := wrapInt (Int.ofNat line.objectCode.length)
  if wrapInt (s.currentLength + objectCodeLength) > 60 then
    { s with
      textRecords := pushIfNonEmpty s.textRecords s.currentRecord
      currentRecord := { startAddress := line.address, controlSection := csName }
      currentLength := 0 }
  else s

/-- Third block: the object code is appended to the current record. -/
def appendObjectCode (s : TextState) (line : AssemblyLine) : TextState :=
  let objectCodeLength : Int := wrapInt (Int.ofNat line.objectCode.length)
  { textRecords := s.textRecords
    currentRecord :=
      { s.currentRecord with objectCodes := s.currentRecord.objectCodes ++ [line.objectCode] }
    currentLength := wrapInt (s.currentLength + objectCodeLength)
    lastObjectCodeEndAddress := wrapInt (line.address + objectCodeLength / 2) }

/-- One iteration of the loop over the source lines in `generateTextRecords`, for the
control section `csName`. -/
def textStep (csName : List Char) (s : TextState) (line : AssemblyLine) : TextState :=
  if line.controlSection != csName then s
  else if line.objectCode.isEmpty then s
  else appendObjectCode (openOnOverflow csName (openOnGap csName s line) line) line

/-- The body of the loop over the control sections in `generateTextRecords`. -/
def textRecordsOfSection (sourceLines : List AssemblyLine) (textRecords : List TextRecord)
    (cs : ControlSection) : List TextRecord :=
  let s := sourceLines.foldl (textStep cs.name)
    { textRecords := textRecords
      currentRecord := { startAddress := -1, controlSection := cs.name }
      currentLength := 0
      lastObjectCodeEndAddress := -1 }
  pushIfNonEmpty s.textRecords s.currentRecord

/-- Source `SICXEAssembler::generateTextRecords`. -/
def generateTextRecords (a : Assembler) : Assembler :=
  { a with textRecords := a.controlSections.foldl (textRecordsOfSection a.sourceLines) [] }

/-- The Modification records that one iteration of the loop of
`generateModificationRecords` pushes. -/
def modificationRecordsOfLine (a : Assembler) (line : AssemblyLine) :
    List ModificationRecord :=
  if line.isComment || line.objectCode.isEmpty then []
  else
    let forWord : List ModificationRecord :=
      if line.opcode == "WORD".toList && !line.operand.isEmpty then
        let operand := line.operand
        if operand.contains '-' then
          match split operand '-' with
          | [p0, p1] =>
            let symbol1 := trim p0
            let symbol2 := trim p1
            (if isExternalReference a symbol1 line.controlSection then
              [{ address := line.address, length := 6, symbol := symbol1, isAddition := true }]
            else []) ++
            (if isExternalReference a symbol2 line.controlSection then
              [{ address := line.address, length := 6, symbol := symbol2, isAddition := false }]
            else [])
          | _ => []
        else if isExternalReference a operand line.controlSection then
          [{ address := line.address, length := 6, symbol := operand, isAddition := true }]
        else []
      else []
    let forFormat3 : List ModificationRecord :=
      if !line.opcode.isEmpty && line.opcode.head? != some '+' &&
          (match mapFind instructionTable line.opcode with
            | some instr => instr.format == 3
            | none => false) && !line.operand.isEmpty then
        let baseOperand := getBaseOperand line.operand
        if isExternalReference a baseOperand line.controlSection then
          [{ address := wrapInt (line.address + 1), length := 5, symbol := baseOperand,
             isAddition := true }]
        else []
      else []
    forWord ++ forFormat3

/-- Source `SICXEAssembler::generateModificationRecords`. -/
def generateModificationRecords (a : Assembler) : Assembler :=
  { a with
    modificationRecords :=
      a.sourceLines.foldl (fun recs line => recs ++ modificationRecordsOfLine a line)
        a.modificationRecords }

/-- The byte count that `generateObjectFile` writes in a Text record: every object code
counts for half its number of hex characters, rounded down. -/
def declaredLength (textRecord : TextRecord) : Int :=
  textRecord.objectCodes.foldl
    (fun totalLength objCode => wrapInt (totalLength + Int.ofNat (objCode.length / 2))) 0

/-- The hex characters of a Text record as written, separators excluded. -/
def payload (textRecord : TextRecord) : List Char := textRecord.objectCodes.flatten

/-- The line that `generateObjectFile` writes for one Text record (without the newline):
`T^<start,6>^<length,2>^<codes separated by ^>`. -/
def textRecordLine (textRecord : TextRecord) : List Char :=
  "T^".toList ++ intToHex textRecord.startAddress 6 ++ "^".toList ++
    intToHex (declaredLength textRecord) 2 ++ "^".toList ++
    "^".toList.intercalate textRecord.objectCodes

/-! ## Pass 2 (`pass2.cpp`) -/

/-- The loop `for (auto& line : sourceLines)` of `pass2`: `done` are the lines already
visited (with their object code), the list argument those still to visit; the assembler
seen by `generateObjectCode` holds both. -/
def pass2Loop (a : Assembler) (done : List AssemblyLine) :
    List AssemblyLine → Except AsmError Assembler
  | [] => .ok { a with sourceLines := done }
  | line :: rest =>
    if line.isComment then pass2Loop a (done ++ [line]) rest
    else if !line.opcode.isEmpty ||
        (line.label == "*".toList && !line.operand.isEmpty && line.operand.head? == some '=') then
      match generateObjectCode { a with sourceLines := done ++ line :: rest } line with
      | none => .error .uncaughtException
      | some (code, a1) => pass2Loop a1 (done ++ [{ line with objectCode := code }]) rest
    else pass2Loop a (done ++ [line]) rest

/-- Source `SICXEAssembler::pass2`. -/
def pass2 (a : Assembler) : Except AsmError Assembler :=
  match validateSymbolReferences a with
  | .error e => .error e
  | .ok _ =>
    match pass2Loop a [] a.sourceLines with
    | .error e => .error e
    | .ok a1 => .ok (generateModificationRecords (generateTextRecords a1))

/-! ## Line parser (`utils.cpp`) -/

/-- Source `SICXEAssembler::toUpperCase` (`::toupper` on every character). -/
def toUpperCase (str : List Char) : List Char := str.map Char.toUpper

/-- The directive names that `parseLine` recognises in the first field. -/
def isParsedDirective (w : List Char) : Bool :=
  w == "START".toList || w == "END".toList || w == "RESW".toList || w == "RESB".toList ||
  w == "WORD".toList || w == "BYTE".toList || w == "CSECT".toList || w == "EXTDEF".toList ||
  w == "EXTREF".toList || w == "BASE".toList || w == "NOBASE".toList || w == "EQU".toList ||
  w == "ORG".toList || w == "LTORG".toList

/-- Source `SICXEAssembler::parseLine`. It runs before pass 1, when `currentControlSection` is
still empty. -/
def parseLine (line : List Char) (lineNum : Nat) : AssemblyLine :=
  if line.isEmpty || line.head? == some '.' then
    { lineNumber := lineNum, isComment := true, comment := line }
  else
    let parts := split line '\t'
    match parts with
    | [] => { lineNumber := lineNum }
    | p0 :: rest =>
      let firstPart := toUpperCase (trim p0)
      if (mapFind instructionTable firstPart).isSome || isParsedDirective firstPart then
        { lineNumber := lineNum
          opcode := firstPart
          operand := (rest[0]?.map trim).getD []
          comment := (rest[1]?.map trim).getD [] }
      else
        { lineNumber := lineNum
          label := firstPart
          opcode := (rest[0]?.map (fun p => toUpperCase (trim p))).getD []
          operand := (rest[1]?.map trim).getD []
          comment := (rest[2]?.map trim).getD [] }

/-- The loop of `SICXEAssembler::parseSourceFile` over the lines read from the file,
numbered from `lineNumber`. -/
def parseLines : List (List Char) → Nat → List AssemblyLine
  | [], _ => []
  | line :: rest, lineNumber => parseLine line lineNumber :: parseLines rest (lineNumber + 1)

/-! ## Pass 1 (`pass1.cpp`) -/

/-- Source `map[key] = value`: replace the entry of `key`, or add one. -/
def mapInsert {V : Type} (m : List (List Char × V)) (key : List Char) (value : V) :
    List (List Char × V) :=
  match m with
  | [] => [(key, value)]
  | (k, v) :: rest => if k = key then (key, value) :: rest else (k, v) :: mapInsert rest key value

/-- Source `controlSections.back() = f(controlSections.back())`, nothing on an empty vector. -/
def updateBack (cs : List ControlSection) (f : ControlSection → ControlSection) :
    List ControlSection :=
  match cs.getLast? with
  | some last => cs.dropLast ++ [f last]
  | none => cs

/-- The bytes by which a literal advances the location counter in `processDirective`
(`END` and `LTORG`): the lengths are computed on `size_t` and stored in an `int`. -/
def literalAdvance (literal : List Char) : Int :=
  if literal.take 2 == "=C".toList then wrapInt (Int.ofNat (sizeSub literal.length 4))
  else if literal.take 2 == "=X".toList then wrapInt (Int.ofNat (sizeSub literal.length 4 / 2))
  else 3

/-- The loop that places the pending literals (the same in the `END` and `LTORG`
branches of `processDirective`). -/
def placeLiterals (a : Assembler) : List (List Char) → Assembler
  | [] => a
  | literal :: rest =>
    if (mapFind a.literalTable literal).isNone then
      placeLiterals
        { a with
          literalTable := mapInsert a.literalTable literal a.locationCounter
          symbolTable := mapInsert a.symbolTable literal
            { address := a.locationCounter, controlSection := a.currentControlSection,
              isDefined := true }
          locationCounter := wrapInt (a.locationCounter + literalAdvance literal) }
        rest
    else placeLiterals a rest

/-- Source `ltorgLiterals[lineNumber] = literals`. -/
def ltorgInsert (m : List (Nat × List (List Char))) (lineNumber : Nat)
    (literals : List (List Char)) : List (Nat × List (List Char)) :=
  match m with
  | [] => [(lineNumber, literals)]
  | (k, v) :: rest =>
    if k = lineNumber then (lineNumber, literals) :: rest
    else (k, v) :: ltorgInsert rest lineNumber literals

/-- Source `ltorgLiterals.find(lineNumber)`. -/
def ltorgFind (m : List (Nat × List (List Char))) (lineNumber : Nat) :
    Option (List (List Char)) :=
  match m with
  | [] => none
  | (k, v) :: rest => if k = lineNumber then some v else ltorgFind rest lineNumber

/-- The assignment that every branch of `EQU` makes: the label gets `value` in the current
section, keeping the `isExternal` flag of an existing entry. -/
def defineEqu (a : Assembler) (label : List Char) (value : Int) : Assembler :=
  match mapFind a.symbolTable label with
  | some existing =>
    { a with
      symbolTable := mapInsert a.symbolTable label
        { address := value, controlSection := a.currentControlSection,
          isExternal := existing.isExternal, isDefined := true } }
  | none =>
    { a with
      symbolTable := mapInsert a.symbolTable label
        { address := value, controlSection := a.currentControlSection, isDefined := true } }

/-- The loop of the `EXTDEF` / `EXTREF` branches over the names of the operand. -/
def declareExternals (a : Assembler) (isRef : Bool) : List (List Char) → Assembler
  | [] => a
  | symbol :: rest =>
    let trimmedSymbol := trim symbol
    let sections := updateBack a.controlSections (fun cs =>
      if isRef then { cs with extRef := cs.extRef ++ [trimmedSymbol] }
      else { cs with extDef := cs.extDef ++ [trimmedSymbol] })
    let table :=
      if (mapFind a.symbolTable trimmedSymbol).isNone then
        mapInsert a.symbolTable trimmedSymbol
          { address := 0, controlSection := a.currentControlSection, isExternal := isRef,
            isDefined := false }
      else a.symbolTable
    declareExternals { a with controlSections := sections, symbolTable := table } isRef rest

/-- The `EQU` branch of `processDirective`. -/
def processEqu (a : Assembler) (line : AssemblyLine) : Except AsmError Assembler :=
  let operand := line.operand
  if !line.label.isEmpty && !operand.isEmpty then
    if operand == "*".toList then .ok (defineEqu a line.label a.locationCounter)
    else
      match stoi operand with
      | some value => .ok (defineEqu a line.label value)
      | none =>
        if operand.contains '-' then
          match split operand '-' with
          | [p0, p1] =>
            let symbol1 := trim p0
            let symbol2 := trim p1
            let symbol1Valid := (mapFind a.symbolTable symbol1).isSome ||
              isExternalReference a symbol1 a.currentControlSection
            let symbol2Valid := (mapFind a.symbolTable symbol2).isSome ||
              isExternalReference a symbol2 a.currentControlSection
            if !symbol1Valid then .error (.undefinedSymbol line.lineNumber symbol1)
            else if !symbol2Valid then .error (.undefinedSymbol line.lineNumber symbol2)
            else
              match mapFind a.symbolTable symbol1, mapFind a.symbolTable symbol2 with
              | some s1, some s2 =>
                .ok (defineEqu a line.label (wrapInt (s1.address - s2.address)))
              | _, _ => .ok (defineEqu a line.label 0)
          | _ => .error (.invalidExpression line.lineNumber operand)
        else
          match mapFind a.symbolTable operand with
          | some s => .ok (defineEqu a line.label s.address)
          | none =>
            if isExternalReference a operand a.currentControlSection then
              .ok (defineEqu a line.label 0)
            else .error (.undefinedSymbol line.lineNumber operand)
  else .ok a

/-- Source `SICXEAssembler::processDirective`: the assembler and the line after the call
(`LTORG` writes the line's address). -/
def processDirective (a : Assembler) (line : AssemblyLine) :
    Except AsmError (Assembler × AssemblyLine) :=
  let opcode := line.opcode
  let operand := line.operand
  if opcode == "START".toList then
    let a1 := if !operand.isEmpty then { a with locationCounter := hexToDecimal operand } else a
    if !line.label.isEmpty then
      .ok ({ a1 with
              currentControlSection := line.label
              controlSections := a1.controlSections ++
                [{ name := line.label, startAddress := a1.locationCounter }] }, line)
    else .ok (a1, line)
  else if opcode == "CSECT".toList then
    let a1 := { a with
      controlSections := updateBack a.controlSections (fun cs =>
        { cs with length := wrapInt (a.locationCounter - cs.startAddress) }) }
    if !line.label.isEmpty then
      .ok ({ a1 with
              currentControlSection := line.label
              controlSections := a1.controlSections ++ [{ name := line.label, startAddress := 0 }]
              locationCounter := 0 }, line)
    else .ok (a1, line)
  else if opcode == "END".toList then
    let a1 :=
      if !a.pendingLiterals.isEmpty then
        let a0 := { a with
          ltorgLiterals := ltorgInsert a.ltorgLiterals line.lineNumber a.pendingLiterals }
        { placeLiterals a0 a.pendingLiterals with pendingLiterals := [] }
      else a
    .ok ({ a1 with
            controlSections := updateBack a1.controlSections (fun cs =>
              { cs with length := wrapInt (a1.locationCounter - cs.startAddress) }) }, line)
  else if opcode == "EXTDEF".toList then
    if !a.controlSections.isEmpty then .ok (declareExternals a false (split operand ','), line)
    else .ok (a, line)
  else if opcode == "EXTREF".toList then
    if !a.controlSections.isEmpty then .ok (declareExternals a true (split operand ','), line)
    else .ok (a, line)
  else if opcode == "BASE".toList then
    if !operand.isEmpty then
      match mapFind a.symbolTable operand with
      | some s => .ok ({ a with baseRegister := s.address, baseSet := true }, line)
      | none => .ok ({ a with baseSet := false }, line)
    else .ok (a, line)
  else if opcode == "NOBASE".toList then .ok ({ a with baseSet := false, baseRegister := 0 }, line)
  else if opcode == "EQU".toList then
    match processEqu a line with
    | .ok a1 => .ok (a1, line)
    | .error e => .error e
  else if opcode == "LTORG".toList then
    let line1 := { line with address := a.locationCounter }
    let a0 := { a with
      ltorgLiterals := ltorgInsert a.ltorgLiterals line.lineNumber a.pendingLiterals }
    .ok ({ placeLiterals a0 a.pendingLiterals with pendingLiterals := [] }, line1)
  else if opcode == "USE".toList then .error (.unsupportedDirective line.lineNumber opcode)
  else if opcode == "ORG".toList then .error (.unsupportedDirective line.lineNumber opcode)
  else .ok (a, line)

/-- Source `SICXEAssembler::getInstructionSize`. -/
def getInstructionSize (opcode : List Char) : Int :=
  match mapFind instructionTable opcode with
  | some instr => Int.ofNat instr.format
  | none => 0

/-- Source `SICXEAssembler::processInstruction`. -/
def processInstruction (a : Assembler) (line : AssemblyLine) : Except AsmError Assembler :=
  let operand := line.operand
  let a1 :=
    if !operand.isEmpty && operand.head? == some '=' then
      if !a.pendingLiterals.contains operand then
        { a with pendingLiterals := a.pendingLiterals ++ [operand] }
      else a
    else a
  let isExtended := line.opcode.head? == some '+'
  let opcode := if isExtended then line.opcode.drop 1 else line.opcode
  match mapFind instructionTable opcode with
  | some instr =>
    let size := if isExtended && instr.format == 3 then 4 else getInstructionSize opcode
    .ok { a1 with locationCounter := wrapInt (a1.locationCounter + size) }
  | none => .error (.invalidOpcode line.lineNumber opcode)

/-- The label part of the loop body of `pass1`: define the label, or fail on a duplicate
in the same control section. -/
def defineLabel (a : Assembler) (line : AssemblyLine) : Except AsmError Assembler :=
  if !line.label.isEmpty && line.opcode != "EQU".toList then
    match mapFind a.symbolTable line.label with
    | none =>
      .ok { a with
        symbolTable := mapInsert a.symbolTable line.label
          { address := a.locationCounter, controlSection := a.currentControlSection,
            isDefined := true } }
    | some existing =>
      if existing.isDefined && existing.controlSection == a.currentControlSection then
        .error (.duplicateSymbol line.lineNumber line.label)
      else
        .ok { a with
          symbolTable := mapInsert a.symbolTable line.label
            { address := a.locationCounter, controlSection := a.currentControlSection,
              isExternal := existing.isExternal, isDefined := true } }
  else .ok a

/-- The opcodes for which the loop body of `pass1` does not advance the counter itself. -/
def isPass1Directive (opcode : List Char) : Bool :=
  opcode == "START".toList || opcode == "END".toList || opcode == "CSECT".toList ||
  opcode == "EXTDEF".toList || opcode == "EXTREF".toList || opcode == "BASE".toList ||
  opcode == "NOBASE".toList || opcode == "EQU".toList || opcode == "ORG".toList ||
  opcode == "LTORG".toList || opcode == "USE".toList

/-- The storage part of the loop body of `pass1`: `RESW`, `RESB`, `WORD`, `BYTE`, or an
instruction. -/
def allocate (a : Assembler) (line : AssemblyLine) : Except AsmError Assembler :=
  if !line.opcode.isEmpty && !isPass1Directive line.opcode then
    if line.opcode == "RESW".toList then
      if !line.operand.isEmpty then
        match stoi line.operand with
        | some words =>
          .ok { a with locationCounter := wrapInt (a.locationCounter + wrapInt (words * 3)) }
        | none => .error .uncaughtException
      else .ok a
    else if line.opcode == "RESB".toList then
      if !line.operand.isEmpty then
        match stoi line.operand with
        | some bytes => .ok { a with locationCounter := wrapInt (a.locationCounter + bytes) }
        | none => .error .uncaughtException
      else .ok a
    else if line.opcode == "WORD".toList then
      .ok { a with locationCounter := wrapInt (a.locationCounter + 3) }
    else if line.opcode == "BYTE".toList then
      if !line.operand.isEmpty then
        if line.operand.head? == some 'C' then
          let length := wrapInt (Int.ofNat (sizeSub line.operand.length 3))
          .ok { a with locationCounter := wrapInt (a.locationCounter + length) }
        else if line.operand.head? == some 'X' then
          match substrChecked line.operand 2 (sizeSub line.operand.length 3) with
          | some hexDigits =>
            let length : Int := Int.ofNat ((hexDigits.length + 1) / 2)
            .ok { a with locationCounter := wrapInt (a.locationCounter + length) }
          | none => .error .uncaughtException
        else .ok a
      else .ok a
    else processInstruction a line
  else .ok a

/-- The body of the loop of `pass1` for one line. -/
def pass1Step (a : Assembler) (line : AssemblyLine) :
    Except AsmError (Assembler × AssemblyLine) :=
  if line.isComment then .ok (a, line)
  else
    match (if !line.opcode.isEmpty then processDirective a line else .ok (a, line)) with
    | .error e => .error e
    | .ok (a1, line1) =>
      let line2 := { line1 with controlSection := a1.currentControlSection }
      let line3 :=
        if line.opcode != "BASE".toList && line.opcode != "NOBASE".toList &&
            line.opcode != "EXTDEF".toList && line.opcode != "EXTREF".toList &&
            line.opcode != "USE".toList then
          { line2 with address := a1.locationCounter }
        else line2
      match defineLabel a1 line3 with
      | .error e => .error e
      | .ok a2 =>
        match allocate a2 line3 with
        | .error e => .error e
        | .ok a3 => .ok (a3, line3)

/-- The loop of `pass1`: `done` are the lines already visited. -/
def pass1Loop (a : Assembler) (done : List AssemblyLine) :
    List AssemblyLine → Except AsmError Assembler
  | [] => .ok { a with sourceLines := done }
  | line :: rest =>
    match pass1Step a line with
    | .error e => .error e
    | .ok (a1, line1) => pass1Loop a1 (done ++ [line1]) rest

/-- The literal-pool lines that `insertLiteralLines` adds after one `LTORG` / `END` line. -/
def literalLines (a : Assembler) (line : AssemblyLine) : List AssemblyLine :=
  if line.opcode == "LTORG".toList || line.opcode == "END".toList then
    match ltorgFind a.ltorgLiterals line.lineNumber with
    | some literalsForThisLtorg =>
      literalsForThisLtorg.filterMap (fun literal =>
        (mapFind a.literalTable literal).map (fun address =>
          { lineNumber := line.lineNumber, address := address, label := "*".toList,
            operand := literal, controlSection := line.controlSection, isComment := false }))
    | none => []
  else []

/-- Source `SICXEAssembler::insertLiteralLines`. -/
def insertLiteralLines (a : Assembler) : Assembler :=
  { a with sourceLines := (a.sourceLines.map (fun line => line :: literalLines a line)).flatten }

/-- Source `SICXEAssembler::pass1`. -/
def pass1 (a : Assembler) : Except AsmError Assembler :=
  match pass1Loop { a with locationCounter := 0, currentControlSection := [] } []
      a.sourceLines with
  | .error e => .error e
  | .ok a1 => .ok (insertLiteralLines a1)

/-- Source `SICXEAssembler::assemble` on the lines of the input file, up to the end of pass 2
(the two output files are written from the resulting state). -/
def assemble (input : List (List Char)) : Except AsmError Assembler :=
  match pass1 { sourceLines := parseLines input 1 } with
  | .error e => .error e
  | .ok a1 => pass2 a1

/-- The lines of a text file: the pieces between newline characters, as read by
`getline(file, line)`. -/
def fileLines (text : String) : List (List Char) := getlineTokens '\n' text.toList

/-! ## Specification-side vocabulary -/

/-- The two upper-case hexadecimal digits of a byte. -/
def hexByte (b : Nat) : List Char := [hexDigit (b / 16), hexDigit (b % 16)]

/-- The `n` flag that the text of the operand asks for (specification side): 0 when its
first character is `#`, 1 otherwise. -/
def nBit (operand : List Char) : Nat := if operand.head? = some '#' then 0 else 1

/-- The `i` flag that the text of the operand asks for (specification side): 0 when its
first character is `@`, 1 otherwise. -/
def iBit (operand : List Char) : Nat := if operand.head? = some '@' then 0 else 1

/-- The `x` flag that the text of the operand asks for (specification side): 1 when `,X`
occurs in it, that is when the operand is `pre ++ ",X" ++ post`, 0 otherwise. -/
def xBit (operand : List Char) : Nat := if ",X".toList <:+: operand then 1 else 0

/-! ## Sample assembler states -/

/-- A one-section program: a PC-relative load of a word reserved right after it. -/
def sampleSingleSource : String :=
  "FIRST\tSTART\t1000\n\tLDA\tALPHA\nALPHA\tRESW\t1\n\tEND\tFIRST\n"

/-- The state after pass 1 of `sampleSingleSource`. -/
def sampleSingle : Assembler :=
  { sourceLines := [
      { lineNumber := 1, label := "FIRST".toList, opcode := "START".toList,
        operand := "1000".toList, address := 0x1000, controlSection := "FIRST".toList },
      { lineNumber := 2, opcode := "LDA".toList, operand := "ALPHA".toList,
        address := 0x1000, controlSection := "FIRST".toList },
      { lineNumber := 3, label := "ALPHA".toList, opcode := "RESW".toList,
        operand := "1".toList, address := 0x1003, controlSection := "FIRST".toList },
      { lineNumber := 4, opcode := "END".toList, operand := "FIRST".toList,
        address := 0x1006, controlSection := "FIRST".toList }]
    symbolTable := [
      ("FIRST".toList, { address := 0x1000, controlSection := "FIRST".toList, isDefined := true }),
      ("ALPHA".toList, { address := 0x1003, controlSection := "FIRST".toList, isDefined := true })]
    controlSections := [{ name := "FIRST".toList, startAddress := 0x1000, length := 6 }]
    currentControlSection := "FIRST".toList
    locationCounter := 0x1006 }

/-- The number written by a string of hexadecimal digits (the decoder used to read the
fields of an object code back). -/
def hexValue (s : List Char) : Nat :=
  s.foldl (fun acc c => acc * 16 + (hexDigitValue c).getD 0) 0

/-- The `p` flag of a format-3 object code: bit 13 of its 24 bits. -/
def pFlag3 (code : List Char) : Nat := hexValue code / 2 ^ 13 % 2

/-- The `b` flag of a format-3 object code: bit 14 of its 24 bits. -/
def bFlag3 (code : List Char) : Nat := hexValue code / 2 ^ 14 % 2

/-- The 12-bit displacement field of a format-3 object code. -/
def dispField3 (code : List Char) : Nat := hexValue code % 2 ^ 12

/-- Two control sections: `PROGA` defines and exports `BUF` and starts with `LDA BUF` at
address 0; `PROGB` imports `BUF` and starts with `+LDA BUF`, also at address 0. -/
def crossSectionSource : String :=
  "PROGA\tSTART\t0\n\tEXTDEF\tBUF\n\tLDA\tBUF\nBUF\tRESW\t1\n" ++
  "PROGB\tCSECT\n\tEXTREF\tBUF\n\t+LDA\tBUF\n\tEND\n"

/-- One section with two format-4 instructions whose operands are no symbols: an absolute
address and no operand at all. -/
def absoluteSource : String := "PROG\tSTART\t0\n\t+LDA\t100\n\t+RSUB\n\tEND\n"

/-- What a listing row shows of a line, with its control section. -/
structure ListingRow where
  lineNumber : Nat
  address : Int
  opcode : String
  operand : String
  objectCode : String
  controlSection : String
deriving DecidableEq, Repr

/-- The listing row of a line. -/
def listingRow (line : AssemblyLine) : ListingRow :=
  { lineNumber := line.lineNumber, address := line.address, opcode := String.mk line.opcode,
    operand := String.mk line.operand, objectCode := String.mk line.objectCode,
    controlSection := String.mk line.controlSection }

/-- The listing rows of an assembled program, `none` when the assembly aborts. -/
def listingOf (result : Except AsmError Assembler) : Option (List ListingRow) :=
  result.toOption.map (fun a => a.sourceLines.map listingRow)

/-- The Modification records of an assembled program, `none` when the assembly aborts. -/
def modificationsOf (result : Except AsmError Assembler) : Option (List ModificationRecord) :=
  result.toOption.map (fun a => a.modificationRecords)

/-- The `EXTREF` list of every section of an assembled program. -/
def extRefsOf (result : Except AsmError Assembler) : Option (List (String × List String)) :=
  result.toOption.map (fun a =>
    a.controlSections.map (fun cs => (String.mk cs.name, cs.extRef.map String.mk)))

/-- One section importing `BUFEND` and holding the word `BUFEND-BUFFER`. -/
def sampleWordSource : String :=
  "PROG\tSTART\t0\n\tEXTREF\tBUFEND\nBUFFER\tRESB\t16\nMAXLEN\tWORD\tBUFEND-BUFFER\n\tEND\n"

/-- The `WORD` line of `sampleWordSource` after pass 1. -/
def sampleWordLine : AssemblyLine :=
  { lineNumber := 4, label := "MAXLEN".toList, opcode := "WORD".toList,
    operand := "BUFEND-BUFFER".toList, address := 16, controlSection := "PROG".toList }

/-- The state after pass 1 of `sampleWordSource`. -/
def sampleWord : Assembler :=
  { sourceLines := [
      { lineNumber := 1, label := "PROG".toList, opcode := "START".toList,
        operand := "0".toList, address := 0, controlSection := "PROG".toList },
      { lineNumber := 2, opcode := "EXTREF".toList, operand := "BUFEND".toList,
        controlSection := "PROG".toList },
      { lineNumber := 3, label := "BUFFER".toList, opcode := "RESB".toList,
        operand := "16".toList, address := 0, controlSection := "PROG".toList },
      sampleWordLine,
      { lineNumber := 5, opcode := "END".toList, address := 19,
        controlSection := "PROG".toList }]
    symbolTable := [
      ("PROG".toList, { address := 0, controlSection := "PROG".toList, isDefined := true }),
      ("BUFEND".toList, { address := 0, controlSection := "PROG".toList, isExternal := true }),
      ("BUFFER".toList, { address := 0, controlSection := "PROG".toList, isDefined := true }),
      ("MAXLEN".toList, { address := 16, controlSection := "PROG".toList, isDefined := true })]
    controlSections := [
      { name := "PROG".toList, startAddress := 0, length := 19, extRef := ["BUFEND".toList] }]
    currentControlSection := "PROG".toList
    locationCounter := 19 }

/-- The register numbers of the SIC/XE reference (specification side). -/
def registerNumbers : List (List Char × Nat) := [
  ("A".toList, 0), ("X".toList, 1), ("L".toList, 2), ("B".toList, 3), ("S".toList, 4),
  ("T".toList, 5), ("F".toList, 6), ("PC".toList, 8), ("SW".toList, 9)]

/-- An immediate operand naming a symbol that no section defines or imports. -/
def immediateSource : String := "PROG\tSTART\t0\n\tLDA\t#FOO\n\tEND\n"

/-- A simple operand naming a symbol that no section defines or imports. -/
def undefinedSource : String := "PROG\tSTART\t0\n\tLDA\tFOO\n\tEND\n"

/-- The `LDA FOO` line of `undefinedSource` after pass 1. -/
def undefinedLine : AssemblyLine :=
  { lineNumber := 2, opcode := "LDA".toList, operand := "FOO".toList, address := 0,
    controlSection := "PROG".toList }

/-- The state after pass 1 of `undefinedSource`. -/
def sampleUndefined : Assembler :=
  { sourceLines := [
      { lineNumber := 1, label := "PROG".toList, opcode := "START".toList,
        operand := "0".toList, address := 0, controlSection := "PROG".toList },
      undefinedLine,
      { lineNumber := 3, opcode := "END".toList, address := 3,
        controlSection := "PROG".toList }]
    symbolTable := [
      ("PROG".toList, { address := 0, controlSection := "PROG".toList, isDefined := true })]
    controlSections := [{ name := "PROG".toList, startAddress := 0, length := 3 }]
    currentControlSection := "PROG".toList
    locationCounter := 3 }

/-- The symbol is in no way declared for the section: it is no key of the symbol table
(no section defines, exports or imports it) and no external reference of the section. -/
def NotDeclared (a : Assembler) (symbol controlSection : List Char) : Prop :=
  mapFind a.symbolTable symbol = none ∧ isExternalReference a symbol controlSection = false

/-- The operand of the line names an undeclared symbol, in the cases that
`validateSymbolReferences` examines: the line is no comment and none of the skipped
directives, the operand starts with neither `=` nor `#`, and either the line is a `WORD`
whose operand is no number and is (or has a `-` part that is) undeclared, or it is an
instruction of another format than 2 whose base operand is no number, no register name
and undeclared. -/
def UndefinedReference (a : Assembler) (line : AssemblyLine) : Prop :=
  line.isComment = false ∧ line.operand ≠ [] ∧ validationSkipped line.opcode = false ∧
  line.operand.head? ≠ some '=' ∧ line.operand.head? ≠ some '#' ∧
  ((line.opcode = "WORD".toList ∧ stoi line.operand = none ∧
      ((line.operand.contains '-' = false ∧
          NotDeclared a line.operand line.controlSection) ∨
        (line.operand.contains '-' = true ∧
          ∃ part ∈ split line.operand '-', NotDeclared a (trim part) line.controlSection))) ∨
    (line.opcode ≠ "WORD".toList ∧
      (∀ instr, mapFind instructionTable line.opcode = some instr → instr.format ≠ 2) ∧
      stoi (getBaseOperand line.operand) = none ∧
      isRegisterName (getBaseOperand line.operand) = false ∧
      NotDeclared a (getBaseOperand line.operand) line.controlSection))

/-- A character constant of 31 characters. -/
def longByteSource : String :=
  "PROG\tSTART\t0\nTEXT\tBYTE\tC'ABCDEFGHIJKLMNOPQRSTUVWXYZABCDE'\n\tEND\n"

/-- A hexadecimal constant with an odd number of digits. -/
def oddHexSource : String := "PROG\tSTART\t0\nHEX\tBYTE\tX'ABC'\n\tEND\n"

/-- The error with which an assembly aborts, `none` when it succeeds. -/
def errorOf (result : Except AsmError Assembler) : Option AsmError :=
  match result with
  | .error e => some e
  | .ok _ => none

/-- What the object file shows of a Text record: its line, the number of object codes, the
declared byte count and the number of payload characters. -/
structure TextRecordView where
  line : String
  codes : Nat
  declared : Int
  payloadChars : Nat
deriving DecidableEq, Repr

/-- The Text records of an assembled program as the object file shows them, `none` when
the assembly aborts. -/
def textRecordsOf (result : Except AsmError Assembler) : Option (List TextRecordView) :=
  result.toOption.map (fun a => a.textRecords.map (fun r =>
    { line := String.mk (textRecordLine r), codes := r.objectCodes.length,
      declared := declaredLength r, payloadChars := (payload r).length }))

/-- The final location counter and the section lengths of an assembled program. -/
def lengthsOf (result : Except AsmError Assembler) : Option (Int × List Int) :=
  result.toOption.map (fun a => (a.locationCounter, a.controlSections.map (fun cs => cs.length)))

/-- The bytes that `generateObjectFile` counts for a list of object codes: half the
characters of each, rounded down. -/
def halfSum (codes : List (List Char)) : Nat := (codes.map (fun c => c.length / 2)).sum

/-- The hexadecimal characters of a list of object codes. -/
def hexLength (codes : List (List Char)) : Nat := (codes.map List.length).sum

/-- A Text record within the cap: it holds at most one object code, or at most 60
hexadecimal characters. -/
def WithinCap (r : TextRecord) : Prop :=
  r.objectCodes.length ≤ 1 ∨ hexLength r.objectCodes ≤ 60

/-- The invariant of the loop of `generateTextRecords`: the saved records and the current
one are within the cap, and `currentLength` counts the characters of the current record. -/
def TextInvariant (s : TextState) : Prop :=
  (∀ r ∈ s.textRecords, WithinCap r) ∧ WithinCap s.currentRecord ∧
  s.currentLength = Int.ofNat (hexLength s.currentRecord.objectCodes) ∧
  hexLength s.currentRecord.objectCodes < 1073741824

/-! ## Vocabulary for pass 1 -/

/-- The apostrophe that encloses the payload of a constant or literal. -/
def apostrophe : Char := Char.ofNat 39

/-- The text `C'S'` of a character constant with payload `S`. -/
def charConstant (S : List Char) : List Char := 'C' :: apostrophe :: S ++ [apostrophe]

/-- The text `X'H'` of a hexadecimal constant with payload `H`. -/
def hexConstant (H : List Char) : List Char := 'X' :: apostrophe :: H ++ [apostrophe]

/-- The two-digit hexadecimal ASCII codes of the characters of `S`, in order. -/
def asciiHex (S : List Char) : List Char := (S.map (fun c => hexByte c.toNat)).flatten

/-- The label of the line can be defined at this point: the line has no label, or is an
`EQU`, or the label is not yet a defined symbol of the current control section. -/
def LabelAvailable (a : Assembler) (line : AssemblyLine) : Prop :=
  line.label = [] ∨ line.opcode = "EQU".toList ∨
    ∀ s, mapFind a.symbolTable line.label = some s →
      (s.isDefined && s.controlSection == a.currentControlSection) = false

/-- The loop body of `pass1` accepts the line, gives it the current location counter as
its address and advances the counter by `size`, leaving the section state as it is. -/
def AllocatesAt (a : Assembler) (line : AssemblyLine) (size : Int) : Prop :=
  ∃ a1 line1, pass1Step a line = .ok (a1, line1) ∧
    line1.address = a.locationCounter ∧ line1.controlSection = a.currentControlSection ∧
    a1.locationCounter = a.locationCounter + size ∧
    a1.currentControlSection = a.currentControlSection ∧
    a1.controlSections = a.controlSections

/-- The value fits a 32-bit `int`. -/
def FitsInt (x : Int) : Prop := -2147483648 ≤ x ∧ x ≤ 2147483647

/-- The names of the directives (those that pass 1 handles in `processDirective` and the
four storage directives). -/
def isDirectiveName (opcode : List Char) : Bool :=
  isPass1Directive opcode || opcode == "RESW".toList || opcode == "RESB".toList ||
  opcode == "WORD".toList || opcode == "BYTE".toList

/-- The state of pass 1 after the line `PROG START 1000`: section `PROG` is open at
address 0x1000 and the location counter stands at its start. -/
def storageState : Assembler :=
  { symbolTable := [
      ("PROG".toList, { address := 0x1000, controlSection := "PROG".toList, isDefined := true })]
    controlSections := [{ name := "PROG".toList, startAddress := 0x1000 }]
    currentControlSection := "PROG".toList
    locationCounter := 0x1000 }

/-- A source line as `parseLine` delivers it: label, opcode and operand, no comment. -/
def sourceLine (lineNumber : Nat) (label opcode operand : String) : AssemblyLine :=
  { lineNumber := lineNumber, label := label.toList, opcode := opcode.toList,
    operand := operand.toList }

/-- The loop body of `pass1` accepts the `EQU` line, leaves the location counter and the
current section as they are, and afterwards the label is a defined symbol of the current
section with this value. -/
def EquBinds (a : Assembler) (line : AssemblyLine) (value : Int) : Prop :=
  ∃ a1 line1, pass1Step a line = .ok (a1, line1) ∧
    a1.locationCounter = a.locationCounter ∧
    a1.currentControlSection = a.currentControlSection ∧
    ∃ s, mapFind a1.symbolTable line.label = some s ∧ s.address = value ∧
      s.isDefined = true ∧ s.controlSection = a.currentControlSection

/-- The state of pass 1 after `PROG START 100`, `BUFFER RESB 3840` and `BUFEND EQU *`:
`BUFFER` is 0x0100 and `BUFEND` is 0x1000. -/
def equState : Assembler :=
  { symbolTable := [
      ("PROG".toList, { address := 0x100, controlSection := "PROG".toList, isDefined := true }),
      ("BUFFER".toList, { address := 0x100, controlSection := "PROG".toList, isDefined := true }),
      ("BUFEND".toList, { address := 0x1000, controlSection := "PROG".toList, isDefined := true })]
    controlSections := [{ name := "PROG".toList, startAddress := 0x100 }]
    currentControlSection := "PROG".toList
    locationCounter := 0x1000 }

/-- The three lines that lead pass 1 to `equState`. -/
def equPrefixSource : String := "PROG\tSTART\t100\nBUFFER\tRESB\t3840\nBUFEND\tEQU\t*\n"

/-- The state of pass 1 after `PROGA START 0`, `X RESW 1`, `BUF RESW 1` and `BASE BUF`:
the counter stands at 6 and the base register is bound to `BUF` = 3. -/
def baseState : Assembler :=
  { symbolTable := [
      ("PROGA".toList, { address := 0, controlSection := "PROGA".toList, isDefined := true }),
      ("X".toList, { address := 0, controlSection := "PROGA".toList, isDefined := true }),
      ("BUF".toList, { address := 3, controlSection := "PROGA".toList, isDefined := true })]
    controlSections := [{ name := "PROGA".toList, startAddress := 0 }]
    currentControlSection := "PROGA".toList
    locationCounter := 6
    baseRegister := 3
    baseSet := true }

/-- The four lines that lead pass 1 to `baseState`. -/
def basePrefixSource : String := "PROGA\tSTART\t0\nX\tRESW\t1\nBUF\tRESW\t1\n\tBASE\tBUF\n"

/-- Two sections: `PROGA` binds the base register to `BUF` = 3; `PROGB` never names a
base, and its `LDA FAR` is 3000 bytes away from its target. -/
def baseCarrySource : String :=
  basePrefixSource ++ "PROGB\tCSECT\n\tLDA\tFAR\n\tRESB\t3000\nFAR\tRESW\t1\n\tEND\n"

/-- The base state that pass 2 works with, `none` when the assembly aborts. -/
def baseOf (result : Except AsmError Assembler) : Option (Bool × Int) :=
  result.toOption.map (fun a => (a.baseSet, a.baseRegister))

/-- The lines of `basePrefixSource` followed by `PROGB CSECT`. -/
def csectSource : String := basePrefixSource ++ "PROGB\tCSECT\n"

/-- A hexadecimal constant written with lower-case digits. -/
def lowerHexSource : String := "PROG\tSTART\t0\nHEX\tBYTE\tX'ab'\n\tEND\n"

/-- Source `setw(width) << left << s` on the object file: blanks are added on the right up
to `width`, nothing is cut. -/
def padRight (s : List Char) (width : Nat) : List Char :=
  s ++ List.replicate (width - s.length) ' '

/-- The Header record that `generateObjectFile` writes for a control section (without the
newline): `H^<name,6>^<start,6>^<length,6>`. -/
def headerRecordLine (cs : ControlSection) : List Char :=
  "H^".toList ++ padRight cs.name 6 ++ "^".toList ++ intToHex cs.startAddress 6 ++
    "^".toList ++ intToHex cs.length 6

/-- The bytes that the Text records of a section declare, summed over its records. -/
def declaredTextBytes (a : Assembler) (csName : List Char) : Int :=
  ((a.textRecords.filter (fun r => r.controlSection == csName)).map declaredLength).sum

/-- The bytes that the `RESW` and `RESB` lines of a section reserve: 3 per word, 1 per
byte. -/
def reservedBytes (a : Assembler) (csName : List Char) : Int :=
  ((a.sourceLines.filter (fun line => line.controlSection == csName)).map (fun line =>
    if line.opcode == "RESW".toList then 3 * (stoi line.operand).getD 0
    else if line.opcode == "RESB".toList then (stoi line.operand).getD 0
    else 0)).sum

/-- What the object file shows of a section's extent: the Header record, the length it
states, the bytes declared by the section's Text records and the bytes reserved by its
`RESW` / `RESB` lines. -/
structure SectionView where
  header : String
  length : Int
  textBytes : Int
  reserved : Int
deriving DecidableEq, Repr

/-- The section views of an assembled program, `none` when the assembly aborts. -/
def sectionsOf (result : Except AsmError Assembler) : Option (List SectionView) :=
  result.toOption.map (fun a => a.controlSections.map (fun cs =>
    { header := String.mk (headerRecordLine cs), length := cs.length,
      textBytes := declaredTextBytes a cs.name, reserved := reservedBytes a cs.name }))

/-- One section with a hexadecimal constant of three digits, four reserved bytes and a
word. -/
def gapSource : String :=
  "PROG\tSTART\t0\nHEX\tBYTE\tX'ABC'\nBUF\tRESB\t4\nNEXT\tWORD\t5\n\tEND\n"

/-- The same literal before and after an `LTORG`. -/
def repeatedLiteralSource : String :=
  "PROG\tSTART\t0\n\tLDA\t=C'EOF'\n\tLTORG\n\tLDA\t=C'EOF'\n\tEND\n"

/-- The same literal twice before the `END`. -/
def sharedLiteralSource : String := "PROG\tSTART\t0\n\tLDA\t=C'EOF'\n\tLDA\t=C'EOF'\n\tEND\n"

/-- A hexadecimal literal of three digits followed by a character literal. -/
def oddHexLiteralSource : String :=
  "PROG\tSTART\t0\n\tLDA\t=X'ABC'\n\tLDA\t=C'EOF'\n\tEND\n"

/-- A negative word and a word of 2^24. -/
def wideWordSource : String := "PROG\tSTART\t0\nNEG\tWORD\t-1\nBIG\tWORD\t16777216\n\tEND\n"

/-- A label defined by a `WORD` line and again by an `EQU` line of the same section. -/
def equRedefinesSource : String := "PROG\tSTART\t0\nX\tWORD\t1\nX\tEQU\t5\n\tEND\n"

/-- A label defined by two `WORD` lines of the same section. -/
def duplicateLabelSource : String := "PROG\tSTART\t0\nX\tWORD\t1\nX\tWORD\t5\n\tEND\n"

/-- The literal table after pass 1 and pass 2, `none` when the assembly aborts. -/
def literalsOf (result : Except AsmError Assembler) : Option (List (String × Int)) :=
  result.toOption.map (fun a => a.literalTable.map (fun e => (String.mk e.1, e.2)))

/-- The listing rows of the literal-pool lines (label `*`) of an assembled program. -/
def poolLinesOf (result : Except AsmError Assembler) : Option (List ListingRow) :=
  result.toOption.map (fun a =>
    (a.sourceLines.filter (fun line => line.label == "*".toList)).map listingRow)

/-- The symbol-table entry of a name after assembly, `none` when the assembly aborts. -/
def symbolOf (result : Except AsmError Assembler) (name : String) : Option (Option Symbol) :=
  result.toOption.map (fun a => mapFind a.symbolTable name.toList)

/-! ## Vocabulary and samples for the parser, the End record and the flags -/

/-- The `n` flag of a format-3 object code: bit 17 of its 24 bits. -/
def nFlag3 (code : List Char) : Nat := hexValue code / 2 ^ 17 % 2

/-- The `i` flag of a format-3 object code: bit 16 of its 24 bits. -/
def iFlag3 (code : List Char) : Nat := hexValue code / 2 ^ 16 % 2

/-- The `x` flag of a format-3 object code: bit 15 of its 24 bits. -/
def xFlag3 (code : List Char) : Nat := hexValue code / 2 ^ 15 % 2

/-- The `e` flag of a format-3 object code: bit 12 of its 24 bits. -/
def eFlag3 (code : List Char) : Nat := hexValue code / 2 ^ 12 % 2

/-- A base is bound to `BUF`, then released by `NOBASE`; the `LDA FAR` that follows is
3000 bytes from its target. -/
def nobaseSource : String :=
  "PROG\tSTART\t0\nBUF\tRESW\t1\n\tBASE\tBUF\n\tNOBASE\n\tLDA\tFAR\n\tRESB\t3000\n" ++
  "FAR\tRESW\t1\n\tEND\n"

/-- A program whose second line has `USE` as its first field. -/
def columnUseSource : String := "PROG\tSTART\t0\nUSE\tBLK\n\tEND\n"

/-- A program whose second line has an empty first field and `USE` as its second. -/
def indentedUseSource : String := "PROG\tSTART\t0\n\tUSE\tBLK\n\tEND\n"

/-- A program with a register operand in lower case. -/
def lowerRegisterSource : String := "PROG\tSTART\t0\n\tclear\ta\n\tEND\n"

/-- The test of `generateObjectFile` for the line whose address the End record shows: a
line of the section with an opcode other than `START`, `RESW`, `RESB`, `WORD`, `BYTE`. -/
def isEndCandidate (csName : List Char) (line : AssemblyLine) : Bool :=
  line.controlSection == csName && !line.opcode.isEmpty &&
  line.opcode != "START".toList && line.opcode != "RESW".toList &&
  line.opcode != "RESB".toList && line.opcode != "WORD".toList &&
  line.opcode != "BYTE".toList

/-- The End record that `generateObjectFile` writes for a control section (without the
newline): `E`, followed for a section named as the first one by `^<address,6>` of the
first candidate line, if there is one. -/
def endRecordLine (a : Assembler) (cs : ControlSection) : List Char :=
  "E".toList ++
    (if (match a.controlSections.head? with
        | some first => cs.name == first.name
        | none => false) then
      match a.sourceLines.find? (isEndCandidate cs.name) with
      | some line => "^".toList ++ intToHex line.address 6
      | none => []
    else [])

/-- The address of the first machine instruction of a section: the first line of the
section whose opcode, without a leading `+`, is a key of the catalog (specification
side). -/
def firstInstructionAddress (a : Assembler) (csName : List Char) : Option Int :=
  (a.sourceLines.find? (fun line =>
    line.controlSection == csName && !line.isComment &&
      (mapFind instructionTable (stripPlus line.opcode)).isSome)).map (fun line => line.address)

/-- What the object file shows at the end of a section: its name, its End record and the
address of its first machine instruction. -/
structure EndView where
  name : String
  endRecord : String
  firstInstruction : Option Int
deriving DecidableEq, Repr

/-- The End views of an assembled program, `none` when the assembly aborts. -/
def endRecordsOf (result : Except AsmError Assembler) : Option (List EndView) :=
  result.toOption.map (fun a => a.controlSections.map (fun cs =>
    { name := String.mk cs.name, endRecord := String.mk (endRecordLine a cs),
      firstInstruction := firstInstructionAddress a cs.name }))

/-- One section in which an `EQU` line precedes the first instruction. -/
def equBeforeFirstSource : String :=
  "PROG\tSTART\t0\nBUF\tRESW\t1\nLEN\tEQU\t3\nTAB\tRESW\t1\nFIRST\tLDA\tBUF\n\tEND\tFIRST\n"

/-- Two sections that both start with an instruction. -/
def twoSectionSource : String :=
  "PROGA\tSTART\t0\nFIRST\tLDA\tBUF\nBUF\tRESW\t1\nPROGB\tCSECT\n\tLDA\tTAB\nTAB\tRESW\t1\n\tEND\n"

/-- A constant with the unknown type letter `Z`. -/
def unknownConstantSource : String := "PROG\tSTART\t0\nBAD\tBYTE\tZ'12'\nNEXT\tWORD\t1\n\tEND\n"

/-- A literal that is neither `=C'...'` nor `=X'...'`. -/
def bareLiteralSource : String := "PROG\tSTART\t0\n\tLDA\t=5\n\tEND\n"

/-- A constant `C` without a quoted body. -/
def emptyConstantSource : String := "PROG\tSTART\t0\nBAD\tBYTE\tC\nNEXT\tWORD\t1\n\tEND\n"

/-- `BUF` is imported by `PROGA` and afterwards defined by a label of `PROGB`. -/
def importThenDefineSource : String :=
  "PROGA\tSTART\t0\n\tEXTREF\tBUF\n\t+LDA\tBUF\nPROGB\tCSECT\nBUF\tRESW\t1\n\tEND\n"

/-- `BUF` is defined by a label of `PROGA` and afterwards imported by `PROGB`. -/
def defineThenImportSource : String :=
  "PROGA\tSTART\t0\nBUF\tRESW\t1\nPROGB\tCSECT\n\tEXTREF\tBUF\n\t+LDA\tBUF\n\tEND\n"

/-- `LDA BUF` stands 2048 bytes after its target's end: the PC-relative displacement is
exactly -2048, and the base is bound to `BUF`. -/
def minusBoundarySource : String :=
  "PROG\tSTART\t0\nBUF\tRESW\t1\n\tBASE\tBUF\n\tRESB\t2042\n\tLDA\tBUF\n\tEND\n"

/-- `LDA FAR` stands 2048 bytes before its target: the PC-relative displacement is
exactly +2048, and the base is bound to `BUF`. -/
def plusBoundarySource : String :=
  "PROG\tSTART\t0\nBUF\tRESW\t1\n\tBASE\tBUF\n\tLDA\tFAR\n\tRESB\t2048\nFAR\tRESW\t1\n\tEND\n"

/-- A program whose second line is a blank followed by `.note`. -/
def indentedDotSource : String := "PROG\tSTART\t0\n .note\n\tEND\n"

/-- The condition under which `parseLine` takes the first field as the opcode: upper-cased,
it is a key of the catalog or one of the fourteen directive names of `isParsedDirective`. -/
def isOpcodeField (field : List Char) : Bool :=
  (mapFind instructionTable (toUpperCase field)).isSome || isParsedDirective (toUpperCase field)

/-- A state of pass 2 reduced to what the format-3 encoder reads: `BUF` at 0 and `FAR` at
2054 in the symbol table, the base bound to `BUF`. -/
def boundaryState : Assembler :=
  { symbolTable := [
      ("BUF".toList, { address := 0, isDefined := true }),
      ("FAR".toList, { address := 2054, isDefined := true })]
    baseRegister := 0
    baseSet := true }

/-! ## Samples and vocabulary for the scenarios, the catalog and the Text records -/

/-- Scenario 2: the section `COPY` starts at 0x10, imports `BUF` and loads it with a
format-4 instruction at 0x0010. -/
def scenarioTwoSource : String := "COPY\tSTART\t10\n\tEXTREF\tBUF\n\t+LDA\tBUF\n\tEND\n"

/-- Scenario 4: `LDA =C'EOF'` at 0x0030, then 29 reserved bytes, so that `LTORG` is reached
with the location counter at 0x0050. -/
def scenarioFourSource : String :=
  "PROG\tSTART\t30\n\tLDA\t=C'EOF'\n\tRESB\t29\n\tLTORG\n\tEND\n"

/-- The test of `generateObjectFile` for writing a Modification record under a control
section: some line of the section is a `+` instruction one byte before the record of
length 5, or a `WORD` at the address of the record of length 6. -/
def modificationBelongs (a : Assembler) (csName : List Char) (m : ModificationRecord) : Bool :=
  a.sourceLines.any (fun line =>
    line.controlSection == csName &&
      ((m.length == 5 && wrapInt (line.address + 1) == m.address && !line.opcode.isEmpty &&
          line.opcode.head? == some '+') ||
        (m.length == 6 && line.address == m.address && line.opcode == "WORD".toList)))

/-- The Modification record that `generateObjectFile` writes (without the newline):
`M^<address,6>^<length,2>^<sign><symbol>`. -/
def modificationRecordLine (m : ModificationRecord) : List Char :=
  "M^".toList ++ intToHex m.address 6 ++ "^".toList ++ intToHex m.length 2 ++ "^".toList ++
    (if m.isAddition then "+".toList else "-".toList) ++ m.symbol

/-- The Modification records written under each control section of an assembled program,
`none` when the assembly aborts. -/
def modificationLinesOf (result : Except AsmError Assembler) :
    Option (List (String × List String)) :=
  result.toOption.map (fun a => a.controlSections.map (fun cs =>
    (String.mk cs.name,
      (a.modificationRecords.filter (modificationBelongs a cs.name)).map
        (fun m => String.mk (modificationRecordLine m)))))

/-- The names of the catalog entries of one format, in the order of the catalog. -/
def mnemonicsOfFormat (format : Nat) : List String :=
  (instructionTable.filter (fun e => e.2.format == format)).map (fun e => String.mk e.1)

/-- `LEN` is defined by `EQU 100` at location 3 and used by the two loads that follow. -/
def equTargetSource : String :=
  "PROG\tSTART\t0\nBUF\tRESW\t1\nLEN\tEQU\t100\n\tLDA\tLEN\n\tLDA\t#LEN\n\tEND\n"

/-- `BUFEND` is imported, `BUFFER` is defined at 3; two `EQU` lines take their difference
in either order. -/
def equExternalSource : String :=
  "PROG\tSTART\t0\n\tEXTREF\tBUFEND\nX\tRESW\t1\nBUFFER\tRESB\t16\n" ++
  "MAXLEN\tEQU\tBUFEND-BUFFER\nMINLEN\tEQU\tBUFFER-BUFEND\n\tEND\n"

/-- `RESB -1` moves the location counter to -1, where the first of two loads is placed. -/
def negativeAddressSource : String :=
  "PROG\tSTART\t0\n\tRESB\t-1\n\tLDA\t#1\n\tLDA\t#2\n\tEND\n"

/-- An instruction line whose label is `*` and whose operand is a literal. -/
def starLabelSource : String := "PROG\tSTART\t0\n*\tLDA\t=C'AB'\n\tEND\n"

/-- The object codes of the Text records of a section, in emission order, `none` when the
assembly aborts. -/
def recordCodesOf (result : Except AsmError Assembler) (csName : String) :
    Option (List String) :=
  result.toOption.map (fun a =>
    ((a.textRecords.filter (fun r => r.controlSection == csName.toList)).map
      (fun r => r.objectCodes)).flatten.map String.mk)

/-- The non-empty object codes of the lines of a section, in source order, `none` when
the assembly aborts. -/
def lineCodesOf (result : Except AsmError Assembler) (csName : String) :
    Option (List String) :=
  result.toOption.map (fun a =>
    ((a.sourceLines.filter (fun line =>
      line.controlSection == csName.toList && !line.objectCode.isEmpty)).map
        (fun line => String.mk line.objectCode)))

/-- The state in which the loop of `generateTextRecords` starts on section `PROG`. -/
def startTextState : TextState :=
  { textRecords := []
    currentRecord := { startAddress := -1, controlSection := "PROG".toList }
    currentLength := 0
    lastObjectCodeEndAddress := -1 }

/-- A line of section `PROG` reduced to what `generateTextRecords` reads: its address and
its object code. -/
def codeLine (address : Int) (code : String) : AssemblyLine :=
  { address := address, objectCode := code.toList, controlSection := "PROG".toList }

/-- The control section that `calculateTargetAddress` takes for an instruction: that of
the first line with the instruction's address, `""` when there is none. -/
def sectionAt (a : Assembler) (address : Int) : List Char :=
  ((a.sourceLines.find? (fun line => line.address == address)).map
    (fun line => line.controlSection)).getD []

/-- The lines of a section that carry object code, in source order. -/
def sectionLines (lines : List AssemblyLine) (csName : List Char) : List AssemblyLine :=
  lines.filter (fun line => line.controlSection == csName && !line.objectCode.isEmpty)

/-- The Text record that holds the object codes of a run of lines and starts at the
address of the first of them (-1, the mark of `generateTextRecords` for "no record
open", when the run is empty). -/
def recordOfLines (csName : List Char) (group : List AssemblyLine) : TextRecord :=
  { startAddress := (group.head?.map (fun line => line.address)).getD (-1)
    objectCodes := group.map (fun line => line.objectCode)
    controlSection := csName }

/-- The state of the loop of `generateTextRecords` after the lines `done` of the section
`csName`: the records emitted since `prior` hold consecutive non-empty runs of the
object-code lines seen, and the open record holds the rest. -/
def Collected (csName : List Char) (prior : List TextRecord) (done : List AssemblyLine)
    (s : TextState) : Prop :=
  ∃ (groups : List (List AssemblyLine)) (cur : List AssemblyLine),
    (∀ g ∈ groups, g ≠ []) ∧ (∀ l ∈ cur, l.address ≠ -1) ∧
    groups.flatten ++ cur = sectionLines done csName ∧
    s.textRecords = prior ++ groups.map (recordOfLines csName) ∧
    s.currentRecord = recordOfLines csName cur

/-- The state of the loop body before `line` is appended: as `Collected`, but an open
record without object codes already has the address of `line`. -/
def Opened (csName : List Char) (prior : List TextRecord) (done : List AssemblyLine)
    (line : AssemblyLine) (s : TextState) : Prop :=
  ∃ (groups : List (List AssemblyLine)) (cur : List AssemblyLine),
    (∀ g ∈ groups, g ≠ []) ∧ (∀ l ∈ cur, l.address ≠ -1) ∧
    groups.flatten ++ cur = sectionLines done csName ∧
    s.textRecords = prior ++ groups.map (recordOfLines csName) ∧
    s.currentRecord =
      { startAddress := ((cur ++ [line]).head?.map (fun l => l.address)).getD (-1)
        objectCodes := cur.map (fun l => l.objectCode)
        controlSection := csName }

/-- A two-section state for `generateTextRecords`: `PROG` with a gap between its two
object codes, and `SUB` with one object code. -/
def twoSectionState : Assembler :=
  { sourceLines := [codeLine 0 "010001", codeLine 9 "010002",
      { codeLine 0 "4F0000" with controlSection := "SUB".toList }]
    controlSections := [{ name := "PROG".toList }, { name := "SUB".toList }] }

/-- Two sections: `PROGA` imports `BUF`, `PROGB` defines `BUF` and `X` and holds the word
`BUF-X`. -/
def wordOwnSectionSource : String :=
  "PROGA\tSTART\t0\n\tEXTREF\tBUF\nPROGB\tCSECT\nBUF\tRESW\t1\nX\tRESW\t1\nW\tWORD\tBUF-X\n\tEND\n"

/-- A source line written from its fields, a tab between two fields (specification
side). -/
def joinFields : List (List Char) → List Char
  | [] => []
  | [field] => field
  | field :: next :: rest => field ++ '\t' :: joinFields (next :: rest)

/-- A field as written in a source line (specification side): the text `core`, which
holds no tab and neither begins nor ends with a blank, tab, carriage return or newline,
with any number of blanks, carriage returns and newlines before and after it. -/
def Padded (field core : List Char) : Prop :=
  ∃ pre post : List Char, field = pre ++ core ++ post ∧
    (∀ c ∈ pre, c = ' ' ∨ c = '\r' ∨ c = '\n') ∧
    (∀ c ∈ post, c = ' ' ∨ c = '\r' ∨ c = '\n') ∧
    (∀ c, core.head? = some c → c ≠ ' ' ∧ c ≠ '\t' ∧ c ≠ '\r' ∧ c ≠ '\n') ∧
    (∀ c, core.getLast? = some c → c ≠ ' ' ∧ c ≠ '\t' ∧ c ≠ '\r' ∧ c ≠ '\n') ∧
    '\t' ∉ core

/-- The names that make the first field of a line its opcode (specification side): the
mnemonics of the catalog and fourteen directive names. -/
def firstFieldNames : List (List Char) :=
  instructionTable.map (fun e => e.1) ++
    ["START", "END", "RESW", "RESB", "WORD", "BYTE", "CSECT", "EXTDEF", "EXTREF", "BASE",
      "NOBASE", "EQU", "ORG", "LTORG"].map String.toList

/-! # Theorems -/

/-! ## The sample states are reached by pass 1 -/

theorem sampleSingle_reached :
    (pass1 { sourceLines := parseLines (fileLines sampleSingleSource) 1 }).toOption =
      some sampleSingle := by
  decide

/-! ## Lemmas on machine integers and hexadecimal output -/

theorem toUnsigned_natCast (n : Nat) (h : n < 4294967296) : toUnsigned (n : Int) = n := by
  unfold toUnsigned; omega

theorem wrapInt_natCast (n : Nat) (h : n < 2147483648) : wrapInt (n : Int) = n := by
  unfold wrapInt; omega

theorem andInt_natCast (m n : Nat) (hm : m < 2147483648) (hn : n < 2147483648) :
    andInt (m : Int) (n : Int) = ((m &&& n : Nat) : Int) := by
  unfold andInt
  rw [toUnsigned_natCast m (by omega), toUnsigned_natCast n (by omega)]
  have h : m &&& n ≤ m := Nat.and_le_left
  exact wrapInt_natCast _ (by omega)

theorem orInt_natCast (m n : Nat) (hm : m < 2147483648) (hn : n < 2147483648) :
    orInt (m : Int) (n : Int) = ((m ||| n : Nat) : Int) := by
  unfold orInt
  rw [toUnsigned_natCast m (by omega), toUnsigned_natCast n (by omega)]
  have h : m ||| n < 2 ^ 31 := Nat.or_lt_two_pow (by omega) (by omega)
  exact wrapInt_natCast _ (by omega)

theorem shrInt_natCast (m k : Nat) : shrInt (m : Int) k = ((m >>> k : Nat) : Int) := by
  unfold shrInt
  rw [Nat.shiftRight_eq_div_pow]
  push_cast
  rfl

theorem shlInt_natCast (m k : Nat) (h : m * 2 ^ k < 2147483648) :
    shlInt (m : Int) k = ((m <<< k : Nat) : Int) := by
  unfold shlInt
  rw [Nat.shiftLeft_eq]
  have := wrapInt_natCast (m * 2 ^ k) h
  push_cast at this ⊢
  exact this

theorem andInt_mask4 (x : Int) : andInt x 0x0F = x % 16 := by
  unfold andInt
  have h : toUnsigned 0x0F = 2 ^ 4 - 1 := by decide
  rw [h, Nat.and_pow_two_sub_one_eq_mod]
  unfold toUnsigned wrapInt
  simp only [Int.ofNat_eq_coe]
  omega

theorem andInt_mask8 (x : Int) : andInt x 0xFF = x % 256 := by
  unfold andInt
  have h : toUnsigned 0xFF = 2 ^ 8 - 1 := by decide
  rw [h, Nat.and_pow_two_sub_one_eq_mod]
  unfold toUnsigned wrapInt
  simp only [Int.ofNat_eq_coe]
  omega

theorem andInt_mask12 (x : Int) : andInt x 0xFFF = x % 4096 := by
  unfold andInt
  have h : toUnsigned 0xFFF = 2 ^ 12 - 1 := by decide
  rw [h, Nat.and_pow_two_sub_one_eq_mod]
  unfold toUnsigned wrapInt
  simp only [Int.ofNat_eq_coe]
  omega

theorem intToHex_byte (v : Nat) (h : v < 256) : intToHex (v : Int) 2 = hexByte v := by
  unfold intToHex hexByte
  rw [toUnsigned_natCast v (by omega)]
  by_cases h16 : v < 16
  · have h0 : v / 16 = 0 := by omega
    have h1 : v % 16 = v := by omega
    simp [hexDigits, h16, h0, h1, hexDigit]
  · have h2 : v / 16 < 16 := by omega
    simp [hexDigits, h16, h2]

theorem hexDigit_upper (n : Nat) (h : n < 16) : hexDigit n ∈ "0123456789ABCDEF".toList := by
  interval_cases n <;> decide

theorem hexByte_upper (v : Nat) (h : v < 256) :
    ∀ c ∈ hexByte v, c ∈ "0123456789ABCDEF".toList := by
  intro c hc
  simp only [hexByte, List.mem_cons, List.mem_singleton, List.not_mem_nil, or_false] at hc
  rcases hc with rfl | rfl
  · exact hexDigit_upper _ (by omega)
  · exact hexDigit_upper _ (by omega)

/-! ## Format 3: flags and packing -/

theorem mapFind_mem {V : Type} (m : List (List Char × V)) (key : List Char) (v : V)
    (h : mapFind m key = some v) : (key, v) ∈ m := by
  induction m with
  | nil => simp [mapFind] at h
  | cons e rest ih =>
    obtain ⟨k, w⟩ := e
    unfold mapFind at h
    by_cases hk : k = key
    · simp [hk] at h
      simp [hk, h]
    · simp [hk] at h
      exact List.mem_cons_of_mem _ (ih h)

/-- Every catalog opcode is one byte. -/
theorem catalog_opcode_byte :
    ∀ e ∈ instructionTable, 0 ≤ hexToDecimal e.2.machineCode ∧
      hexToDecimal e.2.machineCode < 256 := by
  decide

theorem catalog_opcode_nat (opcode : List Char) (instr : Instruction)
    (h : mapFind instructionTable opcode = some instr) :
    ∃ op : Nat, hexToDecimal instr.machineCode = Int.ofNat op ∧ op < 256 := by
  have hb : 0 ≤ hexToDecimal instr.machineCode ∧ hexToDecimal instr.machineCode < 256 :=
    catalog_opcode_byte _ (mapFind_mem _ _ _ h)
  refine ⟨(hexToDecimal instr.machineCode).toNat, ?_, ?_⟩
  · simp only [Int.ofNat_eq_coe]; omega
  · omega

theorem instructionAt_of_find (opcode : List Char) (instr : Instruction)
    (h : mapFind instructionTable opcode = some instr) : instructionAt opcode = instr := by
  simp [instructionAt, h]

/-- The substring search of the source finds `pat` exactly when `pat` occurs in the
string. -/
theorem findSub_isSome (pat s : List Char) : (findSub pat s).isSome = true ↔ pat <:+: s := by
  induction s with
  | nil =>
    cases pat with
    | nil => simp [findSub]
    | cons p ps => simp [findSub]
  | cons c cs ih =>
    rw [List.infix_cons_iff, findSub]
    by_cases hp : pat.isPrefixOf (c :: cs) = true
    · simp only [hp, if_true, Option.isSome_some, true_iff]
      exact Or.inl (List.isPrefixOf_iff_prefix.mp hp)
    · have hn : ¬ pat <+: c :: cs := fun h => hp (List.isPrefixOf_iff_prefix.mpr h)
      simp only [hp, Bool.false_eq_true, if_false, Option.isSome_map', hn, false_or]
      exact ih

/-- The test `isImmediate` of the source reads the `n` flag off the text of the operand. -/
theorem nBit_eq (operand : List Char) :
    nBit operand = if isImmediate operand then 0 else 1 := by
  unfold nBit isImmediate
  by_cases h : operand.head? = some '#' <;> simp [h]

/-- The tests `isImmediate` and `isIndirect` of the source read the `i` flag off the text
of the operand. -/
theorem iBit_eq (operand : List Char) :
    iBit operand = if isImmediate operand then 1 else if isIndirect operand then 0 else 1 := by
  unfold iBit isImmediate isIndirect
  by_cases h : operand.head? = some '@'
  · simp [h]
  · by_cases h2 : operand.head? = some '#' <;> simp [h, h2]

/-- The test `isIndexed` of the source reads the `x` flag off the text of the operand. -/
theorem xBit_eq (operand : List Char) :
    xBit operand = if isIndexed operand then 1 else 0 := by
  unfold xBit isIndexed
  by_cases h : ",X".toList <:+: operand
  · rw [if_pos h, if_pos ((findSub_isSome _ _).mpr h)]
  · rw [if_neg h, if_neg (fun hx => h ((findSub_isSome _ _).mp hx))]

theorem setNIX_zero (operand : List Char) :
    setNIX 0 operand = Int.ofNat (32 * nBit operand + 16 * iBit operand + 8 * xBit operand) := by
  rw [nBit_eq, iBit_eq, xBit_eq]
  unfold setNIX
  cases isImmediate operand <;> cases isIndirect operand <;> cases isIndexed operand <;> decide

theorem selectDisplacement_fst (a : Assembler) (nixbpe t address : Int) :
    (selectDisplacement a nixbpe t address).1 = nixbpe ∨
    (selectDisplacement a nixbpe t address).1 = orInt nixbpe 0x02 ∨
    (selectDisplacement a nixbpe t address).1 = orInt nixbpe 0x04 := by
  unfold selectDisplacement
  simp only
  split
  · right; left; rfl
  · split
    · split
      · right; right; rfl
      · left; rfl
    · left; rfl

/-- The flag word of format 3 holds the prefix flags, at most one of `b`, `p`, and `e = 0`. -/
theorem format3Fields_flags (a : Assembler) (operand : List Char) (address : Int) :
    ∃ b p : Nat, b ≤ 1 ∧ p ≤ 1 ∧
      (format3Fields a operand address).1 =
        Int.ofNat (32 * nBit operand + 16 * iBit operand + 8 * xBit operand + 4 * b + 2 * p) := by
  have key : ∀ t : Int, ∃ b p : Nat, b ≤ 1 ∧ p ≤ 1 ∧
      (selectDisplacement a (setNIX 0 operand) t address).1 =
        Int.ofNat (32 * nBit operand + 16 * iBit operand + 8 * xBit operand + 4 * b + 2 * p) := by
    intro t
    rcases selectDisplacement_fst a (setNIX 0 operand) t address with h | h | h
    · exact ⟨0, 0, by omega, by omega, by rw [h, setNIX_zero]; rfl⟩
    · refine ⟨0, 1, by omega, by omega, ?_⟩
      rw [h, setNIX_zero, nBit_eq, iBit_eq, xBit_eq]
      cases isImmediate operand <;> cases isIndirect operand <;> cases isIndexed operand <;>
        decide
    · refine ⟨1, 0, by omega, by omega, ?_⟩
      rw [h, setNIX_zero, nBit_eq, iBit_eq, xBit_eq]
      cases isImmediate operand <;> cases isIndirect operand <;> cases isIndexed operand <;>
        decide
  unfold format3Fields
  simp only
  split
  · exact ⟨0, 0, by omega, by omega, by rw [setNIX_zero]; rfl⟩
  · split
    · split
      · exact ⟨0, 0, by omega, by omega, by rw [setNIX_zero]; rfl⟩
      · exact key _
    · exact key _

theorem dispHigh_eq (disp : Int) :
    andInt (shrInt (if disp < 0 then andInt disp 0xFFF else disp) 8) 0x0F =
      ((toUnsigned disp >>> 8 &&& 0x0F : Nat) : Int) := by
  have hm : (0x0F : Nat) = 2 ^ 4 - 1 := by decide
  rw [andInt_mask4, hm, Nat.and_pow_two_sub_one_eq_mod, Nat.shiftRight_eq_div_pow]
  unfold shrInt toUnsigned
  split
  · rw [andInt_mask12]; omega
  · omega

theorem dispLow_eq (disp : Int) :
    andInt (if disp < 0 then andInt disp 0xFFF else disp) 0xFF =
      ((toUnsigned disp &&& 0xFF : Nat) : Int) := by
  have hm : (0xFF : Nat) = 2 ^ 8 - 1 := by decide
  rw [andInt_mask8, hm, Nat.and_pow_two_sub_one_eq_mod]
  unfold toUnsigned
  split
  · rw [andInt_mask12]; omega
  · omega

theorem firstByte_eq (op k : Nat) (hop : op < 256) (hk : k < 64) :
    orInt (andInt (Int.ofNat op) 0xFC) (andInt (shrInt (Int.ofNat k) 4) 0x03) =
      ((op &&& 0xFC ||| (k >>> 4 &&& 0x03) : Nat) : Int) := by
  have s1 : andInt (Int.ofNat op) 0xFC = ((op &&& 0xFC : Nat) : Int) :=
    andInt_natCast op 0xFC (by omega) (by omega)
  have hs : k >>> 4 < 2147483648 := by rw [Nat.shiftRight_eq_div_pow]; omega
  have s2 : andInt (shrInt (Int.ofNat k) 4) 0x03 = ((k >>> 4 &&& 0x03 : Nat) : Int) := by
    have := shrInt_natCast k 4
    simp only [Int.ofNat_eq_coe] at this ⊢
    rw [this]
    exact andInt_natCast (k >>> 4) 0x03 hs (by omega)
  have h1 : op &&& 0xFC ≤ op := Nat.and_le_left
  have h2 : k >>> 4 &&& 0x03 ≤ 0x03 := Nat.and_le_right
  rw [s1, s2]
  exact orInt_natCast _ _ (by omega) (by omega)

theorem secondByte_eq (k : Nat) (disp : Int) :
    orInt (shlInt (andInt (Int.ofNat k) 0x0F) 4)
      (andInt (shrInt (if disp < 0 then andInt disp 0xFFF else disp) 8) 0x0F) =
      (((k &&& 0x0F) <<< 4 ||| (toUnsigned disp >>> 8 &&& 0x0F) : Nat) : Int) := by
  have h3 : k &&& 0x0F ≤ 0x0F := Nat.and_le_right
  have h4 : toUnsigned disp >>> 8 &&& 0x0F ≤ 0x0F := Nat.and_le_right
  have h6 : (k &&& 0x0F) <<< 4 = (k &&& 0x0F) * 2 ^ 4 := Nat.shiftLeft_eq _ _
  have hk : k &&& 0x0F = k % 16 := Nat.and_pow_two_sub_one_eq_mod k 4
  have s1 : andInt (Int.ofNat k) 0x0F = ((k &&& 0x0F : Nat) : Int) := by
    rw [andInt_mask4, hk]
    simp only [Int.ofNat_eq_coe]
    omega
  have hb : (k &&& 0x0F) * 2 ^ 4 < 2147483648 := by omega
  rw [s1, shlInt_natCast _ _ hb, dispHigh_eq]
  exact orInt_natCast _ _ (by omega) (by omega)

theorem byte_bounds (op k : Nat) (hop : op < 256) (disp : Int) :
    (op &&& 0xFC ||| (k >>> 4 &&& 0x03)) < 256 ∧
    ((k &&& 0x0F) <<< 4 ||| (toUnsigned disp >>> 8 &&& 0x0F)) < 256 ∧
    (toUnsigned disp &&& 0xFF) < 256 := by
  have h1 : op &&& 0xFC ≤ op := Nat.and_le_left
  have h2 : k >>> 4 &&& 0x03 ≤ 0x03 := Nat.and_le_right
  have h3 : k &&& 0x0F ≤ 0x0F := Nat.and_le_right
  have h4 : toUnsigned disp >>> 8 &&& 0x0F ≤ 0x0F := Nat.and_le_right
  have h5 : toUnsigned disp &&& 0xFF ≤ 0xFF := Nat.and_le_right
  have h6 : (k &&& 0x0F) <<< 4 = (k &&& 0x0F) * 2 ^ 4 := Nat.shiftLeft_eq _ _
  have b1 : (op &&& 0xFC ||| (k >>> 4 &&& 0x03)) < 2 ^ 8 :=
    Nat.or_lt_two_pow (by omega) (by omega)
  have b2 : ((k &&& 0x0F) <<< 4 ||| (toUnsigned disp >>> 8 &&& 0x0F)) < 2 ^ 8 :=
    Nat.or_lt_two_pow (by omega) (by omega)
  exact ⟨by omega, by omega, by omega⟩

/-- The three bytes written by the packing step, for a one-byte opcode and a six-bit
flag word. -/
theorem packFormat3_bytes (op k : Nat) (hop : op < 256) (hk : k < 64) (disp : Int) :
    packFormat3 (Int.ofNat op) (Int.ofNat k) disp =
      hexByte (op &&& 0xFC ||| (k >>> 4 &&& 0x03)) ++
      hexByte ((k &&& 0x0F) <<< 4 ||| (toUnsigned disp >>> 8 &&& 0x0F)) ++
      hexByte (toUnsigned disp &&& 0xFF) := by
  obtain ⟨b1, b2, b3⟩ := byte_bounds op k hop disp
  unfold packFormat3
  simp only
  rw [firstByte_eq op k hop hk, secondByte_eq, dispLow_eq, intToHex_byte _ b1,
    intToHex_byte _ b2, intToHex_byte _ b3]

theorem flagWord_high (n i x b p : Nat) (hn : n ≤ 1) (hi : i ≤ 1) (hx : x ≤ 1) (hb : b ≤ 1)
    (hp : p ≤ 1) :
    (32 * n + 16 * i + 8 * x + 4 * b + 2 * p) >>> 4 &&& 0x03 = n <<< 1 ||| i := by
  interval_cases n <;> interval_cases i <;> interval_cases x <;> interval_cases b <;>
    interval_cases p <;> rfl

theorem flagWord_low (n i x b p : Nat) (hn : n ≤ 1) (hi : i ≤ 1) (hx : x ≤ 1) (hb : b ≤ 1)
    (hp : p ≤ 1) :
    ((32 * n + 16 * i + 8 * x + 4 * b + 2 * p) &&& 0x0F) <<< 4 =
      x <<< 7 ||| b <<< 6 ||| p <<< 5 ||| 0 <<< 4 := by
  interval_cases n <;> interval_cases i <;> interval_cases x <;> interval_cases b <;>
    interval_cases p <;> rfl

theorem nBit_le (operand : List Char) : nBit operand ≤ 1 := by
  unfold nBit; split <;> omega

theorem iBit_le (operand : List Char) : iBit operand ≤ 1 := by
  unfold iBit; split <;> omega

theorem xBit_le (operand : List Char) : xBit operand ≤ 1 := by
  unfold xBit; split <;> omega

/-! ## C1: the three bytes of a format-3 instruction -/

/-- C1: for every format-3 catalog mnemonic (opcode byte `op`), every operand and every
address, `generateFormat3ObjectCode` returns the six upper-case hexadecimal digits of the
three bytes `(op & 0xFC) | ((n<<1)|i)`, `(x<<7)|(b<<6)|(p<<5)|(e<<4)|((disp>>8)&0x0F)` with
`e = 0`, and `disp & 0xFF`. Here `n`, `i`, `x` are read off the text of the operand:
`n = 0`, `i = 1` when its first character is `#`; `n = 1`, `i = 0` when it is `@`;
`n = i = 1` otherwise; `x = 1` exactly when `,X` occurs in the operand, `x = 0` otherwise.
And `b`, `p`, `disp` are the flags and displacement the function selected: its flag word
is `32 n + 16 i + 8 x + 4 b + 2 p` (`disp` is read as its 32-bit two's complement
pattern). -/
theorem generateFormat3ObjectCode_three_bytes (a : Assembler) (opcode operand : List Char)
    (address : Int) (instr : Instruction)
    (hcat : mapFind instructionTable opcode = some instr) (hfmt : instr.format = 3) :
    ∃ n i x op b p : Nat, ∃ disp : Int,
      (operand.head? = some '#' → n = 0 ∧ i = 1) ∧
      (operand.head? = some '@' → n = 1 ∧ i = 0) ∧
      (operand.head? ≠ some '#' → operand.head? ≠ some '@' → n = 1 ∧ i = 1) ∧
      (x = 1 ↔ ∃ pre post : List Char, operand = pre ++ ",X".toList ++ post) ∧
      (x = 0 ∨ x = 1) ∧
      hexToDecimal instr.machineCode = Int.ofNat op ∧ op < 256 ∧ b ≤ 1 ∧ p ≤ 1 ∧
      format3Fields a operand address =
        (Int.ofNat (32 * n + 16 * i + 8 * x + 4 * b + 2 * p), disp) ∧
      generateFormat3ObjectCode a opcode operand address =
        hexByte (op &&& 0xFC ||| (n <<< 1 ||| i)) ++
        hexByte (x <<< 7 ||| b <<< 6 ||| p <<< 5 ||| 0 <<< 4 |||
          (toUnsigned disp >>> 8 &&& 0x0F)) ++
        hexByte (toUnsigned disp &&& 0xFF) ∧
      (op &&& 0xFC ||| (n <<< 1 ||| i)) < 256 ∧
      (x <<< 7 ||| b <<< 6 ||| p <<< 5 ||| 0 <<< 4 |||
          (toUnsigned disp >>> 8 &&& 0x0F)) < 256 ∧
      (toUnsigned disp &&& 0xFF) < 256 ∧
      (generateFormat3ObjectCode a opcode operand address).length = 6 ∧
      ∀ c ∈ generateFormat3ObjectCode a opcode operand address,
        c ∈ "0123456789ABCDEF".toList := by
  obtain ⟨op, hop, hlt⟩ := catalog_opcode_nat opcode instr hcat
  obtain ⟨b, p, hb, hp, hflags⟩ := format3Fields_flags a operand address
  have hn := nBit_le operand
  have hi := iBit_le operand
  have hx := xBit_le operand
  have hk : 32 * nBit operand + 16 * iBit operand + 8 * xBit operand + 4 * b + 2 * p < 64 := by
    omega
  have hcode : generateFormat3ObjectCode a opcode operand address =
      hexByte (op &&& 0xFC ||| (nBit operand <<< 1 ||| iBit operand)) ++
      hexByte (xBit operand <<< 7 ||| b <<< 6 ||| p <<< 5 ||| 0 <<< 4 |||
        (toUnsigned (format3Fields a operand address).2 >>> 8 &&& 0x0F)) ++
      hexByte (toUnsigned (format3Fields a operand address).2 &&& 0xFF) := by
    unfold generateFormat3ObjectCode
    simp only
    rw [instructionAt_of_find opcode instr hcat, hop, hflags,
      packFormat3_bytes op _ hlt hk, flagWord_high _ _ _ _ _ hn hi hx hb hp,
      flagWord_low _ _ _ _ _ hn hi hx hb hp]
  obtain ⟨b1, b2, b3⟩ := byte_bounds op
    (32 * nBit operand + 16 * iBit operand + 8 * xBit operand + 4 * b + 2 * p) hlt
    (format3Fields a operand address).2
  rw [flagWord_high _ _ _ _ _ hn hi hx hb hp] at b1
  rw [flagWord_low _ _ _ _ _ hn hi hx hb hp] at b2
  refine ⟨nBit operand, iBit operand, xBit operand, op, b, p,
    (format3Fields a operand address).2, ?_, ?_, ?_, ?_, ?_, hop, hlt, hb, hp, ?_, hcode, b1,
    b2, b3, ?_, ?_⟩
  · intro h
    unfold nBit iBit
    rw [h]
    exact ⟨rfl, rfl⟩
  · intro h
    unfold nBit iBit
    rw [h]
    exact ⟨rfl, rfl⟩
  · intro h1 h2
    unfold nBit iBit
    rw [if_neg h1, if_neg h2]
    exact ⟨rfl, rfl⟩
  · unfold xBit
    constructor
    · intro h
      by_cases hin : ",X".toList <:+: operand
      · obtain ⟨pre, post, hpp⟩ := hin
        exact ⟨pre, post, hpp.symm⟩
      · rw [if_neg hin] at h
        cases h
    · intro h
      obtain ⟨pre, post, hpp⟩ := h
      rw [if_pos ⟨pre, post, hpp.symm⟩]
  · unfold xBit
    split
    · exact Or.inr rfl
    · exact Or.inl rfl
  · rw [← hflags]
  · rw [hcode]; simp [hexByte]
  · rw [hcode]
    intro c hc
    simp only [List.mem_append] at hc
    rcases hc with (hc | hc) | hc
    · exact hexByte_upper _ b1 c hc
    · exact hexByte_upper _ b2 c hc
    · exact hexByte_upper _ b3 c hc

/-- C1 at `LDA @ALPHA,X` (address 0x1000, `ALPHA` at 0x1003): `n = 1`, `i = 0`, `x = 1`,
and the function selects `p = 1` with displacement 0, so the object code is `02A000`;
the operands `#ALPHA`, `ALPHA,X` and `ALPHA` give `012000`, `03A000` and `032000`. -/
theorem generateFormat3ObjectCode_three_bytes_witness :
    generateFormat3ObjectCode sampleSingle "LDA".toList "@ALPHA,X".toList 0x1000 =
      "02A000".toList ∧
    generateFormat3ObjectCode sampleSingle "LDA".toList "#ALPHA".toList 0x1000 =
      "012000".toList ∧
    generateFormat3ObjectCode sampleSingle "LDA".toList "ALPHA,X".toList 0x1000 =
      "03A000".toList ∧
    generateFormat3ObjectCode sampleSingle "LDA".toList "ALPHA".toList 0x1000 =
      "032000".toList ∧
    ∃ n i x op b p : Nat, ∃ disp : Int,
      n = 1 ∧ i = 0 ∧ x = 1 ∧ op = 0 ∧
      format3Fields sampleSingle "@ALPHA,X".toList 0x1000 =
        (Int.ofNat (32 * n + 16 * i + 8 * x + 4 * b + 2 * p), disp) ∧
      generateFormat3ObjectCode sampleSingle "LDA".toList "@ALPHA,X".toList 0x1000 =
        hexByte (op &&& 0xFC ||| (n <<< 1 ||| i)) ++
        hexByte (x <<< 7 ||| b <<< 6 ||| p <<< 5 ||| 0 <<< 4 |||
          (toUnsigned disp >>> 8 &&& 0x0F)) ++
        hexByte (toUnsigned disp &&& 0xFF) := by
  obtain ⟨n, i, x, op, b, p, disp, _, h2, _, h4, _, hop, _, _, _, hfields, hcode, _⟩ :=
    generateFormat3ObjectCode_three_bytes sampleSingle "LDA".toList "@ALPHA,X".toList 0x1000
      { opcode := "LDA".toList, format := 3, machineCode := "00".toList } (by decide) rfl
  have h0 : hexToDecimal "00".toList = 0 := by decide
  have hop0 : op = 0 := by
    have h : (0 : Int) = Int.ofNat op := by rw [← h0]; exact hop
    simp only [Int.ofNat_eq_coe] at h
    omega
  exact ⟨by decide, by decide, by decide, by decide, n, i, x, op, b, p, disp, (h2 rfl).1,
    (h2 rfl).2, h4.mpr ⟨"@ALPHA".toList, [], rfl⟩, hop0, hfields, hcode⟩

/-! ## C2: displacement selection in format 3 -/

theorem hexDigitValue_hexDigit (n : Nat) (h : n < 16) : hexDigitValue (hexDigit n) = some n := by
  interval_cases n <;> rfl

theorem hexValue_three (b1 b2 b3 : Nat) (h1 : b1 < 256) (h2 : b2 < 256) (h3 : b3 < 256) :
    hexValue (hexByte b1 ++ hexByte b2 ++ hexByte b3) = b1 * 65536 + b2 * 256 + b3 := by
  simp only [hexValue, hexByte, List.cons_append, List.nil_append, List.foldl_cons,
    List.foldl_nil]
  rw [hexDigitValue_hexDigit _ (by omega), hexDigitValue_hexDigit _ (by omega),
    hexDigitValue_hexDigit _ (by omega), hexDigitValue_hexDigit _ (by omega),
    hexDigitValue_hexDigit _ (by omega), hexDigitValue_hexDigit _ (by omega)]
  simp only [Option.getD_some]
  omega

/-- The 24-bit value of a packed format-3 instruction, in arithmetic form. -/
theorem packFormat3_value (op k : Nat) (hop : op < 256) (hk : k < 64) (disp : Int) :
    hexValue (packFormat3 (Int.ofNat op) (Int.ofNat k) disp) =
      (op &&& 0xFC ||| (k >>> 4 &&& 0x03)) * 65536 +
        (k % 16 * 16 + toUnsigned disp / 256 % 16) * 256 + toUnsigned disp % 256 := by
  obtain ⟨b1, b2, b3⟩ := byte_bounds op k hop disp
  rw [packFormat3_bytes op k hop hk, hexValue_three _ _ _ b1 b2 b3]
  have e3 : toUnsigned disp &&& 0xFF = toUnsigned disp % 256 :=
    Nat.and_pow_two_sub_one_eq_mod _ 8
  have e4 : toUnsigned disp >>> 8 &&& 0x0F = toUnsigned disp / 256 % 16 := by
    rw [Nat.shiftRight_eq_div_pow]
    exact Nat.and_pow_two_sub_one_eq_mod _ 4
  have e5 : k &&& 0x0F = k % 16 := Nat.and_pow_two_sub_one_eq_mod _ 4
  have e6 : (k &&& 0x0F) <<< 4 ||| (toUnsigned disp >>> 8 &&& 0x0F) =
      k % 16 * 16 + toUnsigned disp / 256 % 16 := by
    have hlt : toUnsigned disp >>> 8 &&& 0x0F < 2 ^ 4 := by rw [e4]; omega
    rw [Nat.shiftLeft_eq, Nat.mul_comm, ← Nat.mul_add_lt_is_or hlt, e4, e5]
    omega
  rw [e3, e6]

theorem wrapInt_of_range (x : Int) (h : -2147483648 ≤ x ∧ x ≤ 2147483647) : wrapInt x = x := by
  unfold wrapInt; omega

theorem wrapInt_sub_wrapInt (t x : Int) : wrapInt (t - wrapInt x) = wrapInt (t - x) := by
  unfold wrapInt; omega

theorem orInt_flag_p (n i x : Nat) (hn : n ≤ 1) (hi : i ≤ 1) (hx : x ≤ 1) :
    orInt (Int.ofNat (32 * n + 16 * i + 8 * x)) 0x02 = Int.ofNat (32 * n + 16 * i + 8 * x + 2) := by
  interval_cases n <;> interval_cases i <;> interval_cases x <;> decide

theorem orInt_flag_b (n i x : Nat) (hn : n ≤ 1) (hi : i ≤ 1) (hx : x ≤ 1) :
    orInt (Int.ofNat (32 * n + 16 * i + 8 * x)) 0x04 = Int.ofNat (32 * n + 16 * i + 8 * x + 4) := by
  interval_cases n <;> interval_cases i <;> interval_cases x <;> decide

/-- What `selectDisplacement` returns in each of its three cases, when neither
subtraction overflows. -/
theorem selectDisplacement_cases (a : Assembler) (nixbpe t address : Int)
    (hpc : -2147483648 ≤ t - (address + 3) ∧ t - (address + 3) ≤ 2147483647)
    (hbase : a.baseSet = true →
      -2147483648 ≤ t - a.baseRegister ∧ t - a.baseRegister ≤ 2147483647) :
    ((-2048 ≤ t - (address + 3) ∧ t - (address + 3) ≤ 2047) →
      selectDisplacement a nixbpe t address = (orInt nixbpe 0x02, t - (address + 3))) ∧
    (¬(-2048 ≤ t - (address + 3) ∧ t - (address + 3) ≤ 2047) → a.baseSet = true →
      (0 ≤ t - a.baseRegister ∧ t - a.baseRegister ≤ 4095) →
      selectDisplacement a nixbpe t address = (orInt nixbpe 0x04, t - a.baseRegister)) ∧
    (¬(-2048 ≤ t - (address + 3) ∧ t - (address + 3) ≤ 2047) →
      ¬(a.baseSet = true ∧ 0 ≤ t - a.baseRegister ∧ t - a.baseRegister ≤ 4095) →
      (selectDisplacement a nixbpe t address).1 = nixbpe) := by
  have e1 : wrapInt (t - wrapInt (address + 3)) = t - (address + 3) := by
    rw [wrapInt_sub_wrapInt, wrapInt_of_range _ hpc]
  refine ⟨?_, ?_, ?_⟩
  · intro h
    unfold selectDisplacement
    simp only [e1]
    rw [if_pos ⟨by omega, by omega⟩]
  · intro h hset hb
    have e2 : wrapInt (t - a.baseRegister) = t - a.baseRegister :=
      wrapInt_of_range _ (hbase hset)
    unfold selectDisplacement
    simp only [e1, e2]
    rw [if_neg (by omega), if_pos hset, if_pos ⟨by omega, by omega⟩]
  · intro h hnb
    unfold selectDisplacement
    simp only [e1]
    rw [if_neg (by omega)]
    by_cases hset : a.baseSet = true
    · have e2 : wrapInt (t - a.baseRegister) = t - a.baseRegister :=
        wrapInt_of_range _ (hbase hset)
      simp only [e2]
      rw [if_pos hset, if_neg (by intro hh; exact hnb ⟨hset, by omega, by omega⟩)]
    · rw [if_neg hset]

theorem format3Fields_symbol (a : Assembler) (operand : List Char) (address : Int)
    (hne : operand ≠ [])
    (hsym : ¬(isImmediate operand = true ∧ (stoi (getBaseOperand operand)).isSome = true)) :
    format3Fields a operand address =
      selectDisplacement a (setNIX 0 operand)
        (calculateTargetAddress a (getBaseOperand operand) address) address := by
  unfold format3Fields
  simp only
  have h0 : operand.isEmpty = false := by
    cases operand with
    | nil => exact absurd rfl hne
    | cons c cs => rfl
  rw [h0]
  simp only [Bool.false_eq_true, if_false]
  split
  · rename_i himm
    split
    · rename_i v hv
      exact absurd ⟨himm, by rw [hv]; rfl⟩ hsym
    · rfl
  · rfl

/-- The 24-bit value of a format-3 object code in terms of the fields selected. -/
theorem generateFormat3ObjectCode_value (a : Assembler) (opcode operand : List Char)
    (address : Int) (instr : Instruction)
    (hcat : mapFind instructionTable opcode = some instr) (k : Nat) (hk : k < 64)
    (hfields : (format3Fields a operand address).1 = Int.ofNat k) :
    ∃ b1 : Nat, hexValue (generateFormat3ObjectCode a opcode operand address) =
      b1 * 65536 +
        (k % 16 * 16 + toUnsigned (format3Fields a operand address).2 / 256 % 16) * 256 +
        toUnsigned (format3Fields a operand address).2 % 256 := by
  obtain ⟨op, hop, hlt⟩ := catalog_opcode_nat opcode instr hcat
  refine ⟨op &&& 0xFC ||| (k >>> 4 &&& 0x03), ?_⟩
  unfold generateFormat3ObjectCode
  simp only
  rw [instructionAt_of_find opcode instr hcat, hop, hfields, packFormat3_value op k hlt hk]

/-- C2: for a format-3 instruction at `address` whose non-empty operand is not an
immediate decimal integer and resolves to the target `t` (no subtraction overflowing):
when `t - (address + 3)` lies in `[-2048, 2047]` the object code has `p = 1`, `b = 0` and the
12-bit field `(t - (address + 3)) mod 4096`; otherwise, when a base is set and
`t - baseRegister` lies in `[0, 4095]`, it has `b = 1`, `p = 0` and the field
`t - baseRegister`; otherwise `b = p = 0`. -/
theorem generateFormat3ObjectCode_displacement (a : Assembler) (opcode operand : List Char)
    (address : Int) (instr : Instruction)
    (hcat : mapFind instructionTable opcode = some instr) (hfmt : instr.format = 3)
    (hne : operand ≠ [])
    (hsym : ¬(isImmediate operand = true ∧ (stoi (getBaseOperand operand)).isSome = true))
    (t : Int) (ht : t = calculateTargetAddress a (getBaseOperand operand) address)
    (hpc : -2147483648 ≤ t - (address + 3) ∧ t - (address + 3) ≤ 2147483647)
    (hbase : a.baseSet = true →
      -2147483648 ≤ t - a.baseRegister ∧ t - a.baseRegister ≤ 2147483647) :
    ((-2048 ≤ t - (address + 3) ∧ t - (address + 3) ≤ 2047) →
      pFlag3 (generateFormat3ObjectCode a opcode operand address) = 1 ∧
      bFlag3 (generateFormat3ObjectCode a opcode operand address) = 0 ∧
      (dispField3 (generateFormat3ObjectCode a opcode operand address) : Int) =
        (t - (address + 3)) % 4096) ∧
    (¬(-2048 ≤ t - (address + 3) ∧ t - (address + 3) ≤ 2047) → a.baseSet = true →
      (0 ≤ t - a.baseRegister ∧ t - a.baseRegister ≤ 4095) →
      bFlag3 (generateFormat3ObjectCode a opcode operand address) = 1 ∧
      pFlag3 (generateFormat3ObjectCode a opcode operand address) = 0 ∧
      (dispField3 (generateFormat3ObjectCode a opcode operand address) : Int) =
        t - a.baseRegister) ∧
    (¬(-2048 ≤ t - (address + 3) ∧ t - (address + 3) ≤ 2047) →
      ¬(a.baseSet = true ∧ 0 ≤ t - a.baseRegister ∧ t - a.baseRegister ≤ 4095) →
      bFlag3 (generateFormat3ObjectCode a opcode operand address) = 0 ∧
      pFlag3 (generateFormat3ObjectCode a opcode operand address) = 0) := by
  have hn := nBit_le operand
  have hi := iBit_le operand
  have hx := xBit_le operand
  have hf := format3Fields_symbol a operand address hne hsym
  rw [← ht, setNIX_zero] at hf
  obtain ⟨c1, c2, c3⟩ := selectDisplacement_cases a
    (Int.ofNat (32 * nBit operand + 16 * iBit operand + 8 * xBit operand)) t address hpc hbase
  refine ⟨?_, ?_, ?_⟩
  · intro h
    have hsel := c1 h
    rw [orInt_flag_p _ _ _ hn hi hx] at hsel
    have h1 : (format3Fields a operand address).1 =
        Int.ofNat (32 * nBit operand + 16 * iBit operand + 8 * xBit operand + 2) := by
      rw [hf, hsel]
    have h2 : (format3Fields a operand address).2 = t - (address + 3) := by rw [hf, hsel]
    obtain ⟨b1, hv⟩ := generateFormat3ObjectCode_value a opcode operand address instr hcat _
      (by omega) h1
    rw [h2] at hv
    unfold pFlag3 bFlag3 dispField3
    rw [hv]
    unfold toUnsigned
    refine ⟨by omega, by omega, by omega⟩
  · intro h hset hb
    have hsel := c2 h hset hb
    rw [orInt_flag_b _ _ _ hn hi hx] at hsel
    have h1 : (format3Fields a operand address).1 =
        Int.ofNat (32 * nBit operand + 16 * iBit operand + 8 * xBit operand + 4) := by
      rw [hf, hsel]
    have h2 : (format3Fields a operand address).2 = t - a.baseRegister := by rw [hf, hsel]
    obtain ⟨b1, hv⟩ := generateFormat3ObjectCode_value a opcode operand address instr hcat _
      (by omega) h1
    rw [h2] at hv
    unfold pFlag3 bFlag3 dispField3
    rw [hv]
    unfold toUnsigned
    refine ⟨by omega, by omega, by omega⟩
  · intro h hnb
    have hsel := c3 h hnb
    have h1 : (format3Fields a operand address).1 =
        Int.ofNat (32 * nBit operand + 16 * iBit operand + 8 * xBit operand) := by
      rw [hf, hsel]
    obtain ⟨b1, hv⟩ := generateFormat3ObjectCode_value a opcode operand address instr hcat _
      (by omega) h1
    unfold pFlag3 bFlag3
    rw [hv]
    refine ⟨by omega, by omega⟩

/-- C2 at `LDA ALPHA` (address 0x1000, `ALPHA` at 0x1003): PC-relative, displacement 0. -/
theorem generateFormat3ObjectCode_displacement_witness :
    pFlag3 (generateFormat3ObjectCode sampleSingle "LDA".toList "ALPHA".toList 0x1000) = 1 ∧
    bFlag3 (generateFormat3ObjectCode sampleSingle "LDA".toList "ALPHA".toList 0x1000) = 0 ∧
    (dispField3 (generateFormat3ObjectCode sampleSingle "LDA".toList "ALPHA".toList 0x1000) :
      Int) = (0x1003 - (0x1000 + 3)) % 4096 :=
  (generateFormat3ObjectCode_displacement sampleSingle "LDA".toList "ALPHA".toList 0x1000
    { opcode := "LDA".toList, format := 3, machineCode := "00".toList } (by decide) rfl
    (by decide) (by decide) 0x1003 (by decide) (by decide) (by decide)).1 (by decide)

/-! ## C3: the 32-bit word of a format-4 instruction -/

theorem hexValue_append_singleton (s : List Char) (c : Char) :
    hexValue (s ++ [c]) = hexValue s * 16 + (hexDigitValue c).getD 0 := by
  simp [hexValue, List.foldl_append]

theorem hexValue_hexDigits (fuel n : Nat) (h : n < 16 ^ fuel) :
    hexValue (hexDigits fuel n) = n := by
  induction fuel generalizing n with
  | zero => simp at h; subst h; rfl
  | succ f ih =>
    unfold hexDigits
    by_cases h16 : n < 16
    · rw [if_pos h16]
      simp [hexValue, hexDigitValue_hexDigit n h16]
    · rw [if_neg h16, hexValue_append_singleton, ih (n / 16) (by rw [pow_succ] at h; omega),
        hexDigitValue_hexDigit _ (by omega)]
      simp only [Option.getD_some]
      omega

theorem hexDigits_length_le (fuel n : Nat) : (hexDigits fuel n).length ≤ fuel := by
  induction fuel generalizing n with
  | zero => simp [hexDigits]
  | succ f ih =>
    unfold hexDigits
    split
    · simp
    · have := ih (n / 16)
      simp only [List.length_append, List.length_singleton]
      omega

theorem hexDigits_upper (fuel n : Nat) :
    ∀ c ∈ hexDigits fuel n, c ∈ "0123456789ABCDEF".toList := by
  induction fuel generalizing n with
  | zero => simp [hexDigits]
  | succ f ih =>
    unfold hexDigits
    split
    · rename_i h16
      intro c hc
      simp only [List.mem_singleton] at hc
      subst hc
      exact hexDigit_upper n h16
    · intro c hc
      simp only [List.mem_append, List.mem_singleton] at hc
      rcases hc with hc | hc
      · exact ih _ c hc
      · subst hc
        exact hexDigit_upper _ (by omega)

theorem hexValue_zero_pad (m : Nat) (s : List Char) :
    hexValue (List.replicate m '0' ++ s) = hexValue s := by
  induction m with
  | zero => simp
  | succ k ih =>
    have h0 : hexDigitValue '0' = some 0 := by decide
    have : hexValue (List.replicate k '0' ++ s) = hexValue s := ih
    simp only [hexValue] at this ⊢
    simp only [List.replicate_succ, List.cons_append, List.foldl_cons, h0, Option.getD_some]
    exact this

/-- An `int` printed with width 8 gives the eight upper-case digits of its 32-bit pattern. -/
theorem intToHex_eight (v : Int) :
    (intToHex v 8).length = 8 ∧ hexValue (intToHex v 8) = toUnsigned v ∧
      ∀ c ∈ intToHex v 8, c ∈ "0123456789ABCDEF".toList := by
  have hlt : toUnsigned v < 16 ^ 8 := by unfold toUnsigned; omega
  have hlen := hexDigits_length_le 8 (toUnsigned v)
  refine ⟨?_, ?_, ?_⟩
  · unfold intToHex
    simp only [List.length_append, List.length_replicate]
    omega
  · unfold intToHex
    simp only
    rw [hexValue_zero_pad, hexValue_hexDigits 8 _ hlt]
  · unfold intToHex
    intro c hc
    simp only [List.mem_append, List.mem_replicate] at hc
    rcases hc with ⟨_, hc⟩ | hc
    · subst hc; decide
    · exact hexDigits_upper 8 _ c hc

theorem and_0xFC (op : Nat) (h : op < 256) : op &&& 0xFC = 4 * (op / 4) := by
  interval_cases op <;> rfl

theorem andInt_mask20 (x : Int) : andInt x 0xFFFFF = x % 1048576 := by
  unfold andInt
  have h : toUnsigned 0xFFFFF = 2 ^ 20 - 1 := by decide
  rw [h, Nat.and_pow_two_sub_one_eq_mod]
  unfold toUnsigned wrapInt
  simp only [Int.ofNat_eq_coe]
  omega

theorem setNIX_one (operand : List Char) :
    setNIX (orInt 0 0x01) operand =
      Int.ofNat (32 * nBit operand + 16 * iBit operand + 8 * xBit operand + 1) := by
  rw [nBit_eq, iBit_eq, xBit_eq]
  unfold setNIX
  cases isImmediate operand <;> cases isIndirect operand <;> cases isIndexed operand <;> decide

theorem toUnsigned_wrapInt_natCast (n : Nat) (h : n < 4294967296) :
    toUnsigned (wrapInt (n : Int)) = n := by
  unfold toUnsigned wrapInt; omega

theorem firstPart_eq (op k : Nat) (hop : op < 256) (hk : k < 64) :
    orInt (shlInt (andInt (Int.ofNat op) 0xFC) 4) (andInt (Int.ofNat k) 0x3F) =
      ((64 * (op / 4) + k : Nat) : Int) := by
  have s1 : andInt (Int.ofNat op) 0xFC = ((op &&& 0xFC : Nat) : Int) :=
    andInt_natCast op 0xFC (by omega) (by omega)
  have s2 : andInt (Int.ofNat k) 0x3F = ((k &&& 0x3F : Nat) : Int) :=
    andInt_natCast k 0x3F (by omega) (by omega)
  have hk6 : k &&& 0x3F = k := Nat.and_pow_two_sub_one_of_lt_two_pow (n := 6) (by omega)
  have hb : 4 * (op / 4) * 2 ^ 4 < 2147483648 := by omega
  rw [s1, s2, hk6, and_0xFC op hop, shlInt_natCast _ _ hb, Nat.shiftLeft_eq,
    orInt_natCast _ _ (by omega) (by omega)]
  have hor : 2 ^ 6 * (op / 4) + k = 2 ^ 6 * (op / 4) ||| k :=
    Nat.mul_add_lt_is_or (by omega) _
  have e : 4 * (op / 4) * 2 ^ 4 = 2 ^ 6 * (op / 4) := by omega
  rw [e, ← hor]
  congr 1

/-- The 32-bit pattern of the packed format-4 word, in arithmetic form. -/
theorem packFormat4_word (op k : Nat) (hop : op < 256) (hk : k < 64) (target : Int) :
    (packFormat4 (Int.ofNat op) (Int.ofNat k) target).length = 8 ∧
    hexValue (packFormat4 (Int.ofNat op) (Int.ofNat k) target) =
      op / 4 * 2 ^ 26 + k * 2 ^ 20 + (target % 1048576).toNat ∧
    ∀ c ∈ packFormat4 (Int.ofNat op) (Int.ofNat k) target, c ∈ "0123456789ABCDEF".toList := by
  have hF : 64 * (op / 4) + k < 4096 := by omega
  have hA : (target % 1048576).toNat < 2 ^ 20 := by omega
  have e1 : toUnsigned (shlInt ((64 * (op / 4) + k : Nat) : Int) 20) =
      2 ^ 20 * (64 * (op / 4) + k) := by
    unfold shlInt
    have := toUnsigned_wrapInt_natCast ((64 * (op / 4) + k) * 2 ^ 20) (by omega)
    push_cast at this ⊢
    rw [this]
    ring
  have e2 : toUnsigned (target % 1048576) = (target % 1048576).toNat := by
    unfold toUnsigned; omega
  have hor : 2 ^ 20 * (64 * (op / 4) + k) + (target % 1048576).toNat =
      2 ^ 20 * (64 * (op / 4) + k) ||| (target % 1048576).toNat :=
    Nat.mul_add_lt_is_or hA _
  have e3 : toUnsigned (orInt (shlInt ((64 * (op / 4) + k : Nat) : Int) 20)
      (target % 1048576)) = op / 4 * 2 ^ 26 + k * 2 ^ 20 + (target % 1048576).toNat := by
    unfold orInt
    rw [e1, e2, ← hor]
    simp only [Int.ofNat_eq_coe]
    rw [toUnsigned_wrapInt_natCast _ (by omega)]
    omega
  unfold packFormat4
  simp only
  rw [firstPart_eq op k hop hk, andInt_mask20]
  obtain ⟨h1, h2, h3⟩ := intToHex_eight
    (orInt (shlInt ((64 * (op / 4) + k : Nat) : Int) 20) (target % 1048576))
  exact ⟨h1, by rw [h2, e3], h3⟩

/-- C3: for every format-3 catalog mnemonic written with the `+` prefix (opcode byte `op`,
also `op ≥ 0x80`, where `firstPart << 20` wraps in a signed `int`), the object code of
`generateFormat4ObjectCode` is eight upper-case hexadecimal digits; its 32-bit value has
`op`'s upper six bits on top, then the flags `n, i, x, b, p, e` with `b = p = 0` and
`e = 1`, then the 20-bit address field (the target address modulo `2^20`). -/
theorem generateFormat4ObjectCode_word (a : Assembler) (opcode operand : List Char)
    (address : Int) (instr : Instruction)
    (hcat : mapFind instructionTable opcode = some instr) (hfmt : instr.format = 3) :
    ∃ op field : Nat,
      hexToDecimal instr.machineCode = Int.ofNat op ∧ op < 256 ∧
      (field : Int) = (format4Target a opcode operand address).1 % 1048576 ∧
      field < 2 ^ 20 ∧
      (generateFormat4ObjectCode a opcode operand address).1.length = 8 ∧
      (∀ c ∈ (generateFormat4ObjectCode a opcode operand address).1,
        c ∈ "0123456789ABCDEF".toList) ∧
      hexValue (generateFormat4ObjectCode a opcode operand address).1 =
        op / 4 * 2 ^ 26 +
          (32 * nBit operand + 16 * iBit operand + 8 * xBit operand + 4 * 0 + 2 * 0 + 1) *
            2 ^ 20 +
          field := by
  obtain ⟨op, hop, hlt⟩ := catalog_opcode_nat opcode instr hcat
  have hn := nBit_le operand
  have hi := iBit_le operand
  have hx := xBit_le operand
  have hk : 32 * nBit operand + 16 * iBit operand + 8 * xBit operand + 1 < 64 := by omega
  obtain ⟨h1, h2, h3⟩ := packFormat4_word op _ hlt hk (format4Target a opcode operand address).1
  have hcode : (generateFormat4ObjectCode a opcode operand address).1 =
      packFormat4 (Int.ofNat op)
        (Int.ofNat (32 * nBit operand + 16 * iBit operand + 8 * xBit operand + 1))
        (format4Target a opcode operand address).1 := by
    unfold generateFormat4ObjectCode
    simp only
    rw [instructionAt_of_find opcode instr hcat, hop, setNIX_one]
  refine ⟨op, ((format4Target a opcode operand address).1 % 1048576).toNat, hop, hlt, ?_, ?_,
    ?_, ?_, ?_⟩
  · omega
  · omega
  · rw [hcode]; exact h1
  · rw [hcode]; exact h3
  · rw [hcode, h2]

/-- C3 at `+STF ALPHA,X` (opcode 0x80, `ALPHA` at 0x1003): the object code is `83901003`. -/
theorem generateFormat4ObjectCode_word_witness :
    mapFind instructionTable "STF".toList =
        some { opcode := "STF".toList, format := 3, machineCode := "80".toList } ∧
      (generateFormat4ObjectCode sampleSingle "STF".toList "ALPHA,X".toList 0x1000).1 =
        "83901003".toList ∧
      (generateFormat4ObjectCode sampleSingle "STF".toList "ALPHA,X".toList 0x1000).1.length =
        8 := by
  refine ⟨by decide, by decide, ?_⟩
  obtain ⟨_, _, _, _, _, _, hlen, _⟩ :=
    generateFormat4ObjectCode_word sampleSingle "STF".toList "ALPHA,X".toList 0x1000
      { opcode := "STF".toList, format := 3, machineCode := "80".toList } (by decide) rfl
  exact hlen

/-! ## C4: format 4 and the `EXTREF` list of the instruction's own section -/

/-- When the section that the encoder takes for the instruction lists the base operand in
its `EXTREF`, the address field is 0 and the record names the base operand. -/
theorem format4Target_extref (a : Assembler) (opcode operand : List Char) (address : Int)
    (cs : ControlSection)
    (hcs : a.controlSections.find? (fun c => c.name == format4Section a opcode address) =
      some cs)
    (href : cs.extRef.contains (getBaseOperand operand) = true) :
    format4Target a opcode operand address =
      (0, [{ address := wrapInt (address + 1), length := 5,
             symbol := getBaseOperand operand, isAddition := true }]) := by
  unfold format4Target
  simp only [hcs, href, Bool.true_or, if_true]

/-- C4 (the code at the failing input): in `crossSectionSource` the instruction
`+LDA BUF` of `PROGB` (line 7, address 0) has `BUF` in the `EXTREF` list of `PROGB`, yet its
object code is `03100003` (address field 3, not 0) and the one Modification record
appended names `PROGA`, not `BUF`: the encoder looks for the section of the first line with
that address and opcode, which is `LDA BUF` of `PROGA`. -/
theorem format4_extref_other_section :
    extRefsOf (assemble (fileLines crossSectionSource)) =
      some [("PROGA", []), ("PROGB", ["BUF"])] ∧
    listingOf (assemble (fileLines crossSectionSource)) =
      some [⟨1, 0, "START", "0", "", "PROGA"⟩, ⟨2, 0, "EXTDEF", "BUF", "", "PROGA"⟩,
        ⟨3, 0, "LDA", "BUF", "032000", "PROGA"⟩, ⟨4, 3, "RESW", "1", "", "PROGA"⟩,
        ⟨5, 0, "CSECT", "", "", "PROGB"⟩, ⟨6, 0, "EXTREF", "BUF", "", "PROGB"⟩,
        ⟨7, 0, "+LDA", "BUF", "03100003", "PROGB"⟩, ⟨8, 4, "END", "", "", "PROGB"⟩] ∧
    modificationsOf (assemble (fileLines crossSectionSource)) =
      some [{ address := 1, length := 5, symbol := "PROGA".toList, isAddition := true }] := by
  decide

/-! ## C5: Modification records of format-4 instructions -/

/-- C5 (counterexample): `absoluteSource` assembles, its two format-4 instructions
`+LDA 100` and `+RSUB` have operands that are not immediate integers, and no Modification
record is produced for either. -/
theorem format4_absolute_no_record :
    listingOf (assemble (fileLines absoluteSource)) =
      some [⟨1, 0, "START", "0", "", "PROG"⟩, ⟨2, 0, "+LDA", "100", "03100064", "PROG"⟩,
        ⟨3, 4, "+RSUB", "", "4F100000", "PROG"⟩, ⟨4, 8, "END", "", "", "PROG"⟩] ∧
    modificationsOf (assemble (fileLines absoluteSource)) = some [] := by
  decide

/-- C5 (amended): for every format-4 instruction `generateFormat4ObjectCode` appends at
most one Modification record and `generateModificationRecords` none; exactly one is
appended when the base operand is a key of the symbol table and the operand is not an
immediate integer, and none when the base operand is neither a key of the symbol table nor
in any `EXTREF` list. -/
theorem generateFormat4ObjectCode_records (a : Assembler) (opcode operand : List Char)
    (address : Int) :
    ∃ recs : List ModificationRecord,
      (generateFormat4ObjectCode a opcode operand address).2 =
        { a with modificationRecords := a.modificationRecords ++ recs } ∧
      recs.length ≤ 1 ∧
      ((mapFind a.symbolTable (getBaseOperand operand)).isSome = true →
        ¬(isImmediate operand = true ∧ (stoi (getBaseOperand operand)).isSome = true) →
        recs.length = 1) ∧
      ((mapFind a.symbolTable (getBaseOperand operand)).isNone = true →
        (∀ cs ∈ a.controlSections, cs.extRef.contains (getBaseOperand operand) = false) →
        recs = []) ∧
      ∀ line : AssemblyLine, line.opcode.head? = some '+' →
        modificationRecordsOfLine a line = [] := by
  refine ⟨(format4Target a opcode operand address).2, rfl, ?_, ?_, ?_, ?_⟩
  · unfold format4Target
    simp only
    split
    · simp
    · split
      · split
        · simp
        · split <;> simp
      · split <;> simp
  · intro htab himm
    unfold format4Target
    simp only [htab, if_true]
    split
    · simp
    · split
      · rename_i hi
        split
        · rename_i v hv
          exact absurd ⟨hi, by rw [hv]; rfl⟩ himm
        · simp
      · simp
  · intro htab hext
    have hnone : mapFind a.symbolTable (getBaseOperand operand) = none := by
      cases h : mapFind a.symbolTable (getBaseOperand operand) with
      | none => rfl
      | some s => rw [h] at htab; simp at htab
    have hfind : (match a.controlSections.find?
          (fun cs => cs.name == format4Section a opcode address) with
        | some cs => cs.extRef.contains (getBaseOperand operand)
        | none => false) = false := by
      cases h : a.controlSections.find?
          (fun cs => cs.name == format4Section a opcode address) with
      | none => rfl
      | some cs => exact hext cs (List.mem_of_find?_eq_some h)
    unfold format4Target
    simp only [hnone, hfind, Bool.or_self, Bool.false_eq_true, if_false, Option.isSome_none]
    split
    · split <;> rfl
    · rfl
  · intro line hplus
    have hw : ¬line.opcode = ['W', 'O', 'R', 'D'] := by
      intro hop
      rw [hop] at hplus
      exact absurd hplus (by decide)
    unfold modificationRecordsOfLine
    simp [hw, hplus]

/-- C5 (amended) at `+LDA ALPHA` in `sampleSingle`: `ALPHA` is a key of the symbol table,
so exactly one record is appended. -/
theorem generateFormat4ObjectCode_records_witness :
    ((generateFormat4ObjectCode sampleSingle "LDA".toList
        "ALPHA".toList 0x1000).2).modificationRecords.length = 1 := by
  obtain ⟨recs, h1, _, h3, _, _⟩ :=
    generateFormat4ObjectCode_records sampleSingle "LDA".toList "ALPHA".toList 0x1000
  have hlen := h3 (by decide) (by decide)
  rw [h1]
  simp [hlen, sampleSingle]

/-! ## C6: Modification records of `WORD A-B` -/

theorem dropWhile_concat_neg (p : Char → Bool) (l : List Char) (h : Char) (hp : p h = false) :
    (l ++ [h]).dropWhile p = l.dropWhile p ++ [h] := by
  induction l with
  | nil => simp [List.dropWhile, hp]
  | cons c cs ih =>
    by_cases hc : p c = true
    · simp [List.dropWhile, hc, ih]
    · simp [List.dropWhile, hc]

theorem trim_trim (s : List Char) : trim (trim s) = trim s := by
  unfold trim
  cases hz : s.dropWhile isTrimChar with
  | nil => simp
  | cons h t =>
    have hh : isTrimChar h = false := by
      have := List.head_dropWhile_not isTrimChar s (by rw [hz]; simp)
      simpa [hz] using this
    have e1 : ((h :: t).reverse.dropWhile isTrimChar).reverse =
        h :: (t.reverse.dropWhile isTrimChar).reverse := by
      rw [List.reverse_cons, dropWhile_concat_neg _ _ _ hh]
      simp
    rw [e1]
    have e2 : (h :: (t.reverse.dropWhile isTrimChar).reverse).dropWhile isTrimChar =
        h :: (t.reverse.dropWhile isTrimChar).reverse := by
      simp [List.dropWhile, hh]
    rw [e2, List.reverse_cons, List.reverse_reverse, dropWhile_concat_neg _ _ _ hh,
      List.dropWhile_idempotent]
    simp

theorem getlineTokens_single (d : Char) (s : List Char) (hd : d ∉ s) (hne : s ≠ []) :
    getlineTokens d s = [s] := by
  induction s with
  | nil => exact absurd rfl hne
  | cons c cs ih =>
    have hcd : ¬c = d := by
      intro h; exact hd (by simp [h])
    have hcs : d ∉ cs := by
      intro h; exact hd (List.mem_cons_of_mem _ h)
    unfold getlineTokens
    rw [if_neg hcd]
    cases cs with
    | nil => simp [getlineTokens]
    | cons c2 cs2 => rw [ih hcs (by simp)]

theorem getlineTokens_append (d : Char) (s t : List Char) (hd : d ∉ s) :
    getlineTokens d (s ++ d :: t) = s :: getlineTokens d t := by
  induction s with
  | nil => simp [getlineTokens]
  | cons c cs ih =>
    have hcd : ¬c = d := by
      intro h; exact hd (by simp [h])
    have hcs : d ∉ cs := by
      intro h; exact hd (List.mem_cons_of_mem _ h)
    rw [List.cons_append, getlineTokens, if_neg hcd, ih hcs]

theorem split_difference (s t : List Char) (hs : '-' ∉ s) (ht : '-' ∉ t) (hne : t ≠ []) :
    split (s ++ '-' :: t) '-' = [trim s, trim t] := by
  unfold split
  rw [getlineTokens_append _ _ _ hs, getlineTokens_single _ _ ht hne]
  rfl

theorem intToHex_length_ge (value : Int) (width : Nat) :
    width ≤ (intToHex value width).length := by
  unfold intToHex
  simp only [List.length_append, List.length_replicate]
  omega

theorem generateObjectCode_word (a : Assembler) (line : AssemblyLine)
    (hop : line.opcode = "WORD".toList) (hne : line.operand ≠ []) :
    generateObjectCode a line =
      some (match stoi line.operand with
        | some value => intToHex value 6
        | none =>
          match mapFind a.symbolTable line.operand with
          | some s => intToHex s.address 6
          | none => "000000".toList, a) := by
  have h0 : line.operand.isEmpty = false := by
    cases h : line.operand with
    | nil => exact absurd h hne
    | cons c cs => rfl
  unfold generateObjectCode
  simp only [hop, h0, beq_self_eq_true, if_true, Bool.not_false]
  cases stoi line.operand with
  | some v => rfl
  | none =>
    cases mapFind a.symbolTable line.operand with
    | some s => rfl
    | none => rfl

/-- What holds of C6 for one line `WORD A-B` (`A`, `B` free of `-`, `B` non-empty), once
pass 2 has written its object code: the loop body of `generateModificationRecords` pushes
one record `(address, 6, A, +)` when `isExternalReference` holds of `A` and one record
`(address, 6, B, -)` when it holds of `B`, and nothing else. The object code is never
empty; it is a function of the operand text and of the symbol-table entry of the whole
text `A-B` only, so the values of `A` and `B` are not inlined; it is `000000` when the text
is no number and no symbol. -/
theorem modificationRecordsOfLine_word_difference (a : Assembler) (line : AssemblyLine)
    (A B : List Char) (hop : line.opcode = "WORD".toList)
    (hoperand : line.operand = A ++ '-' :: B) (hA : '-' ∉ A) (hB : '-' ∉ B) (hBne : B ≠ [])
    (hc : line.isComment = false) :
    ∃ code : List Char,
      generateObjectCode a line = some (code, a) ∧ code ≠ [] ∧
      (∀ a2 : Assembler,
        mapFind a2.symbolTable line.operand = mapFind a.symbolTable line.operand →
        generateObjectCode a2 line = some (code, a2)) ∧
      (stoi line.operand = none → mapFind a.symbolTable line.operand = none →
        code = "000000".toList) ∧
      modificationRecordsOfLine a { line with objectCode := code } =
        (if isExternalReference a (trim A) line.controlSection then
          [{ address := line.address, length := 6, symbol := trim A, isAddition := true }]
        else []) ++
        (if isExternalReference a (trim B) line.controlSection then
          [{ address := line.address, length := 6, symbol := trim B, isAddition := false }]
        else []) := by
  have hne : line.operand ≠ [] := by rw [hoperand]; simp
  have hcode : ∀ v : Int, intToHex v 6 ≠ [] := by
    intro v h
    have := intToHex_length_ge v 6
    rw [h] at this
    simp at this
  refine ⟨_, generateObjectCode_word a line hop hne, ?_, ?_, ?_, ?_⟩
  · cases stoi line.operand with
    | some v => exact hcode v
    | none =>
      cases mapFind a.symbolTable line.operand with
      | some s => exact hcode _
      | none => decide
  · intro a2 h2
    rw [generateObjectCode_word a2 line hop hne, h2]
  · intro h1 h2
    rw [h1, h2]
  · have hcontains : (A ++ '-' :: B).contains '-' = true := by simp
    have hobj : ∀ code : List Char, code ≠ [] →
        modificationRecordsOfLine a { line with objectCode := code } =
        (if isExternalReference a (trim A) line.controlSection then
          [{ address := line.address, length := 6, symbol := trim A, isAddition := true }]
        else []) ++
        (if isExternalReference a (trim B) line.controlSection then
          [{ address := line.address, length := 6, symbol := trim B, isAddition := false }]
        else []) := by
      intro code hcne
      have h0 : code.isEmpty = false := by
        cases code with
        | nil => exact absurd rfl hcne
        | cons c cs => rfl
      have hfind : mapFind instructionTable "WORD".toList = none := by decide
      unfold modificationRecordsOfLine
      simp only [hc, h0, hop, hoperand, hcontains, split_difference A B hA hB hBne, trim_trim,
        hfind, Bool.or_self, Bool.false_eq_true, if_false, beq_self_eq_true, Bool.true_and,
        if_true, Bool.and_false, Bool.false_and, List.append_nil]
      simp
    apply hobj
    cases stoi line.operand with
    | some v => exact hcode v
    | none =>
      cases mapFind a.symbolTable line.operand with
      | some s => exact hcode _
      | none => decide

theorem sampleWord_reached :
    (pass1 { sourceLines := parseLines (fileLines sampleWordSource) 1 }).toOption =
      some sampleWord := by
  decide

/-- The line `MAXLEN WORD BUFEND-BUFFER` of `sampleWordSource` (`BUFEND` imported,
`BUFFER` local): the object code is `000000` and the only record is `(16, 6, BUFEND, +)`. -/
theorem modificationRecordsOfLine_word_difference_witness :
    generateObjectCode sampleWord sampleWordLine = some ("000000".toList, sampleWord) ∧
    modificationRecordsOfLine sampleWord { sampleWordLine with objectCode := "000000".toList } =
      [{ address := 16, length := 6, symbol := "BUFEND".toList, isAddition := true }] := by
  obtain ⟨code, h1, _, _, h4, h5⟩ :=
    modificationRecordsOfLine_word_difference sampleWord sampleWordLine "BUFEND".toList
      "BUFFER".toList rfl rfl (by decide) (by decide) (by decide) rfl
  have hcode : code = "000000".toList := h4 (by decide) (by decide)
  subst hcode
  refine ⟨h1, ?_⟩
  rw [h5]
  decide

/-! ## C7: format 2 -/

theorem generateFormat2ObjectCode_split (opcode operand : List Char) :
    generateFormat2ObjectCode opcode operand =
      (instructionAt opcode).machineCode ++ generateFormat2ObjectCode [] operand := by
  have h0 : (instructionAt []).machineCode = [] := by decide
  unfold generateFormat2ObjectCode
  simp only [h0, List.nil_append]
  split
  · cases (split operand ',')[0]?.bind (mapFind registers) <;>
      cases (split operand ',')[1]?.bind (mapFind registers) <;> simp
  · rfl

theorem registers_entries :
    ∀ e ∈ registers, e.2.length = 1 ∧ ∀ c ∈ e.2, c ∈ "0123456789ABCDEF".toList := by
  decide

theorem registers_find (name r : List Char) (h : mapFind registers name = some r) :
    r.length = 1 ∧ ∀ c ∈ r, c ∈ "0123456789ABCDEF".toList :=
  registers_entries _ (mapFind_mem _ _ _ h)

theorem generateFormat2ObjectCode_nil (operand : List Char) :
    (generateFormat2ObjectCode [] operand).length = 2 ∧
      ∀ c ∈ generateFormat2ObjectCode [] operand, c ∈ "0123456789ABCDEF".toList := by
  have h0 : (instructionAt []).machineCode = [] := by decide
  have hreg : ∀ (i : Nat) (r : List Char),
      (split operand ',')[i]?.bind (mapFind registers) = some r →
      r.length = 1 ∧ ∀ c ∈ r, c ∈ "0123456789ABCDEF".toList := by
    intro i r h
    cases hs : (split operand ',')[i]? with
    | none => rw [hs] at h; simp at h
    | some name =>
      rw [hs] at h
      exact registers_find name r h
  have hzero : ("0".toList).length = 1 ∧ ∀ c ∈ "0".toList, c ∈ "0123456789ABCDEF".toList :=
    ⟨by decide, by decide⟩
  unfold generateFormat2ObjectCode
  simp only [h0, List.nil_append]
  split
  · cases h1 : (split operand ',')[0]?.bind (mapFind registers) with
    | none =>
      cases h2 : (split operand ',')[1]?.bind (mapFind registers) with
      | none => exact ⟨by decide, by decide⟩
      | some r2 =>
        obtain ⟨l2, c2⟩ := hreg 1 r2 h2
        refine ⟨by simp [l2], ?_⟩
        intro c hc
        simp only [List.mem_append] at hc
        rcases hc with hc | hc
        · exact hzero.2 c hc
        · exact c2 c hc
    | some r1 =>
      obtain ⟨l1, c1⟩ := hreg 0 r1 h1
      cases h2 : (split operand ',')[1]?.bind (mapFind registers) with
      | none =>
        refine ⟨by simp [l1], ?_⟩
        intro c hc
        simp only [List.mem_append] at hc
        rcases hc with hc | hc
        · exact c1 c hc
        · exact hzero.2 c hc
      | some r2 =>
        obtain ⟨l2, c2⟩ := hreg 1 r2 h2
        refine ⟨by simp [l1, l2], ?_⟩
        intro c hc
        simp only [List.mem_append] at hc
        rcases hc with hc | hc
        · exact c1 c hc
        · exact c2 c hc
  · exact ⟨by decide, by decide⟩

theorem catalog_machineCode :
    ∀ e ∈ instructionTable,
      e.2.machineCode = hexByte (hexToDecimal e.2.machineCode).toNat := by
  decide

theorem registerNumbers_single :
    ∀ e ∈ registerNumbers,
      generateFormat2ObjectCode [] e.1 = [hexDigit e.2, '0'] ∧
      generateFormat2ObjectCode [] (',' :: e.1) = ['0', hexDigit e.2] := by
  decide

theorem registerNumbers_pair :
    ∀ e1 ∈ registerNumbers, ∀ e2 ∈ registerNumbers,
      generateFormat2ObjectCode [] (e1.1 ++ ',' :: e2.1) = [hexDigit e1.2, hexDigit e2.2] := by
  decide

/-- C7: for every format-2 catalog mnemonic (opcode byte `op`), `generateFormat2ObjectCode`
returns the two hexadecimal digits of `op` followed by one nibble per register, with
`A=0, X=1, L=2, B=3, S=4, T=5, F=6, PC=8, SW=9`: for `r1` alone the second nibble is 0, for
`r1,r2` both are encoded, a missing first operand (`,r2`) or no operand encodes as 0; for
every operand whatsoever the result is exactly four upper-case hexadecimal digits. -/
theorem generateFormat2ObjectCode_registers (opcode : List Char) (instr : Instruction)
    (hcat : mapFind instructionTable opcode = some instr) (hfmt : instr.format = 2) :
    ∃ op : Nat, hexToDecimal instr.machineCode = Int.ofNat op ∧ op < 256 ∧
      (∀ r1 n1, mapFind registerNumbers r1 = some n1 →
        generateFormat2ObjectCode opcode r1 = hexByte op ++ [hexDigit n1, '0']) ∧
      (∀ r1 n1 r2 n2, mapFind registerNumbers r1 = some n1 →
        mapFind registerNumbers r2 = some n2 →
        generateFormat2ObjectCode opcode (r1 ++ ',' :: r2) =
          hexByte op ++ [hexDigit n1, hexDigit n2]) ∧
      (∀ r2 n2, mapFind registerNumbers r2 = some n2 →
        generateFormat2ObjectCode opcode (',' :: r2) = hexByte op ++ ['0', hexDigit n2]) ∧
      generateFormat2ObjectCode opcode [] = hexByte op ++ ['0', '0'] ∧
      ∀ operand : List Char,
        (generateFormat2ObjectCode opcode operand).length = 4 ∧
        ∀ c ∈ generateFormat2ObjectCode opcode operand, c ∈ "0123456789ABCDEF".toList := by
  obtain ⟨op, hop, hlt⟩ := catalog_opcode_nat opcode instr hcat
  have hmc : (instructionAt opcode).machineCode = hexByte op := by
    rw [instructionAt_of_find opcode instr hcat]
    have h := catalog_machineCode _ (mapFind_mem _ _ _ hcat)
    simp only at h
    rw [hop] at h
    simpa using h
  refine ⟨op, hop, hlt, ?_, ?_, ?_, ?_, ?_⟩
  · intro r1 n1 h1
    rw [generateFormat2ObjectCode_split, hmc,
      (registerNumbers_single _ (mapFind_mem _ _ _ h1)).1]
  · intro r1 n1 r2 n2 h1 h2
    rw [generateFormat2ObjectCode_split, hmc,
      registerNumbers_pair _ (mapFind_mem _ _ _ h1) _ (mapFind_mem _ _ _ h2)]
  · intro r2 n2 h2
    rw [generateFormat2ObjectCode_split, hmc,
      (registerNumbers_single _ (mapFind_mem _ _ _ h2)).2]
  · rw [generateFormat2ObjectCode_split, hmc]
    rfl
  · intro operand
    obtain ⟨hl, hc⟩ := generateFormat2ObjectCode_nil operand
    rw [generateFormat2ObjectCode_split, hmc]
    refine ⟨by simp [hexByte, hl], ?_⟩
    intro c hmem
    simp only [List.mem_append] at hmem
    rcases hmem with hmem | hmem
    · exact hexByte_upper op hlt c hmem
    · exact hc c hmem

/-- C7 at `COMPR A,SW`: opcode `A0`, registers 0 and 9. -/
theorem generateFormat2ObjectCode_registers_witness :
    mapFind instructionTable "COMPR".toList =
        some { opcode := "COMPR".toList, format := 2, machineCode := "A0".toList } ∧
      generateFormat2ObjectCode "COMPR".toList "A,SW".toList = "A009".toList ∧
      (generateFormat2ObjectCode "COMPR".toList "A,SW".toList).length = 4 := by
  refine ⟨by decide, by decide, ?_⟩
  obtain ⟨_, _, _, _, _, _, _, hall⟩ :=
    generateFormat2ObjectCode_registers "COMPR".toList
      { opcode := "COMPR".toList, format := 2, machineCode := "A0".toList } (by decide) rfl
  exact (hall "A,SW".toList).1

/-! ## C8: validation of symbol references -/

theorem isUndefined_of_notDeclared (a : Assembler) (symbol cs : List Char)
    (h : NotDeclared a symbol cs) : isUndefined a symbol cs = true := by
  unfold isUndefined
  rw [h.1, h.2]
  rfl

theorem validateLine_undefined (a : Assembler) (line : AssemblyLine)
    (h : UndefinedReference a line) :
    ∃ symbol, validateLine a line = .error (.undefinedSymbol line.lineNumber symbol) := by
  obtain ⟨hc, hne, hskip, heq, hhash, hcase⟩ := h
  have h0 : line.operand.isEmpty = false := by
    cases hop : line.operand with
    | nil => exact absurd hop hne
    | cons c cs => rfl
  have hprefix : (line.operand.head? == some '=' || line.operand.head? == some '#') = false := by
    simp [heq, hhash]
  unfold validateLine
  simp only [hc, h0, hskip, hprefix, Bool.or_self, Bool.false_eq_true, if_false]
  rcases hcase with ⟨hw, hst, hcase⟩ | ⟨hw, hfmt, hst, hreg, hnd⟩
  · simp only [hw, beq_self_eq_true, if_true, hst]
    rcases hcase with ⟨hminus, hnd⟩ | ⟨hminus, part, hpart, hnd⟩
    · simp only [hminus, Bool.false_eq_true, if_false, isUndefined_of_notDeclared a _ _ hnd,
        if_true]
      exact ⟨_, rfl⟩
    · simp only [hminus, if_true]
      have hsome : (((split line.operand '-').map trim).find?
          (fun symbol => isUndefined a symbol line.controlSection)).isSome = true := by
        rw [List.find?_isSome]
        exact ⟨trim part, List.mem_map_of_mem _ hpart, isUndefined_of_notDeclared a _ _ hnd⟩
      cases hf : ((split line.operand '-').map trim).find?
          (fun symbol => isUndefined a symbol line.controlSection) with
      | none => rw [hf] at hsome; simp at hsome
      | some s => exact ⟨s, rfl⟩
  · have hw2 : (line.opcode == "WORD".toList) = false := by simpa using hw
    have hf2 : (match mapFind instructionTable line.opcode with
        | some instr => instr.format == 2
        | none => false) = false := by
      cases hm : mapFind instructionTable line.opcode with
      | none => rfl
      | some instr => simpa using hfmt instr hm
    simp only [hw2, hf2, Bool.false_eq_true, if_false, hst, Option.isSome_none, hreg,
      isUndefined_of_notDeclared a _ _ hnd, if_true]
    exact ⟨_, rfl⟩

theorem validateLine_error_kind (a : Assembler) (line : AssemblyLine) (e : AsmError)
    (h : validateLine a line = .error e) :
    (∃ n s, e = .undefinedSymbol n s) ∨ (∃ n r, e = .invalidRegister n r) := by
  unfold validateLine at h
  simp only at h
  repeat' split at h
  all_goals first
    | (injection h with h; subst h; first
        | exact Or.inl ⟨_, _, rfl⟩
        | exact Or.inr ⟨_, _, rfl⟩)
    | cases h

theorem validateLines_error (a : Assembler) (lines : List AssemblyLine) (line : AssemblyLine)
    (hmem : line ∈ lines) (e0 : AsmError) (herr : validateLine a line = .error e0) :
    ∃ e l0, l0 ∈ lines ∧ validateLine a l0 = .error e ∧ validateLines a lines = .error e := by
  induction lines with
  | nil => simp at hmem
  | cons l ls ih =>
    cases hl : validateLine a l with
    | error e => exact ⟨e, l, by simp, hl, by simp [validateLines, hl]⟩
    | ok u =>
      have hne : line ≠ l := by
        intro heq
        rw [heq, hl] at herr
        simp at herr
      have hmem2 : line ∈ ls := by
        rcases List.mem_cons.mp hmem with h | h
        · exact absurd h hne
        · exact h
      obtain ⟨e, l0, h1, h2, h3⟩ := ih hmem2
      exact ⟨e, l0, List.mem_cons_of_mem _ h1, h2, by simp [validateLines, hl, h3]⟩

/-- C8 (counterexample): `immediateSource` holds `LDA #FOO`, where `FOO` is no number, no
register name, defined in no section and imported by none; the assembly does not abort
and object code `012FFD` is generated for the line. -/
theorem immediate_undefined_symbol_assembles :
    errorOf (assemble (fileLines immediateSource)) = none ∧
    listingOf (assemble (fileLines immediateSource)) =
      some [⟨1, 0, "START", "0", "", "PROG"⟩, ⟨2, 0, "LDA", "#FOO", "012FFD", "PROG"⟩,
        ⟨3, 3, "END", "", "", "PROG"⟩] ∧
    (assemble (fileLines immediateSource)).toOption.map
        (fun a => (mapFind a.symbolTable "FOO".toList, stoi "FOO".toList,
          isRegisterName "FOO".toList, isExternalReference a "FOO".toList "PROG".toList)) =
      some (none, none, false, false) := by
  decide

/-- C8 (amended): if the operand of some line of the program names an undeclared symbol in
the sense of `UndefinedReference` (operands starting with `#` or `=` are not examined; a
symbol counts as declared when any section defines, exports or imports it), then
`validateSymbolReferences` fails, so that `pass2` aborts before any object code is
generated; the error is that of the first failing line, an undefined-symbol or (from a
format-2 line) an invalid-register error, and the line itself fails with an
undefined-symbol error. -/
theorem pass2_aborts_on_undefined_reference (a : Assembler) (line : AssemblyLine)
    (hmem : line ∈ a.sourceLines) (h : UndefinedReference a line) :
    ∃ e l0, l0 ∈ a.sourceLines ∧ validateLine a l0 = .error e ∧
      validateSymbolReferences a = .error e ∧ pass2 a = .error e ∧
      ((∃ n s, e = .undefinedSymbol n s) ∨ (∃ n r, e = .invalidRegister n r)) ∧
      ∃ symbol, validateLine a line = .error (.undefinedSymbol line.lineNumber symbol) := by
  obtain ⟨symbol, hline⟩ := validateLine_undefined a line h
  obtain ⟨e, l0, h1, h2, h3⟩ := validateLines_error a a.sourceLines line hmem _ hline
  refine ⟨e, l0, h1, h2, h3, ?_, validateLine_error_kind a l0 e h2, symbol, hline⟩
  unfold pass2
  unfold validateSymbolReferences
  rw [h3]

/-- The state after pass 1 of `undefinedSource` is `sampleUndefined`. -/
theorem sampleUndefined_reached :
    (pass1 { sourceLines := parseLines (fileLines undefinedSource) 1 }).toOption =
      some sampleUndefined := by
  decide

/-- C8 (amended) at `LDA FOO` of `undefinedSource`: pass 2 aborts, and the assembly reports
the undefined symbol `FOO` of line 2. -/
theorem pass2_aborts_on_undefined_reference_witness :
    (∃ e, pass2 sampleUndefined = .error e) ∧
    errorOf (assemble (fileLines undefinedSource)) =
      some (.undefinedSymbol 2 "FOO".toList) := by
  refine ⟨?_, by decide⟩
  obtain ⟨e, _, _, _, _, h, _⟩ :=
    pass2_aborts_on_undefined_reference sampleUndefined undefinedLine (by decide)
      ⟨rfl, by decide, by decide, by decide, by decide,
        Or.inr ⟨by decide, by
          intro instr hi
          have : instr = { opcode := "LDA".toList, format := 3, machineCode := "00".toList } := by
            have h2 : mapFind instructionTable undefinedLine.opcode =
                some { opcode := "LDA".toList, format := 3, machineCode := "00".toList } := by
              decide
            rw [h2] at hi
            exact (Option.some.inj hi).symm
          rw [this]
          decide, by decide, by decide, by decide, by decide⟩⟩
  exact ⟨e, h⟩

/-! ## C9 and C10: size and length of Text records -/

/-- C9 (the code at the failing input): the 31-character constant of `longByteSource`
carries 62 hexadecimal digits; `generateTextRecords` puts them in one Text record, which
`generateObjectFile` writes with the declared length `1F`, that is 31 bytes. -/
theorem text_record_of_31_bytes :
    textRecordsOf (assemble (fileLines longByteSource)) =
      some [{ line := "T^000000^1F^" ++
                "4142434445464748494A4B4C4D4E4F505152535455565758595A4142434445",
              codes := 1, declared := 31, payloadChars := 62 }] := by
  decide

/-- C10 (the code at the failing input): for `BYTE X'ABC'` pass 1 advances the location
counter by 2 bytes, pass 2 emits the three digits `ABC`, and the Text record is written as
`T^000000^01^ABC`: it declares 1 byte and carries 3 hexadecimal characters. -/
theorem text_record_of_odd_hex_constant :
    textRecordsOf (assemble (fileLines oddHexSource)) =
      some [{ line := "T^000000^01^ABC", codes := 1, declared := 1, payloadChars := 3 }] ∧
    lengthsOf (assemble (fileLines oddHexSource)) = some (2, [2]) := by
  decide

/-! ## Text records: what holds of their sizes -/

theorem declaredLength_fold (codes : List (List Char)) (acc : Nat)
    (h : acc + halfSum codes < 2147483648) :
    codes.foldl (fun totalLength objCode =>
        wrapInt (totalLength + Int.ofNat (objCode.length / 2))) (acc : Int) =
      ((acc + halfSum codes : Nat) : Int) := by
  induction codes generalizing acc with
  | nil => simp [halfSum]
  | cons c cs ih =>
    have hs : halfSum (c :: cs) = c.length / 2 + halfSum cs := by simp [halfSum]
    rw [hs] at h
    have hw : wrapInt ((acc : Int) + Int.ofNat (c.length / 2)) =
        ((acc + c.length / 2 : Nat) : Int) := by
      have := wrapInt_natCast (acc + c.length / 2) (by omega)
      push_cast at this ⊢
      exact this
    rw [List.foldl_cons, hw, ih (acc + c.length / 2) (by omega), hs, Nat.add_assoc]

theorem declaredLength_eq_halfSum (r : TextRecord) (h : halfSum r.objectCodes < 2147483648) :
    declaredLength r = (halfSum r.objectCodes : Int) := by
  have := declaredLength_fold r.objectCodes 0 (by omega)
  simpa [declaredLength] using this

theorem payload_length (r : TextRecord) : (payload r).length = hexLength r.objectCodes := by
  unfold payload hexLength
  rw [List.length_flatten]

theorem halfSum_le (codes : List (List Char)) : 2 * halfSum codes ≤ hexLength codes := by
  induction codes with
  | nil => simp [halfSum, hexLength]
  | cons c cs ih =>
    simp only [halfSum, hexLength, List.map_cons, List.sum_cons] at ih ⊢
    omega

theorem halfSum_even (codes : List (List Char)) (h : ∀ c ∈ codes, c.length % 2 = 0) :
    2 * halfSum codes = hexLength codes := by
  induction codes with
  | nil => simp [halfSum, hexLength]
  | cons c cs ih =>
    have hc := h c (by simp)
    have ih2 := ih (fun d hd => h d (List.mem_cons_of_mem _ hd))
    simp only [halfSum, hexLength, List.map_cons, List.sum_cons] at ih2 ⊢
    omega

/-- When every object code of a Text record has an even number of characters (and the
record is shorter than 2^31 bytes), its payload has exactly twice as many characters as
the declared byte count. -/
theorem payload_twice_declared_of_even (r : TextRecord)
    (heven : ∀ c ∈ r.objectCodes, c.length % 2 = 0)
    (hsize : (payload r).length < 4294967296) :
    ((payload r).length : Int) = 2 * declaredLength r := by
  have h1 := payload_length r
  have h2 := halfSum_even r.objectCodes heven
  rw [declaredLength_eq_halfSum r (by omega), h1]
  omega

theorem pushIfNonEmpty_withinCap (recs : List TextRecord) (cur : TextRecord)
    (hrecs : ∀ r ∈ recs, WithinCap r) (hcur : WithinCap cur) :
    ∀ r ∈ pushIfNonEmpty recs cur, WithinCap r := by
  unfold pushIfNonEmpty
  split
  · intro r hr
    rcases List.mem_append.mp hr with h | h
    · exact hrecs r h
    · simp only [List.mem_singleton] at h
      rw [h]; exact hcur
  · exact hrecs

theorem fresh_invariant (recs : List TextRecord) (address last : Int) (csName : List Char)
    (hrecs : ∀ r ∈ recs, WithinCap r) :
    TextInvariant
      { textRecords := recs
        currentRecord := { startAddress := address, controlSection := csName }
        currentLength := 0
        lastObjectCodeEndAddress := last } := by
  refine ⟨hrecs, Or.inl (by simp), ?_, ?_⟩
  · simp [hexLength]
  · simp [hexLength]

theorem openOnGap_invariant (csName : List Char) (s : TextState) (line : AssemblyLine)
    (h : TextInvariant s) : TextInvariant (openOnGap csName s line) := by
  unfold openOnGap
  simp only
  split
  · apply fresh_invariant
    split
    · exact pushIfNonEmpty_withinCap _ _ h.1 h.2.1
    · exact h.1
  · exact h

theorem objectCodeLength_eq (line : AssemblyLine) (hlen : line.objectCode.length < 1073741824) :
    wrapInt (Int.ofNat line.objectCode.length) = Int.ofNat line.objectCode.length := by
  have := wrapInt_natCast line.objectCode.length (by omega)
  simpa using this

theorem openOnOverflow_invariant (csName : List Char) (s : TextState) (line : AssemblyLine)
    (hlen : line.objectCode.length < 1073741824) (h : TextInvariant s) :
    TextInvariant (openOnOverflow csName s line) ∧
      ((openOnOverflow csName s line).currentRecord.objectCodes = [] ∨
        hexLength (openOnOverflow csName s line).currentRecord.objectCodes +
          line.objectCode.length ≤ 60) := by
  unfold openOnOverflow
  simp only [objectCodeLength_eq line hlen]
  split
  · exact ⟨fresh_invariant _ _ _ _ (pushIfNonEmpty_withinCap _ _ h.1 h.2.1), Or.inl rfl⟩
  · rename_i hcap
    refine ⟨h, Or.inr ?_⟩
    obtain ⟨_, _, hcl, hb⟩ := h
    rw [hcl] at hcap
    have hw : wrapInt (Int.ofNat (hexLength s.currentRecord.objectCodes) +
        Int.ofNat line.objectCode.length) =
        ((hexLength s.currentRecord.objectCodes + line.objectCode.length : Nat) : Int) := by
      have := wrapInt_natCast (hexLength s.currentRecord.objectCodes + line.objectCode.length)
        (by omega)
      push_cast at this ⊢
      exact this
    rw [hw] at hcap
    omega

theorem hexLength_concat (codes : List (List Char)) (code : List Char) :
    hexLength (codes ++ [code]) = hexLength codes + code.length := by
  simp [hexLength]

theorem appendObjectCode_invariant (s : TextState) (line : AssemblyLine)
    (hlen : line.objectCode.length < 1073741824) (h : TextInvariant s)
    (hroom : s.currentRecord.objectCodes = [] ∨
      hexLength s.currentRecord.objectCodes + line.objectCode.length ≤ 60) :
    TextInvariant (appendObjectCode s line) := by
  obtain ⟨hrecs, _, hcl, hb⟩ := h
  have hsum : hexLength (s.currentRecord.objectCodes ++ [line.objectCode]) < 1073741824 := by
    rw [hexLength_concat]
    rcases hroom with h0 | h60
    · rw [h0]; simp [hexLength]; exact hlen
    · omega
  unfold appendObjectCode
  refine ⟨hrecs, ?_, ?_, hsum⟩
  · rcases hroom with h0 | h60
    · left; simp [h0]
    · right
      simp only
      rw [hexLength_concat]
      exact h60
  · simp only [objectCodeLength_eq line hlen]
    rw [hcl, hexLength_concat]
    have := wrapInt_natCast (hexLength s.currentRecord.objectCodes + line.objectCode.length)
      (by rw [hexLength_concat] at hsum; omega)
    push_cast at this ⊢
    exact this

theorem textStep_invariant (csName : List Char) (s : TextState) (line : AssemblyLine)
    (hlen : line.objectCode.length < 1073741824) (h : TextInvariant s) :
    TextInvariant (textStep csName s line) := by
  unfold textStep
  split
  · exact h
  · split
    · exact h
    · obtain ⟨h2, hroom⟩ :=
        openOnOverflow_invariant csName _ line hlen (openOnGap_invariant csName s line h)
      exact appendObjectCode_invariant _ line hlen h2 hroom

theorem foldl_textStep_invariant (csName : List Char) (lines : List AssemblyLine)
    (s : TextState) (hlen : ∀ line ∈ lines, line.objectCode.length < 1073741824)
    (h : TextInvariant s) : TextInvariant (lines.foldl (textStep csName) s) := by
  induction lines generalizing s with
  | nil => exact h
  | cons l ls ih =>
    rw [List.foldl_cons]
    exact ih _ (fun x hx => hlen x (List.mem_cons_of_mem _ hx))
      (textStep_invariant csName s l (hlen l (by simp)) h)

theorem textRecordsOfSection_withinCap (sourceLines : List AssemblyLine)
    (recs : List TextRecord) (cs : ControlSection)
    (hlen : ∀ line ∈ sourceLines, line.objectCode.length < 1073741824)
    (hrecs : ∀ r ∈ recs, WithinCap r) :
    ∀ r ∈ textRecordsOfSection sourceLines recs cs, WithinCap r := by
  unfold textRecordsOfSection
  simp only
  have hinv := foldl_textStep_invariant cs.name sourceLines _ hlen
    (fresh_invariant recs (-1) (-1) cs.name hrecs)
  exact pushIfNonEmpty_withinCap _ _ hinv.1 hinv.2.1

/-- Every Text record that `generateTextRecords` produces holds a single object code or at
most 60 hexadecimal characters, and then declares at most 30 bytes (object codes shorter
than 2^30 characters). -/
theorem generateTextRecords_withinCap (a : Assembler)
    (hlen : ∀ line ∈ a.sourceLines, line.objectCode.length < 1073741824) :
    ∀ r ∈ (generateTextRecords a).textRecords,
      r.objectCodes.length ≤ 1 ∨
        (hexLength r.objectCodes ≤ 60 ∧ declaredLength r ≤ 30) := by
  have key : ∀ (sections : List ControlSection) (recs : List TextRecord),
      (∀ r ∈ recs, WithinCap r) →
      ∀ r ∈ sections.foldl (textRecordsOfSection a.sourceLines) recs, WithinCap r := by
    intro sections
    induction sections with
    | nil => intro recs h; exact h
    | cons cs rest ih =>
      intro recs h
      rw [List.foldl_cons]
      exact ih _ (textRecordsOfSection_withinCap a.sourceLines recs cs hlen h)
  intro r hr
  have hw : WithinCap r := key a.controlSections [] (by simp) r hr
  rcases hw with h1 | h60
  · exact Or.inl h1
  · right
    refine ⟨h60, ?_⟩
    have h2 := halfSum_le r.objectCodes
    rw [declaredLength_eq_halfSum r (by omega)]
    omega

/-! ## Pass 1: the loop body on lines that are no directive of `processDirective` -/

theorem isEmpty_eq_false_of_ne {α : Type} (l : List α) (h : l ≠ []) : l.isEmpty = false := by
  cases l with
  | nil => exact absurd rfl h
  | cons c cs => rfl

theorem processDirective_other (a : Assembler) (line : AssemblyLine)
    (h : isPass1Directive line.opcode = false) :
    processDirective a line = .ok (a, line) := by
  simp only [isPass1Directive, Bool.or_eq_false_iff] at h
  obtain ⟨⟨⟨⟨⟨⟨⟨⟨⟨⟨h1, h2⟩, h3⟩, h4⟩, h5⟩, h6⟩, h7⟩, h8⟩, h9⟩, h10⟩, h11⟩ := h
  unfold processDirective
  simp only [h1, h2, h3, h4, h5, h6, h7, h8, h9, h10, h11, Bool.false_eq_true, if_false]

theorem defineLabel_ok (a : Assembler) (line : AssemblyLine) (h : LabelAvailable a line) :
    ∃ table, defineLabel a line = .ok { a with symbolTable := table } := by
  unfold defineLabel
  rcases h with h | h | h
  · exact ⟨a.symbolTable, by simp [h]⟩
  · exact ⟨a.symbolTable, by simp [h]⟩
  · split
    · cases hm : mapFind a.symbolTable line.label with
      | none => exact ⟨_, rfl⟩
      | some s =>
        simp only [h s hm, Bool.false_eq_true, if_false]
        exact ⟨_, rfl⟩
    · exact ⟨a.symbolTable, rfl⟩

/-- The loop body on a line that `processDirective` ignores: the line gets the current
section and counter, the label is defined, and `allocate` runs on the result. -/
theorem pass1Step_other (a : Assembler) (line : AssemblyLine)
    (hc : line.isComment = false) (hd : isPass1Directive line.opcode = false)
    (hlabel : LabelAvailable a line) :
    ∃ table, pass1Step a line =
      match allocate { a with symbolTable := table }
          { line with controlSection := a.currentControlSection,
                      address := a.locationCounter } with
      | .error e => .error e
      | .ok a3 => .ok (a3, { line with controlSection := a.currentControlSection,
                                       address := a.locationCounter }) := by
  have hnot : (line.opcode != "BASE".toList && line.opcode != "NOBASE".toList &&
      line.opcode != "EXTDEF".toList && line.opcode != "EXTREF".toList &&
      line.opcode != "USE".toList) = true := by
    simp only [isPass1Directive, Bool.or_eq_false_iff] at hd
    obtain ⟨⟨⟨⟨⟨⟨⟨⟨⟨⟨h1, h2⟩, h3⟩, h4⟩, h5⟩, h6⟩, h7⟩, h8⟩, h9⟩, h10⟩, h11⟩ := hd
    simp only [bne, h4, h5, h6, h7, h11, Bool.not_false, Bool.and_self]
  have hlabel2 : LabelAvailable a
      { line with controlSection := a.currentControlSection,
                  address := a.locationCounter } := hlabel
  obtain ⟨table, htable⟩ := defineLabel_ok a _ hlabel2
  refine ⟨table, ?_⟩
  unfold pass1Step
  simp only [hc] at htable
  simp only [hc, Bool.false_eq_true, if_false, processDirective_other a line hd, ite_self,
    hnot, if_true, htable]

/-- What holds of duplicates: on a line that is no directive of `processDirective`, a label
that is already a defined symbol of the current section makes the loop body fail with the
duplicate-symbol error. -/
theorem pass1Step_duplicate (a : Assembler) (line : AssemblyLine) (s : Symbol)
    (hc : line.isComment = false) (hd : isPass1Directive line.opcode = false)
    (hlabel : line.label ≠ []) (hm : mapFind a.symbolTable line.label = some s)
    (hdef : s.isDefined = true) (hcs : s.controlSection = a.currentControlSection) :
    pass1Step a line = .error (.duplicateSymbol line.lineNumber line.label) := by
  have hnot : (line.opcode != "BASE".toList && line.opcode != "NOBASE".toList &&
      line.opcode != "EXTDEF".toList && line.opcode != "EXTREF".toList &&
      line.opcode != "USE".toList) = true := by
    simp only [isPass1Directive, Bool.or_eq_false_iff] at hd
    obtain ⟨⟨⟨⟨⟨⟨⟨⟨⟨⟨h1, h2⟩, h3⟩, h4⟩, h5⟩, h6⟩, h7⟩, h8⟩, h9⟩, h10⟩, h11⟩ := hd
    simp only [bne, h4, h5, h6, h7, h11, Bool.not_false, Bool.and_self]
  have hequ : (line.opcode != "EQU".toList) = true := by
    simp only [isPass1Directive, Bool.or_eq_false_iff] at hd
    obtain ⟨⟨⟨⟨⟨⟨⟨⟨⟨⟨h1, h2⟩, h3⟩, h4⟩, h5⟩, h6⟩, h7⟩, h8⟩, h9⟩, h10⟩, h11⟩ := hd
    simp only [bne, h8, Bool.not_false]
  have hl : defineLabel a
      { line with controlSection := a.currentControlSection, address := a.locationCounter } =
      .error (.duplicateSymbol line.lineNumber line.label) := by
    unfold defineLabel
    simp only [isEmpty_eq_false_of_ne _ hlabel, hequ, hm, hdef, hcs, beq_self_eq_true,
      Bool.not_false, Bool.and_self, if_true]
  unfold pass1Step
  simp only [hc] at hl
  simp only [hc, Bool.false_eq_true, if_false, processDirective_other a line hd, ite_self,
    hnot, if_true, hl]

/-- The loop body on a line that `processDirective` ignores either fails on a duplicate
label or goes on to `allocate`. -/
theorem pass1Step_other_cases (a : Assembler) (line : AssemblyLine)
    (hc : line.isComment = false) (hd : isPass1Directive line.opcode = false) :
    pass1Step a line = .error (.duplicateSymbol line.lineNumber line.label) ∨
    ∃ table, pass1Step a line =
      match allocate { a with symbolTable := table }
          { line with controlSection := a.currentControlSection,
                      address := a.locationCounter } with
      | .error e => .error e
      | .ok a3 => .ok (a3, { line with controlSection := a.currentControlSection,
                                       address := a.locationCounter }) := by
  by_cases hlabel : LabelAvailable a line
  · exact Or.inr (pass1Step_other a line hc hd hlabel)
  · left
    unfold LabelAvailable at hlabel
    simp only [not_or, not_forall] at hlabel
    obtain ⟨hne, _, s, hm, hs⟩ := hlabel
    have hs2 : (s.isDefined && s.controlSection == a.currentControlSection) = true := by
      simpa using hs
    rw [Bool.and_eq_true] at hs2
    exact pass1Step_duplicate a line s hc hd hne hm hs2.1 (by simpa using hs2.2)

/-! ## C15: storage lines in pass 1 -/

theorem wrapInt_add_wrapInt (t x : Int) : wrapInt (t + wrapInt x) = wrapInt (t + x) := by
  unfold wrapInt; omega

theorem stoi_nil : stoi [] = none := by decide

theorem allocate_resw (a : Assembler) (line : AssemblyLine) (n : Int)
    (hop : line.opcode = "RESW".toList) (hn : stoi line.operand = some n)
    (h1 : FitsInt (3 * n)) (h2 : FitsInt (a.locationCounter + 3 * n)) :
    allocate a line = .ok { a with locationCounter := a.locationCounter + 3 * n } := by
  have hne : line.operand.isEmpty = false :=
    isEmpty_eq_false_of_ne _ (fun h => by rw [h, stoi_nil] at hn; cases hn)
  have hd : isPass1Directive "RESW".toList = false := by decide
  have he : ("RESW".toList).isEmpty = false := by decide
  unfold allocate
  simp only [hop, hd, he, hne, hn, Bool.not_false, Bool.and_self, if_true, beq_self_eq_true]
  rw [Int.mul_comm n 3, wrapInt_of_range _ h1, wrapInt_of_range _ h2]

theorem allocate_resb (a : Assembler) (line : AssemblyLine) (n : Int)
    (hop : line.opcode = "RESB".toList) (hn : stoi line.operand = some n)
    (h2 : FitsInt (a.locationCounter + n)) :
    allocate a line = .ok { a with locationCounter := a.locationCounter + n } := by
  have hne : line.operand.isEmpty = false :=
    isEmpty_eq_false_of_ne _ (fun h => by rw [h, stoi_nil] at hn; cases hn)
  have hd : isPass1Directive "RESB".toList = false := by decide
  have he : ("RESB".toList).isEmpty = false := by decide
  have h0 : ("RESB".toList == "RESW".toList) = false := by decide
  unfold allocate
  simp only [hop, hd, he, h0, hne, hn, Bool.not_false, Bool.and_self, if_true, beq_self_eq_true,
    Bool.false_eq_true, if_false]
  rw [wrapInt_of_range _ h2]

theorem allocate_word (a : Assembler) (line : AssemblyLine)
    (hop : line.opcode = "WORD".toList) (h2 : FitsInt (a.locationCounter + 3)) :
    allocate a line = .ok { a with locationCounter := a.locationCounter + 3 } := by
  have hd : isPass1Directive "WORD".toList = false := by decide
  have he : ("WORD".toList).isEmpty = false := by decide
  have h0 : ("WORD".toList == "RESW".toList) = false := by decide
  have h1 : ("WORD".toList == "RESB".toList) = false := by decide
  unfold allocate
  simp only [hop, hd, he, h0, h1, Bool.not_false, Bool.and_self, if_true, beq_self_eq_true,
    Bool.false_eq_true, if_false]
  rw [wrapInt_of_range _ h2]

theorem sizeSub_add (n k : Nat) (h : n < 18446744073709551616) : sizeSub (n + k) k = n := by
  unfold sizeSub; omega

theorem allocate_byte_chars (a : Assembler) (line : AssemblyLine) (S : List Char)
    (hop : line.opcode = "BYTE".toList) (hoperand : line.operand = charConstant S)
    (hlen : S.length < 18446744073709551616)
    (h2 : FitsInt (a.locationCounter + S.length)) :
    allocate a line = .ok { a with locationCounter := a.locationCounter + S.length } := by
  have hd : isPass1Directive "BYTE".toList = false := by decide
  have he : ("BYTE".toList).isEmpty = false := by decide
  have h0 : ("BYTE".toList == "RESW".toList) = false := by decide
  have h1 : ("BYTE".toList == "RESB".toList) = false := by decide
  have h3 : ("BYTE".toList == "WORD".toList) = false := by decide
  have hl : (charConstant S).length = S.length + 3 := by simp [charConstant]
  have hne : (charConstant S).isEmpty = false := rfl
  have hh : ((charConstant S).head? == some 'C') = true := rfl
  unfold allocate
  simp only [hop, hoperand, hd, he, h0, h1, h3, hne, hh, hl, sizeSub_add _ 3 hlen,
    Bool.not_false, Bool.and_self, if_true, beq_self_eq_true, Bool.false_eq_true, if_false]
  rw [wrapInt_add_wrapInt]
  rw [show Int.ofNat S.length = (S.length : Int) from rfl, wrapInt_of_range _ h2]

theorem allocate_byte_hex (a : Assembler) (line : AssemblyLine) (H : List Char)
    (hop : line.opcode = "BYTE".toList) (hoperand : line.operand = hexConstant H)
    (hlen : H.length < 18446744073709551616)
    (h2 : FitsInt (a.locationCounter + ((H.length + 1) / 2 : Nat))) :
    allocate a line =
      .ok { a with locationCounter := a.locationCounter + ((H.length + 1) / 2 : Nat) } := by
  have hd : isPass1Directive "BYTE".toList = false := by decide
  have he : ("BYTE".toList).isEmpty = false := by decide
  have h0 : ("BYTE".toList == "RESW".toList) = false := by decide
  have h1 : ("BYTE".toList == "RESB".toList) = false := by decide
  have h3 : ("BYTE".toList == "WORD".toList) = false := by decide
  have hl : (hexConstant H).length = H.length + 3 := by simp [hexConstant]
  have hne : (hexConstant H).isEmpty = false := rfl
  have hh : ((hexConstant H).head? == some 'C') = false := by
    simp [hexConstant]
  have hx : ((hexConstant H).head? == some 'X') = true := rfl
  have hsub : substrChecked (hexConstant H) 2 H.length = some H := by
    unfold substrChecked
    rw [if_pos (by rw [hl]; omega)]
    simp [hexConstant]
  unfold allocate
  simp only [hop, hoperand, hd, he, h0, h1, h3, hne, hh, hx, hl, sizeSub_add _ 3 hlen, hsub,
    Bool.not_false, Bool.and_self, if_true, beq_self_eq_true, Bool.false_eq_true, if_false]
  rw [show Int.ofNat ((H.length + 1) / 2) = (((H.length + 1) / 2 : Nat) : Int) from rfl,
    wrapInt_of_range _ h2]

theorem allocatesAt_of_allocate (a : Assembler) (line : AssemblyLine) (size : Int)
    (hc : line.isComment = false) (hd : isPass1Directive line.opcode = false)
    (hlabel : LabelAvailable a line)
    (h : ∀ table, ∃ a3,
      allocate { a with symbolTable := table }
        { line with controlSection := a.currentControlSection,
                    address := a.locationCounter } = .ok a3 ∧
      a3.locationCounter = a.locationCounter + size ∧
      a3.currentControlSection = a.currentControlSection ∧
      a3.controlSections = a.controlSections) :
    AllocatesAt a line size := by
  obtain ⟨table, htable⟩ := pass1Step_other a line hc hd hlabel
  obtain ⟨a3, h1, h2, h3, h4⟩ := h table
  rw [h1] at htable
  exact ⟨a3, _, htable, rfl, rfl, h2, h3, h4⟩

/-- C15: in pass 1 a storage line that is accepted (no comment, label not yet defined in
the section, no overflow of the 32-bit counter) gets the current location counter as its
address, and the counter then advances by `3 * n` for `RESW n`, by `n` for `RESB n`, by 3
for `WORD`, by the number of characters between the quotes for `BYTE C'...'` and by
`(h + 1) / 2`, half the number `h` of hexadecimal digits rounded up, for `BYTE X'...'`;
`n` is the number that `std::stoi` reads in the operand. -/
theorem pass1Step_storage (a : Assembler) (line : AssemblyLine)
    (hc : line.isComment = false) (hlabel : LabelAvailable a line) :
    (∀ n : Int, line.opcode = "RESW".toList → stoi line.operand = some n →
      FitsInt (3 * n) → FitsInt (a.locationCounter + 3 * n) → AllocatesAt a line (3 * n)) ∧
    (∀ n : Int, line.opcode = "RESB".toList → stoi line.operand = some n →
      FitsInt (a.locationCounter + n) → AllocatesAt a line n) ∧
    (line.opcode = "WORD".toList → FitsInt (a.locationCounter + 3) → AllocatesAt a line 3) ∧
    (∀ S : List Char, line.opcode = "BYTE".toList → line.operand = charConstant S →
      S.length < 18446744073709551616 → FitsInt (a.locationCounter + S.length) →
      AllocatesAt a line S.length) ∧
    (∀ H : List Char, line.opcode = "BYTE".toList → line.operand = hexConstant H →
      H.length < 18446744073709551616 →
      FitsInt (a.locationCounter + ((H.length + 1) / 2 : Nat)) →
      AllocatesAt a line ((H.length + 1) / 2 : Nat)) := by
  refine ⟨?_, ?_, ?_, ?_, ?_⟩
  · intro n hop hn h1 h2
    refine allocatesAt_of_allocate a line _ hc (by rw [hop]; decide) hlabel (fun table => ?_)
    exact ⟨_, allocate_resw _ _ n hop hn h1 h2, rfl, rfl, rfl⟩
  · intro n hop hn h2
    refine allocatesAt_of_allocate a line _ hc (by rw [hop]; decide) hlabel (fun table => ?_)
    exact ⟨_, allocate_resb _ _ n hop hn h2, rfl, rfl, rfl⟩
  · intro hop h2
    refine allocatesAt_of_allocate a line _ hc (by rw [hop]; decide) hlabel (fun table => ?_)
    exact ⟨_, allocate_word _ _ hop h2, rfl, rfl, rfl⟩
  · intro S hop hoperand hlen h2
    refine allocatesAt_of_allocate a line _ hc (by rw [hop]; decide) hlabel (fun table => ?_)
    exact ⟨_, allocate_byte_chars _ _ S hop hoperand hlen h2, rfl, rfl, rfl⟩
  · intro H hop hoperand hlen h2
    refine allocatesAt_of_allocate a line _ hc (by rw [hop]; decide) hlabel (fun table => ?_)
    exact ⟨_, allocate_byte_hex _ _ H hop hoperand hlen h2, rfl, rfl, rfl⟩

theorem storageState_reached :
    (pass1Step {} (sourceLine 1 "PROG" "START" "1000")).toOption.map (fun r => r.1) =
      some storageState := by
  decide

theorem labelAvailable_storageState (lineNumber : Nat) (label opcode operand : String)
    (h : mapFind storageState.symbolTable label.toList = none) :
    LabelAvailable storageState (sourceLine lineNumber label opcode operand) :=
  Or.inr (Or.inr (fun s hs => by
    have h2 : mapFind storageState.symbolTable
        (sourceLine lineNumber label opcode operand).label = none := h
    rw [h2] at hs
    cases hs))

/-- C15 at three lines met in the state `storageState`: `BUF RESW 4` advances the counter
by 12, `EOF BYTE C'EOF'` by 3 and `HEX BYTE X'ABC'` by 2. -/
theorem pass1Step_storage_witness :
    AllocatesAt storageState (sourceLine 2 "BUF" "RESW" "4") 12 ∧
    AllocatesAt storageState (sourceLine 2 "EOF" "BYTE" "C'EOF'") 3 ∧
    AllocatesAt storageState (sourceLine 2 "HEX" "BYTE" "X'ABC'") 2 :=
  ⟨(pass1Step_storage storageState (sourceLine 2 "BUF" "RESW" "4") rfl
      (labelAvailable_storageState _ _ _ _ (by decide))).1 4 rfl (by decide)
      (by unfold FitsInt; decide) (by unfold FitsInt; decide),
    (pass1Step_storage storageState (sourceLine 2 "EOF" "BYTE" "C'EOF'") rfl
      (labelAvailable_storageState _ _ _ _ (by decide))).2.2.2.1 "EOF".toList rfl rfl
      (by decide) (by unfold FitsInt; decide),
    (pass1Step_storage storageState (sourceLine 2 "HEX" "BYTE" "X'ABC'") rfl
      (labelAvailable_storageState _ _ _ _ (by decide))).2.2.2.2 "ABC".toList rfl rfl
      (by decide) (by unfold FitsInt; decide)⟩

/-! ## C16: instruction lines in pass 1 -/

theorem catalog_formats :
    ∀ e ∈ instructionTable, (e.2.format = 1 ∨ e.2.format = 2 ∨ e.2.format = 3) ∧
      isDirectiveName e.1 = false ∧ (e.1.head? == some '+') = false ∧ e.1 ≠ [] := by
  decide

theorem isDirectiveName_head (opcode : List Char) (h : (opcode.head? == some '+') = true) :
    isDirectiveName opcode = false := by
  cases opcode with
  | nil => cases h
  | cons c cs =>
    have hc : c = '+' := by simpa using h
    subst hc
    rfl

theorem catalog_not_directive (opcode : List Char) (instr : Instruction)
    (h : mapFind instructionTable (stripPlus opcode) = some instr) :
    isDirectiveName opcode = false ∧ opcode ≠ [] ∧
      (instr.format = 1 ∨ instr.format = 2 ∨ instr.format = 3) := by
  have hmem := catalog_formats _ (mapFind_mem _ _ _ h)
  refine ⟨?_, ?_, hmem.1⟩
  swap
  · intro h0
    rw [h0] at hmem
    exact hmem.2.2.2 rfl
  cases hp : (opcode.head? == some '+') with
  | true => exact isDirectiveName_head opcode hp
  | false =>
    have : stripPlus opcode = opcode := by simp [stripPlus, hp]
    rw [this] at hmem
    exact hmem.2.1

theorem isDirectiveName_split (opcode : List Char) (h : isDirectiveName opcode = false) :
    isPass1Directive opcode = false ∧ (opcode == "RESW".toList) = false ∧
    (opcode == "RESB".toList) = false ∧ (opcode == "WORD".toList) = false ∧
    (opcode == "BYTE".toList) = false := by
  simp only [isDirectiveName, Bool.or_eq_false_iff] at h
  obtain ⟨⟨⟨⟨h1, h2⟩, h3⟩, h4⟩, h5⟩ := h
  exact ⟨h1, h2, h3, h4, h5⟩

theorem allocate_instruction (a : Assembler) (line : AssemblyLine)
    (hne : line.opcode ≠ []) (hd : isDirectiveName line.opcode = false) :
    allocate a line = processInstruction a line := by
  obtain ⟨h1, h2, h3, h4, h5⟩ := isDirectiveName_split _ hd
  unfold allocate
  simp only [isEmpty_eq_false_of_ne _ hne, h1, h2, h3, h4, h5, Bool.not_false, Bool.and_self,
    if_true, Bool.false_eq_true, if_false]

theorem processInstruction_catalog (a : Assembler) (line : AssemblyLine) (instr : Instruction)
    (h : mapFind instructionTable (stripPlus line.opcode) = some instr) :
    ∃ pending, processInstruction a line =
      .ok { a with
        pendingLiterals := pending
        locationCounter := wrapInt (a.locationCounter +
          (if line.opcode.head? = some '+' ∧ instr.format = 3 then 4 else (instr.format : Int))) }
    := by
  have hs : (if (line.opcode.head? == some '+') = true then line.opcode.drop 1 else line.opcode)
      = stripPlus line.opcode := rfl
  have hsize : (if (line.opcode.head? == some '+' && instr.format == 3) = true then (4 : Int)
      else Int.ofNat instr.format) =
      (if line.opcode.head? = some '+' ∧ instr.format = 3 then 4 else (instr.format : Int)) := by
    simp
  unfold processInstruction
  simp only [hs, h, getInstructionSize, hsize]
  split
  · split
    · exact ⟨_, rfl⟩
    · exact ⟨_, rfl⟩
  · exact ⟨_, rfl⟩

theorem allocatesAt_instruction (a : Assembler) (line : AssemblyLine) (instr : Instruction)
    (hc : line.isComment = false) (hlabel : LabelAvailable a line)
    (h : mapFind instructionTable (stripPlus line.opcode) = some instr)
    (hfit : FitsInt (a.locationCounter +
      (if line.opcode.head? = some '+' ∧ instr.format = 3 then 4 else (instr.format : Int)))) :
    AllocatesAt a line
      (if line.opcode.head? = some '+' ∧ instr.format = 3 then 4 else (instr.format : Int)) := by
  obtain ⟨hd, hne, _⟩ := catalog_not_directive _ _ h
  refine allocatesAt_of_allocate a line _ hc (isDirectiveName_split _ hd).1 hlabel
    (fun table => ?_)
  obtain ⟨pending, hp⟩ := processInstruction_catalog { a with symbolTable := table }
    { line with controlSection := a.currentControlSection, address := a.locationCounter }
    instr h
  have hal := allocate_instruction { a with symbolTable := table }
    { line with controlSection := a.currentControlSection, address := a.locationCounter }
    hne hd
  rw [hal, hp]
  exact ⟨_, rfl, wrapInt_of_range _ hfit, rfl, rfl⟩

/-- C16: in pass 1, for a line whose opcode, after removing a leading `+`, is a key of the
catalog, the format is 1, 2 or 3 and, the line being accepted (label not yet defined in the
section, 32-bit counter not overflowing), the location counter advances by the format, or
by 4 when the `+` stands before a format-3 mnemonic (a `+` before a format-1 or format-2
mnemonic leaves 1 or 2); and for a line with an opcode that is no directive name and,
after removing a leading `+`, no key of the catalog, the loop body fails: with the
invalid-opcode error of that line, unless the label is a duplicate, which is reported
first. -/
theorem pass1Step_instruction (a : Assembler) (line : AssemblyLine)
    (hc : line.isComment = false) :
    (∀ instr, mapFind instructionTable (stripPlus line.opcode) = some instr →
      (instr.format = 1 ∨ instr.format = 2 ∨ instr.format = 3) ∧
      (LabelAvailable a line → FitsInt a.locationCounter → FitsInt (a.locationCounter + 4) →
        (line.opcode.head? ≠ some '+' → AllocatesAt a line instr.format) ∧
        (line.opcode.head? = some '+' → instr.format = 3 → AllocatesAt a line 4) ∧
        (line.opcode.head? = some '+' → instr.format ≠ 3 → AllocatesAt a line instr.format))) ∧
    (line.opcode ≠ [] → isDirectiveName line.opcode = false →
      mapFind instructionTable (stripPlus line.opcode) = none →
      (pass1Step a line = .error (.invalidOpcode line.lineNumber (stripPlus line.opcode)) ∨
        pass1Step a line = .error (.duplicateSymbol line.lineNumber line.label)) ∧
      (LabelAvailable a line →
        pass1Step a line = .error (.invalidOpcode line.lineNumber (stripPlus line.opcode)))) := by
  refine ⟨?_, ?_⟩
  · intro instr h
    obtain ⟨_, _, hf⟩ := catalog_not_directive _ _ h
    refine ⟨hf, ?_⟩
    intro hlabel h0 h4
    have hfit : FitsInt (a.locationCounter +
        (if line.opcode.head? = some '+' ∧ instr.format = 3 then 4 else (instr.format : Int))) := by
      unfold FitsInt at *
      split <;> omega
    have hall := allocatesAt_instruction a line instr hc hlabel h hfit
    refine ⟨?_, ?_, ?_⟩
    · intro hp
      rwa [if_neg (fun hh => hp hh.1)] at hall
    · intro hp h3
      rwa [if_pos ⟨hp, h3⟩] at hall
    · intro _ h3
      rwa [if_neg (fun hh => h3 hh.2)] at hall
  · intro hne hd hnone
    have hs : (if (line.opcode.head? == some '+') = true then line.opcode.drop 1
        else line.opcode) = stripPlus line.opcode := rfl
    have hal := fun table => allocate_instruction { a with symbolTable := table }
      { line with controlSection := a.currentControlSection, address := a.locationCounter }
      hne hd
    have hinstr : ∀ table,
        (match allocate { a with symbolTable := table }
            { line with controlSection := a.currentControlSection,
                        address := a.locationCounter } with
          | .error e => .error e
          | .ok a3 => .ok (a3, { line with controlSection := a.currentControlSection,
                                           address := a.locationCounter })) =
        (.error (.invalidOpcode line.lineNumber (stripPlus line.opcode)) :
          Except AsmError (Assembler × AssemblyLine)) := by
      intro table
      rw [hal table]
      unfold processInstruction
      simp only [hs, hnone]
    refine ⟨?_, ?_⟩
    · rcases pass1Step_other_cases a line hc (isDirectiveName_split _ hd).1 with hdup | ⟨table, ht⟩
      · exact Or.inr hdup
      · exact Or.inl (ht.trans (hinstr table))
    · intro hlabel
      obtain ⟨table, ht⟩ := pass1Step_other a line hc (isDirectiveName_split _ hd).1 hlabel
      exact ht.trans (hinstr table)

/-- C16 at five lines met in the state `storageState`: `LDA` advances the counter by 3,
`+LDA` by 4, `+CLEAR` (format 2) by 2, `+FIX` (format 1) by 1, and the opcode `FOO` makes
pass 1 fail with the invalid-opcode error. -/
theorem pass1Step_instruction_witness :
    AllocatesAt storageState (sourceLine 2 "LOOP" "LDA" "ALPHA") 3 ∧
    AllocatesAt storageState (sourceLine 2 "LOOP" "+LDA" "ALPHA") 4 ∧
    AllocatesAt storageState (sourceLine 2 "LOOP" "+CLEAR" "A") 2 ∧
    AllocatesAt storageState (sourceLine 2 "LOOP" "+FIX" "") 1 ∧
    pass1Step storageState (sourceLine 2 "LOOP" "FOO" "") =
      .error (.invalidOpcode 2 "FOO".toList) :=
  ⟨(((pass1Step_instruction storageState (sourceLine 2 "LOOP" "LDA" "ALPHA") rfl).1
      ⟨"LDA".toList, 3, "00".toList⟩ (by decide)).2
      (labelAvailable_storageState _ _ _ _ (by decide)) (by unfold FitsInt; decide)
      (by unfold FitsInt; decide)).1 (by decide),
    (((pass1Step_instruction storageState (sourceLine 2 "LOOP" "+LDA" "ALPHA") rfl).1
      ⟨"LDA".toList, 3, "00".toList⟩ (by decide)).2
      (labelAvailable_storageState _ _ _ _ (by decide)) (by unfold FitsInt; decide)
      (by unfold FitsInt; decide)).2.1 (by decide) rfl,
    (((pass1Step_instruction storageState (sourceLine 2 "LOOP" "+CLEAR" "A") rfl).1
      ⟨"CLEAR".toList, 2, "B4".toList⟩ (by decide)).2
      (labelAvailable_storageState _ _ _ _ (by decide)) (by unfold FitsInt; decide)
      (by unfold FitsInt; decide)).2.2 (by decide) (by decide),
    (((pass1Step_instruction storageState (sourceLine 2 "LOOP" "+FIX" "") rfl).1
      ⟨"FIX".toList, 1, "C4".toList⟩ (by decide)).2
      (labelAvailable_storageState _ _ _ _ (by decide)) (by unfold FitsInt; decide)
      (by unfold FitsInt; decide)).2.2 (by decide) (by decide),
    ((pass1Step_instruction storageState (sourceLine 2 "LOOP" "FOO" "") rfl).2 (by decide)
      (by decide) (by decide)).2 (labelAvailable_storageState _ _ _ _ (by decide))⟩

/-! ## C19: `EQU` -/

theorem mapFind_mapInsert_self {V : Type} (m : List (List Char × V)) (key : List Char)
    (value : V) : mapFind (mapInsert m key value) key = some value := by
  induction m with
  | nil => simp [mapInsert, mapFind]
  | cons e rest ih =>
    obtain ⟨k, v⟩ := e
    unfold mapInsert
    by_cases h : k = key
    · simp [h, mapFind]
    · simp [h, mapFind, ih]

theorem defineEqu_binds (a : Assembler) (label : List Char) (value : Int) :
    (defineEqu a label value).locationCounter = a.locationCounter ∧
    (defineEqu a label value).currentControlSection = a.currentControlSection ∧
    ∃ s, mapFind (defineEqu a label value).symbolTable label = some s ∧ s.address = value ∧
      s.isDefined = true ∧ s.controlSection = a.currentControlSection := by
  unfold defineEqu
  cases mapFind a.symbolTable label with
  | none => exact ⟨rfl, rfl, _, mapFind_mapInsert_self _ _ _, rfl, rfl, rfl⟩
  | some existing => exact ⟨rfl, rfl, _, mapFind_mapInsert_self _ _ _, rfl, rfl, rfl⟩

/-- The loop body on an `EQU` line: only `processEqu` acts on the assembler. -/
theorem pass1Step_equ (a : Assembler) (line : AssemblyLine)
    (hc : line.isComment = false) (hop : line.opcode = "EQU".toList) :
    pass1Step a line =
      match processEqu a line with
      | .error e => .error e
      | .ok a1 => .ok (a1, { line with controlSection := a1.currentControlSection,
                                       address := a1.locationCounter }) := by
  have hd : processDirective a line =
      match processEqu a line with
      | .ok a1 => .ok (a1, line)
      | .error e => .error e := by
    unfold processDirective
    simp only [hop]
    rfl
  unfold pass1Step
  simp only [hc, Bool.false_eq_true, if_false, hd]
  have he : (!line.opcode.isEmpty) = true := by rw [hop]; rfl
  simp only [he, if_true]
  cases processEqu a line with
  | error e => rfl
  | ok a1 =>
    simp only [hop]
    have h1 : ("EQU".toList != "BASE".toList && "EQU".toList != "NOBASE".toList &&
      "EQU".toList != "EXTDEF".toList && "EQU".toList != "EXTREF".toList &&
      "EQU".toList != "USE".toList) = true := by decide
    simp only [h1, if_true, defineLabel, allocate, hop, bne_self_eq_false, Bool.and_false,
      Bool.false_eq_true, if_false]
    have h2 : (!("EQU".toList).isEmpty && !isPass1Directive "EQU".toList) = false := by decide
    simp only [h2, Bool.false_eq_true, if_false, hc]

theorem pass1Step_equ_ok (a : Assembler) (line : AssemblyLine) (value : Int)
    (hc : line.isComment = false) (hop : line.opcode = "EQU".toList)
    (h : processEqu a line = .ok (defineEqu a line.label value)) :
    EquBinds a line value := by
  obtain ⟨h1, h2, h3⟩ := defineEqu_binds a line.label value
  have hstep := pass1Step_equ a line hc hop
  rw [h] at hstep
  exact ⟨_, _, hstep, h1, h2, h3⟩

theorem contains_eq_false_of_not_mem (l : List Char) (c : Char) (h : c ∉ l) :
    l.contains c = false := by
  simpa using h

theorem processEqu_difference (a : Assembler) (line : AssemblyLine) (A B : List Char)
    (hlabel : line.label ≠ []) (hoperand : line.operand = A ++ '-' :: B)
    (hA : '-' ∉ A) (hB : '-' ∉ B) (hBne : B ≠ []) (hstoi : stoi line.operand = none) :
    processEqu a line =
      if (!((mapFind a.symbolTable (trim A)).isSome ||
          isExternalReference a (trim A) a.currentControlSection)) = true then
        .error (.undefinedSymbol line.lineNumber (trim A))
      else if (!((mapFind a.symbolTable (trim B)).isSome ||
          isExternalReference a (trim B) a.currentControlSection)) = true then
        .error (.undefinedSymbol line.lineNumber (trim B))
      else
        match mapFind a.symbolTable (trim A), mapFind a.symbolTable (trim B) with
        | some s1, some s2 => .ok (defineEqu a line.label (wrapInt (s1.address - s2.address)))
        | _, _ => .ok (defineEqu a line.label 0) := by
  have hne : line.operand ≠ [] := by rw [hoperand]; simp
  have hstar : (line.operand == "*".toList) = false := by
    rw [hoperand]
    cases A with
    | nil => rfl
    | cons c cs =>
      cases cs with
      | nil => simp
      | cons d ds => simp
  have hcontains : line.operand.contains '-' = true := by rw [hoperand]; simp
  have hsplit : split line.operand '-' = [trim A, trim B] := by
    rw [hoperand]; exact split_difference A B hA hB hBne
  unfold processEqu
  simp only [isEmpty_eq_false_of_ne _ hlabel, isEmpty_eq_false_of_ne _ hne, hstar, hstoi,
    hcontains, hsplit, trim_trim, Bool.not_false, Bool.and_self, if_true, Bool.false_eq_true,
    if_false]

theorem processEqu_single (a : Assembler) (line : AssemblyLine)
    (hlabel : line.label ≠ []) (hne : line.operand ≠ []) (hstar : line.operand ≠ "*".toList)
    (hstoi : stoi line.operand = none) (hminus : '-' ∉ line.operand) :
    processEqu a line =
      match mapFind a.symbolTable line.operand with
      | some s => .ok (defineEqu a line.label s.address)
      | none =>
        if isExternalReference a line.operand a.currentControlSection then
          .ok (defineEqu a line.label 0)
        else .error (.undefinedSymbol line.lineNumber line.operand) := by
  have hs : (line.operand == "*".toList) = false := beq_eq_false_iff_ne.mpr hstar
  unfold processEqu
  simp only [isEmpty_eq_false_of_ne _ hlabel, isEmpty_eq_false_of_ne _ hne, hs, hstoi,
    contains_eq_false_of_not_mem _ _ hminus, Bool.not_false, Bool.and_self, if_true,
    Bool.false_eq_true, if_false]

/-- C19: when the loop body of `pass1` meets `L EQU e` (`L` and `e` present), the location
counter stays as it is and `L` becomes a defined symbol of the current section whose value
is the location counter if `e` is `*`, `n` if `std::stoi` reads the number `n` in `e`, the
address of `e` if `e` is a key of the symbol table, and `addr(A) - addr(B)` if `e` is `A-B`
with both (trimmed) names keys of the symbol table, the difference fitting an `int`; and if
`e`, or `A` or `B` of `e = A-B`, is neither a key of the symbol table nor an external
reference of the current section, the loop body fails with an undefined-symbol error of
that line. -/
theorem pass1Step_equ_binds (a : Assembler) (line : AssemblyLine)
    (hc : line.isComment = false) (hop : line.opcode = "EQU".toList)
    (hlabel : line.label ≠ []) :
    (line.operand = "*".toList → EquBinds a line a.locationCounter) ∧
    (∀ n, stoi line.operand = some n → EquBinds a line n) ∧
    (∀ s, line.operand ≠ [] → line.operand ≠ "*".toList → stoi line.operand = none →
      '-' ∉ line.operand → mapFind a.symbolTable line.operand = some s →
      EquBinds a line s.address) ∧
    (∀ A B sa sb, line.operand = A ++ '-' :: B → '-' ∉ A → '-' ∉ B → B ≠ [] →
      stoi line.operand = none → mapFind a.symbolTable (trim A) = some sa →
      mapFind a.symbolTable (trim B) = some sb → FitsInt (sa.address - sb.address) →
      EquBinds a line (sa.address - sb.address)) ∧
    (line.operand ≠ [] → line.operand ≠ "*".toList → stoi line.operand = none →
      '-' ∉ line.operand → NotDeclared a line.operand a.currentControlSection →
      pass1Step a line = .error (.undefinedSymbol line.lineNumber line.operand)) ∧
    (∀ A B, line.operand = A ++ '-' :: B → '-' ∉ A → '-' ∉ B → B ≠ [] →
      stoi line.operand = none →
      NotDeclared a (trim A) a.currentControlSection ∨
        NotDeclared a (trim B) a.currentControlSection →
      ∃ symbol, (symbol = trim A ∨ symbol = trim B) ∧
        pass1Step a line = .error (.undefinedSymbol line.lineNumber symbol)) := by
  refine ⟨?_, ?_, ?_, ?_, ?_, ?_⟩
  · intro he
    apply pass1Step_equ_ok a line _ hc hop
    unfold processEqu
    simp only [isEmpty_eq_false_of_ne _ hlabel, he]
    rfl
  · intro n hn
    have hne : line.operand ≠ [] := fun h => by rw [h, stoi_nil] at hn; cases hn
    have hstar : (line.operand == "*".toList) = false := by
      apply beq_eq_false_iff_ne.mpr
      intro h
      have h0 : stoi "*".toList = none := by decide
      rw [h, h0] at hn
      cases hn
    apply pass1Step_equ_ok a line _ hc hop
    unfold processEqu
    simp only [isEmpty_eq_false_of_ne _ hlabel, isEmpty_eq_false_of_ne _ hne, hstar, hn,
      Bool.not_false, Bool.and_self, if_true, Bool.false_eq_true, if_false]
  · intro s hne hstar hstoi hminus hs
    apply pass1Step_equ_ok a line _ hc hop
    rw [processEqu_single a line hlabel hne hstar hstoi hminus, hs]
  · intro A B sa sb hoperand hA hB hBne hstoi hsa hsb hfit
    apply pass1Step_equ_ok a line _ hc hop
    rw [processEqu_difference a line A B hlabel hoperand hA hB hBne hstoi, hsa, hsb]
    simp only [Option.isSome_some, Bool.true_or, Bool.not_true, Bool.false_eq_true, if_false,
      wrapInt_of_range _ hfit]
  · intro hne hstar hstoi hminus hnd
    rw [pass1Step_equ a line hc hop, processEqu_single a line hlabel hne hstar hstoi hminus,
      hnd.1, hnd.2]
    rfl
  · intro A B hoperand hA hB hBne hstoi hnd
    rw [pass1Step_equ a line hc hop,
      processEqu_difference a line A B hlabel hoperand hA hB hBne hstoi]
    by_cases hvalid : (!((mapFind a.symbolTable (trim A)).isSome ||
        isExternalReference a (trim A) a.currentControlSection)) = true
    · exact ⟨trim A, Or.inl rfl, by rw [if_pos hvalid]⟩
    · rcases hnd with hnd | hnd
      · exact absurd (by rw [hnd.1, hnd.2]; rfl) hvalid
      · refine ⟨trim B, Or.inr rfl, ?_⟩
        rw [if_neg hvalid, hnd.1, hnd.2]
        rfl

theorem equState_reached :
    (pass1 { sourceLines := parseLines (fileLines equPrefixSource) 1 }).toOption.map
        (fun a => ({ a with sourceLines := [] } : Assembler)) = some equState := by
  decide

/-- C19 at five lines met in the state `equState` (`BUFFER` = 0x0100, `BUFEND` = 0x1000,
counter 0x1000): `MAXLEN EQU BUFEND-BUFFER` binds 0x0F00, `HERE EQU *` binds 0x1000,
`TEN EQU 10` binds 10, `ALIAS EQU BUFFER` binds 0x0100, each leaving the counter as it is,
and `BAD EQU NOWHERE` makes pass 1 fail with the undefined-symbol error. -/
theorem pass1Step_equ_binds_witness :
    EquBinds equState (sourceLine 4 "MAXLEN" "EQU" "BUFEND-BUFFER") 0x0F00 ∧
    EquBinds equState (sourceLine 4 "HERE" "EQU" "*") 0x1000 ∧
    EquBinds equState (sourceLine 4 "TEN" "EQU" "10") 10 ∧
    EquBinds equState (sourceLine 4 "ALIAS" "EQU" "BUFFER") 0x0100 ∧
    pass1Step equState (sourceLine 4 "BAD" "EQU" "NOWHERE") =
      .error (.undefinedSymbol 4 "NOWHERE".toList) :=
  ⟨(pass1Step_equ_binds equState (sourceLine 4 "MAXLEN" "EQU" "BUFEND-BUFFER") rfl rfl
      (by decide)).2.2.2.1 "BUFEND".toList "BUFFER".toList
      { address := 0x1000, controlSection := "PROG".toList, isDefined := true }
      { address := 0x100, controlSection := "PROG".toList, isDefined := true }
      rfl (by decide) (by decide) (by decide) (by decide) (by decide) (by decide)
      (by unfold FitsInt; decide),
    (pass1Step_equ_binds equState (sourceLine 4 "HERE" "EQU" "*") rfl rfl (by decide)).1 rfl,
    (pass1Step_equ_binds equState (sourceLine 4 "TEN" "EQU" "10") rfl rfl (by decide)).2.1 10
      (by decide),
    (pass1Step_equ_binds equState (sourceLine 4 "ALIAS" "EQU" "BUFFER") rfl rfl
      (by decide)).2.2.1
      { address := 0x100, controlSection := "PROG".toList, isDefined := true }
      (by decide) (by decide) (by decide) (by decide) (by decide),
    (pass1Step_equ_binds equState (sourceLine 4 "BAD" "EQU" "NOWHERE") rfl rfl
      (by decide)).2.2.2.2.1 (by decide) (by decide) (by decide) (by decide)
      ⟨by decide, by decide⟩⟩

/-! ## C20: `CSECT` -/

theorem updateBack_concat (prev : List ControlSection) (last : ControlSection)
    (f : ControlSection → ControlSection) :
    updateBack (prev ++ [last]) f = prev ++ [f last] := by
  unfold updateBack
  simp

theorem allocate_directive (a : Assembler) (line : AssemblyLine)
    (h : isPass1Directive line.opcode = true) : allocate a line = .ok a := by
  unfold allocate
  simp only [h, Bool.not_true, Bool.and_false, Bool.false_eq_true, if_false]

/-- The loop body on a line that `processDirective` accepts. -/
theorem pass1Step_directive (a : Assembler) (line : AssemblyLine) (a1 : Assembler)
    (line1 : AssemblyLine) (hc : line.isComment = false) (hne : line.opcode ≠ [])
    (hd : processDirective a line = .ok (a1, line1)) :
    pass1Step a line =
      match defineLabel a1
          (if line.opcode != "BASE".toList && line.opcode != "NOBASE".toList &&
              line.opcode != "EXTDEF".toList && line.opcode != "EXTREF".toList &&
              line.opcode != "USE".toList then
            { line1 with controlSection := a1.currentControlSection,
                         address := a1.locationCounter }
          else { line1 with controlSection := a1.currentControlSection }) with
      | .error e => .error e
      | .ok a2 =>
        match allocate a2
            (if line.opcode != "BASE".toList && line.opcode != "NOBASE".toList &&
                line.opcode != "EXTDEF".toList && line.opcode != "EXTREF".toList &&
                line.opcode != "USE".toList then
              { line1 with controlSection := a1.currentControlSection,
                           address := a1.locationCounter }
            else { line1 with controlSection := a1.currentControlSection }) with
        | .error e => .error e
        | .ok a3 => .ok (a3,
            if line.opcode != "BASE".toList && line.opcode != "NOBASE".toList &&
                line.opcode != "EXTDEF".toList && line.opcode != "EXTREF".toList &&
                line.opcode != "USE".toList then
              { line1 with controlSection := a1.currentControlSection,
                           address := a1.locationCounter }
            else { line1 with controlSection := a1.currentControlSection }) := by
  unfold pass1Step
  simp only [hc, Bool.false_eq_true, if_false, isEmpty_eq_false_of_ne _ hne, Bool.not_false,
    if_true, hd]

theorem baseState_reached :
    (pass1 { sourceLines := parseLines (fileLines basePrefixSource) 1 }).toOption.map
        (fun a => ({ a with sourceLines := [] } : Assembler)) = some baseState := by
  decide

/-- C20 (counterexample): in `csectSource` the line `PROGB CSECT` follows `BASE BUF` of
`PROGA`; after pass 1 the base is still set and bound to `BUF` = 3. In `baseCarrySource`
the instruction `LDA FAR` of `PROGB`, 3000 bytes from its target, is then assembled
base-relative with that binding: `034BB8`, flag `b` set, displacement 0xBB8 = 3003 - 3. -/
theorem csect_keeps_base_state :
    baseOf (pass1 { sourceLines := parseLines (fileLines csectSource) 1 }) = some (true, 3) ∧
    (listingOf (assemble (fileLines baseCarrySource))).bind (fun rows => rows[5]?) =
      some ⟨6, 0, "LDA", "FAR", "034BB8", "PROGB"⟩ := by
  decide

/-- C20 (amended): when the loop body of `pass1` meets `name CSECT` (`name` not yet a
defined symbol of a section `name`), the length of the last control section becomes the
location counter minus that section's start address (fitting an `int`), a new control
section `name` with start address 0 and length 0 is appended, the current section becomes
`name`, the location counter becomes 0 and is the address of the line, and `baseSet` and
`baseRegister` are left as they were. -/
theorem pass1Step_csect (a : Assembler) (line : AssemblyLine)
    (hc : line.isComment = false) (hop : line.opcode = "CSECT".toList)
    (hname : line.label ≠ [])
    (hfresh : ∀ s, mapFind a.symbolTable line.label = some s →
      (s.isDefined && s.controlSection == line.label) = false) :
    ∃ a1 line1, pass1Step a line = .ok (a1, line1) ∧
      a1.currentControlSection = line.label ∧ a1.locationCounter = 0 ∧
      line1.address = 0 ∧ line1.controlSection = line.label ∧
      a1.baseSet = a.baseSet ∧ a1.baseRegister = a.baseRegister ∧
      (a.controlSections = [] →
        a1.controlSections = [{ name := line.label, startAddress := 0, length := 0 }]) ∧
      (∀ prev last, a.controlSections = prev ++ [last] →
        FitsInt (a.locationCounter - last.startAddress) →
        a1.controlSections = prev ++
          [{ last with length := a.locationCounter - last.startAddress },
           { name := line.label, startAddress := 0, length := 0 }]) := by
  have hd : processDirective a line =
      .ok ({ a with
              currentControlSection := line.label
              controlSections := updateBack a.controlSections (fun cs =>
                { cs with length := wrapInt (a.locationCounter - cs.startAddress) }) ++
                [{ name := line.label, startAddress := 0 }]
              locationCounter := 0 }, line) := by
    have h0 : ("CSECT".toList == "START".toList) = false := by decide
    unfold processDirective
    simp only [hop, h0, isEmpty_eq_false_of_ne _ hname, Bool.false_eq_true, if_false,
      beq_self_eq_true, if_true, Bool.not_false]
  have hl : ∃ table, defineLabel
      { a with
        currentControlSection := line.label
        controlSections := updateBack a.controlSections (fun cs =>
          { cs with length := wrapInt (a.locationCounter - cs.startAddress) }) ++
          [{ name := line.label, startAddress := 0 }]
        locationCounter := 0 }
      { line with controlSection := line.label, address := 0 } =
      .ok { a with
        symbolTable := table
        currentControlSection := line.label
        controlSections := updateBack a.controlSections (fun cs =>
          { cs with length := wrapInt (a.locationCounter - cs.startAddress) }) ++
          [{ name := line.label, startAddress := 0 }]
        locationCounter := 0 } :=
    defineLabel_ok _ _ (Or.inr (Or.inr hfresh))
  obtain ⟨table, hl⟩ := hl
  have hstep := pass1Step_directive a line _ _ hc (by rw [hop]; decide) hd
  have h1 : (line.opcode != "BASE".toList && line.opcode != "NOBASE".toList &&
      line.opcode != "EXTDEF".toList && line.opcode != "EXTREF".toList &&
      line.opcode != "USE".toList) = true := by rw [hop]; decide
  simp only [h1, if_true] at hstep
  have hal : ∀ a2 : Assembler,
      allocate a2 { line with controlSection := line.label, address := 0 } = .ok a2 :=
    fun a2 => allocate_directive a2 _ (by
      show isPass1Directive line.opcode = true
      rw [hop]; decide)
  simp only [hl, hal] at hstep
  refine ⟨_, _, hstep, rfl, rfl, rfl, rfl, rfl, rfl, ?_, ?_⟩
  · intro hnil
    simp only [hnil]
    rfl
  · intro prev last hcs hfit
    simp only [hcs, updateBack_concat, wrapInt_of_range _ hfit, List.append_assoc,
      List.singleton_append]

/-- C20 (amended) at `PROGB CSECT` met in the state `baseState`: `PROGA` is closed with
length 6, `PROGB` is opened at 0 and becomes the current section, the counter is 0, and
the base is still set and bound to 3. -/
theorem pass1Step_csect_witness :
    ∃ a1 line1, pass1Step baseState (sourceLine 5 "PROGB" "CSECT" "") = .ok (a1, line1) ∧
      a1.currentControlSection = "PROGB".toList ∧ a1.locationCounter = 0 ∧
      a1.baseSet = true ∧ a1.baseRegister = 3 ∧
      a1.controlSections = [{ name := "PROGA".toList, startAddress := 0, length := 6 },
        { name := "PROGB".toList, startAddress := 0, length := 0 }] := by
  obtain ⟨a1, line1, h1, h2, h3, _, _, h6, h7, _, h9⟩ :=
    pass1Step_csect baseState (sourceLine 5 "PROGB" "CSECT" "") rfl rfl (by decide)
      (fun s hs => by
        have h0 : mapFind baseState.symbolTable (sourceLine 5 "PROGB" "CSECT" "").label = none := by
          decide
        rw [h0] at hs
        cases hs)
  exact ⟨a1, line1, h1, h2, h3, h6, h7,
    h9 [] { name := "PROGA".toList, startAddress := 0 } rfl (by unfold FitsInt; decide)⟩

/-! ## C14: the object code of `BYTE` -/

theorem charsToHex_ascii (S : List Char) (h : ∀ c ∈ S, c.toNat < 128) :
    charsToHex S = asciiHex S := by
  unfold charsToHex asciiHex
  congr 1
  apply List.map_congr_left
  intro c hc
  have h128 := h c hc
  unfold charToInt
  rw [if_pos h128]
  exact intToHex_byte c.toNat (by omega)

theorem asciiHex_length (S : List Char) : (asciiHex S).length = 2 * S.length := by
  induction S with
  | nil => rfl
  | cons c cs ih =>
    have : asciiHex (c :: cs) = hexByte c.toNat ++ asciiHex cs := rfl
    rw [this, List.length_append, ih]
    simp [hexByte]
    omega

theorem substrChecked_constant (k : Char) (P : List Char)
    (hlen : P.length < 18446744073709551616) :
    substrChecked (k :: apostrophe :: P ++ [apostrophe]) 2
      (sizeSub (k :: apostrophe :: P ++ [apostrophe]).length 3) = some P := by
  have hl : (k :: apostrophe :: P ++ [apostrophe]).length = P.length + 3 := by simp
  rw [hl, sizeSub_add _ 3 hlen]
  unfold substrChecked
  rw [if_pos (by rw [hl]; omega)]
  simp

/-- A source line `BYTE <constant>`, fields separated by a tab: `parseLine` delivers the
opcode `BYTE` and the constant, unchanged, as the operand. -/
theorem parseLine_byte (K : List Char) (n : Nat) (htab : '\t' ∉ K) (hne : K ≠ [])
    (htrim : trim K = K) :
    parseLine ("BYTE\t".toList ++ K) n = { lineNumber := n, opcode := "BYTE".toList, operand := K }
    := by
  have hsplit : split ("BYTE\t".toList ++ K) '\t' = ["BYTE".toList, K] := by
    have h1 : "BYTE\t".toList ++ K = "BYTE".toList ++ '\t' :: K := by simp
    unfold split
    rw [h1, getlineTokens_append _ _ _ (by decide), getlineTokens_single _ _ htab hne]
    simp only [List.map_cons, List.map_nil, htrim]
    rfl
  have h0 : (("BYTE\t".toList ++ K).isEmpty || ("BYTE\t".toList ++ K).head? == some '.') = false := by
    simp
  unfold parseLine
  simp only [h0, Bool.false_eq_true, if_false, hsplit]
  have h2 : toUpperCase (trim "BYTE".toList) = "BYTE".toList := by decide
  have h3 : ((mapFind instructionTable "BYTE".toList).isSome ||
      isParsedDirective "BYTE".toList) = true := by decide
  simp only [h2, h3, if_true]
  simp [htrim]

theorem trim_constant (k : Char) (P : List Char) (hk : isTrimChar k = false) :
    trim (k :: apostrophe :: P ++ [apostrophe]) = k :: apostrophe :: P ++ [apostrophe] := by
  have ha : isTrimChar apostrophe = false := by decide
  unfold trim
  rw [List.cons_append, List.dropWhile_cons_of_neg (by simp [hk])]
  have hrev : (k :: (apostrophe :: P ++ [apostrophe])).reverse =
      apostrophe :: (k :: apostrophe :: P).reverse := by simp
  rw [hrev, List.dropWhile_cons_of_neg (by simp [ha])]
  simp

/-- C14 (counterexample): the constant `X'ab'` of `lowerHexSource` is emitted as `ab`, not
case-folded to `AB`; the Text record reads `T^000000^01^ab`. -/
theorem byte_hex_keeps_lower_case :
    listingOf (assemble (fileLines lowerHexSource)) =
      some [⟨1, 0, "START", "0", "", "PROG"⟩, ⟨2, 0, "BYTE", "X'ab'", "ab", "PROG"⟩,
        ⟨3, 1, "END", "", "", "PROG"⟩] ∧
    textRecordsOf (assemble (fileLines lowerHexSource)) =
      some [{ line := "T^000000^01^ab", codes := 1, declared := 1, payloadChars := 2 }] ∧
    toUpperCase "ab".toList = "AB".toList := by
  decide

/-- C14 (amended): for a line with opcode `BYTE`, when the operand is `C'P'` with `P` a
string of ASCII characters, `generateObjectCode` returns the two-digit upper-case
hexadecimal ASCII codes of the characters of `P` in order, `2 * |P|` characters; when the
operand is `X'P'`, for any string `P`, it returns `P` itself, unchanged. A source line
`BYTE C'P'` or `BYTE X'P'` (tab-separated, `P` free of tabs) is parsed into such a line,
the operand being kept as written. -/
theorem generateObjectCode_byte (a : Assembler) (line : AssemblyLine) (P : List Char)
    (hop : line.opcode = "BYTE".toList) (hlen : P.length < 18446744073709551616) :
    (line.operand = charConstant P → (∀ c ∈ P, c.toNat < 128) →
      generateObjectCode a line = some (asciiHex P, a) ∧ (asciiHex P).length = 2 * P.length) ∧
    (line.operand = hexConstant P → generateObjectCode a line = some (P, a)) ∧
    ('\t' ∉ P → ∀ n,
      parseLine ("BYTE\t".toList ++ charConstant P) n =
        { lineNumber := n, opcode := "BYTE".toList, operand := charConstant P } ∧
      parseLine ("BYTE\t".toList ++ hexConstant P) n =
        { lineNumber := n, opcode := "BYTE".toList, operand := hexConstant P }) := by
  have h0 : ("BYTE".toList == "WORD".toList) = false := by decide
  refine ⟨?_, ?_, ?_⟩
  · intro hoperand hascii
    refine ⟨?_, asciiHex_length P⟩
    have hne : (charConstant P).isEmpty = false := rfl
    have hh : ((charConstant P).head? == some 'C') = true := rfl
    unfold generateObjectCode
    simp only [hop, hoperand, h0, hne, hh, Bool.false_eq_true, if_false, beq_self_eq_true,
      if_true, Bool.not_false]
    unfold charConstant
    rw [substrChecked_constant 'C' P hlen, Option.map_some', charsToHex_ascii P hascii]
  · intro hoperand
    have hne : (hexConstant P).isEmpty = false := rfl
    have hh : ((hexConstant P).head? == some 'C') = false := by simp [hexConstant]
    have hx : ((hexConstant P).head? == some 'X') = true := rfl
    unfold generateObjectCode
    simp only [hop, hoperand, h0, hne, hh, hx, Bool.false_eq_true, if_false, beq_self_eq_true,
      if_true, Bool.not_false]
    unfold hexConstant
    rw [substrChecked_constant 'X' P hlen, Option.map_some']
  · intro htab n
    have ha : ¬ '\t' = apostrophe := by decide
    constructor
    · apply parseLine_byte
      · simp [charConstant, htab, ha]
      · simp [charConstant]
      · exact trim_constant 'C' P (by decide)
    · apply parseLine_byte
      · simp [hexConstant, htab, ha]
      · simp [hexConstant]
      · exact trim_constant 'X' P (by decide)

/-- C14 (amended) at two lines: `BYTE C'EOF'` gives `454F46` and `BYTE X'f1'` gives `f1`. -/
theorem generateObjectCode_byte_witness :
    generateObjectCode {} (sourceLine 2 "EOF" "BYTE" "C'EOF'") = some ("454F46".toList, {}) ∧
    generateObjectCode {} (sourceLine 3 "HEX" "BYTE" "X'f1'") = some ("f1".toList, {}) :=
  ⟨((generateObjectCode_byte {} (sourceLine 2 "EOF" "BYTE" "C'EOF'") "EOF".toList rfl
      (by decide)).1 rfl (by decide)).1,
    (generateObjectCode_byte {} (sourceLine 3 "HEX" "BYTE" "X'f1'") "f1".toList rfl
      (by decide)).2.1 rfl⟩

/-! ## C11: the length of the Header record -/

/-- C11 (the code at the failing input): in `gapSource` the section holds `BYTE X'ABC'`
(2 bytes in pass 1), `RESB 4` and `WORD 5`. The Header record states the length 9, the
final location counter minus the start address 0; the Text records declare 1 + 3 = 4
bytes and the reserved storage is 4 bytes, 8 in all. -/
theorem header_length_of_odd_hex_section :
    sectionsOf (assemble (fileLines gapSource)) =
      some [{ header := "H^PROG  ^000000^000009", length := 9, textBytes := 4,
              reserved := 4 }] ∧
    textRecordsOf (assemble (fileLines gapSource)) =
      some [{ line := "T^000000^01^ABC", codes := 1, declared := 1, payloadChars := 3 },
        { line := "T^000006^03^000005", codes := 1, declared := 3, payloadChars := 6 }] ∧
    lengthsOf (assemble (fileLines gapSource)) = some (9, [9]) := by
  decide

theorem placeLiterals_controlSections (a : Assembler) (literals : List (List Char)) :
    (placeLiterals a literals).controlSections = a.controlSections := by
  induction literals generalizing a with
  | nil => rfl
  | cons literal rest ih =>
    unfold placeLiterals
    split
    · rw [ih]
    · exact ih a

/-- The `END` branch of `processDirective` closes the last control section: its length
becomes the final location counter (after the literal pool) minus its start address. -/
theorem processDirective_end (a : Assembler) (line : AssemblyLine)
    (hop : line.opcode = "END".toList) :
    ∃ a1, processDirective a line = .ok (a1, line) ∧
      ∀ prev last, a.controlSections = prev ++ [last] →
        a1.controlSections =
          prev ++ [{ last with length := wrapInt (a1.locationCounter - last.startAddress) }] := by
  have h0 : ("END".toList == "START".toList) = false := by decide
  have h1 : ("END".toList == "CSECT".toList) = false := by decide
  unfold processDirective
  simp only [hop, h0, h1, Bool.false_eq_true, if_false, beq_self_eq_true, if_true]
  refine ⟨_, rfl, ?_⟩
  intro prev last hcs
  by_cases hp : (!a.pendingLiterals.isEmpty) = true
  · simp only [hp, if_true, placeLiterals_controlSections, hcs, updateBack_concat]
  · simp only [hp, Bool.false_eq_true, if_false, hcs, updateBack_concat]

/-! ## C12 and C13: literal pools -/

/-- C12 (the code at the failing input): in `repeatedLiteralSource` the literal `=C'EOF'`
is used before and after an `LTORG`. It has one entry in the literal table (address 3),
but `insertLiteralLines` adds a pool line for it after the `LTORG` and another after the
`END`, both at address 3, and its bytes `454F46` stand twice in the Text record, which
declares 12 bytes for a section of length 9. -/
theorem literal_repeated_after_ltorg :
    literalsOf (assemble (fileLines repeatedLiteralSource)) = some [("=C'EOF'", 3)] ∧
    poolLinesOf (assemble (fileLines repeatedLiteralSource)) =
      some [⟨3, 3, "", "=C'EOF'", "454F46", "PROG"⟩, ⟨5, 3, "", "=C'EOF'", "454F46", "PROG"⟩] ∧
    textRecordsOf (assemble (fileLines repeatedLiteralSource)) =
      some [{ line := "T^000000^0C^032000^454F46^032FFA^454F46", codes := 4, declared := 12,
              payloadChars := 24 }] ∧
    lengthsOf (assemble (fileLines repeatedLiteralSource)) = some (9, [9]) := by
  decide

/-- When both uses of the literal precede the same `END` (`sharedLiteralSource`), there is
one entry in the literal table, one pool line and one copy of the bytes. -/
theorem literal_shared_before_end :
    literalsOf (assemble (fileLines sharedLiteralSource)) = some [("=C'EOF'", 6)] ∧
    poolLinesOf (assemble (fileLines sharedLiteralSource)) =
      some [⟨4, 6, "", "=C'EOF'", "454F46", "PROG"⟩] ∧
    textRecordsOf (assemble (fileLines sharedLiteralSource)) =
      some [{ line := "T^000000^09^032003^032000^454F46", codes := 3, declared := 9,
              payloadChars := 18 }] := by
  decide

/-- C13 (the code at the failing input): in `oddHexLiteralSource` the pool holds `=X'ABC'`
and then `=C'EOF'`. The first is placed at 6 and advances the counter by 3 / 2 = 1, so
the second is placed at 7 and the section has length 10; pass 2 emits the three digits
`ABC` for the first. -/
theorem literal_of_odd_hex_digits :
    literalAdvance "=X'ABC'".toList = 1 ∧
    literalsOf (assemble (fileLines oddHexLiteralSource)) =
      some [("=X'ABC'", 6), ("=C'EOF'", 7)] ∧
    poolLinesOf (assemble (fileLines oddHexLiteralSource)) =
      some [⟨4, 6, "", "=X'ABC'", "ABC", "PROG"⟩, ⟨4, 7, "", "=C'EOF'", "454F46", "PROG"⟩] ∧
    lengthsOf (assemble (fileLines oddHexLiteralSource)) = some (10, [10]) := by
  decide

/-- The bytes by which a literal `=C'S'` advances the counter: the characters of `S`. -/
theorem literalAdvance_chars (S : List Char) (h : S.length < 2147483648) :
    literalAdvance ('=' :: charConstant S) = S.length := by
  have hl : ('=' :: charConstant S).length = S.length + 4 := by simp [charConstant]
  have ht : (('=' :: charConstant S).take 2 == "=C".toList) = true := rfl
  unfold literalAdvance
  rw [if_pos ht, hl, sizeSub_add _ 4 (by omega)]
  exact wrapInt_natCast _ h

/-- The bytes by which a literal `=X'H'` advances the counter: half the digits of `H`,
rounded down. -/
theorem literalAdvance_hex (H : List Char) (h : H.length < 2147483648) :
    literalAdvance ('=' :: hexConstant H) = ((H.length / 2 : Nat) : Int) := by
  have hl : ('=' :: hexConstant H).length = H.length + 4 := by simp [hexConstant]
  have hc : (('=' :: hexConstant H).take 2 == "=C".toList) = false := by
    simp [hexConstant]
  have ht : (('=' :: hexConstant H).take 2 == "=X".toList) = true := rfl
  unfold literalAdvance
  rw [if_neg (by rw [hc]; decide), if_pos ht, hl, sizeSub_add _ 4 (by omega)]
  exact wrapInt_natCast _ (by omega)

/-! ## C17: the object code of `WORD` -/

/-- C17 (the code at the failing input): in `wideWordSource` pass 1 gives each `WORD` 3
bytes, and pass 2 emits the 8 digits `FFFFFFFF` for `WORD -1` and the 7 digits `1000000`
for `WORD 16777216`; the Text record declares 7 bytes for a section of length 6. -/
theorem word_of_more_than_six_digits :
    listingOf (assemble (fileLines wideWordSource)) =
      some [⟨1, 0, "START", "0", "", "PROG"⟩, ⟨2, 0, "WORD", "-1", "FFFFFFFF", "PROG"⟩,
        ⟨3, 3, "WORD", "16777216", "1000000", "PROG"⟩, ⟨4, 6, "END", "", "", "PROG"⟩] ∧
    textRecordsOf (assemble (fileLines wideWordSource)) =
      some [{ line := "T^000000^07^FFFFFFFF^1000000", codes := 2, declared := 7,
              payloadChars := 15 }] ∧
    lengthsOf (assemble (fileLines wideWordSource)) = some (6, [6]) := by
  decide

theorem hexDigits_length_of_lt (fuel n k : Nat) (hk : 0 < k) (h : n < 16 ^ k) :
    (hexDigits fuel n).length ≤ k := by
  induction fuel generalizing n k with
  | zero => simp [hexDigits]
  | succ f ih =>
    unfold hexDigits
    by_cases h16 : n < 16
    · rw [if_pos h16]
      simpa using hk
    · rw [if_neg h16]
      obtain ⟨j, rfl⟩ : ∃ j, k = j + 1 := ⟨k - 1, by omega⟩
      have hj : 0 < j := by
        rcases Nat.eq_zero_or_pos j with h0 | h0
        · subst h0
          simp at h
          omega
        · exact h0
      have := ih (n / 16) j hj (by rw [pow_succ] at h; omega)
      simp only [List.length_append, List.length_singleton]
      omega

/-- A value from 0 to 2^24 - 1 printed with width 6 gives exactly six digits, which
write the value. -/
theorem intToHex_six (n : Nat) (h : n < 16777216) :
    (intToHex (n : Int) 6).length = 6 ∧ hexValue (intToHex (n : Int) 6) = n := by
  have hlen := hexDigits_length_of_lt 8 n 6 (by decide) (by norm_num; omega)
  unfold intToHex
  rw [toUnsigned_natCast n (by omega)]
  refine ⟨?_, ?_⟩
  · simp only [List.length_append, List.length_replicate]
    omega
  · rw [hexValue_zero_pad, hexValue_hexDigits 8 n (by norm_num; omega)]

/-- What holds of `WORD`: a number from 0 to 2^24 - 1, or a symbol of the symbol table with
such an address, is emitted as exactly six digits writing the value; an operand that is no
number and no key of the symbol table is emitted as `000000`. -/
theorem generateObjectCode_word_in_range (a : Assembler) (line : AssemblyLine)
    (hop : line.opcode = "WORD".toList) :
    (∀ n : Nat, stoi line.operand = some (n : Int) → n < 16777216 →
      ∃ code, generateObjectCode a line = some (code, a) ∧ code.length = 6 ∧
        hexValue code = n) ∧
    (∀ (s : Symbol) (n : Nat), stoi line.operand = none →
      mapFind a.symbolTable line.operand = some s → s.address = (n : Int) → n < 16777216 →
      line.operand ≠ [] →
      ∃ code, generateObjectCode a line = some (code, a) ∧ code.length = 6 ∧
        hexValue code = n) ∧
    (stoi line.operand = none → mapFind a.symbolTable line.operand = none →
      generateObjectCode a line = some ("000000".toList, a)) := by
  refine ⟨?_, ?_, ?_⟩
  · intro n hn hlt
    have hne : line.operand ≠ [] := fun h => by rw [h, stoi_nil] at hn; cases hn
    refine ⟨intToHex (n : Int) 6, ?_, (intToHex_six n hlt).1, (intToHex_six n hlt).2⟩
    rw [generateObjectCode_word a line hop hne, hn]
  · intro s n hstoi hs haddr hlt hne
    refine ⟨intToHex (n : Int) 6, ?_, (intToHex_six n hlt).1, (intToHex_six n hlt).2⟩
    rw [generateObjectCode_word a line hop hne, hstoi, hs]
    simp only [haddr]
  · intro hstoi hs
    by_cases hne : line.operand = []
    · unfold generateObjectCode
      simp [hop, hne]
    · rw [generateObjectCode_word a line hop hne, hstoi, hs]

/-! ## C18: duplicate labels -/

/-- C18 (the code at the failing input): in `equRedefinesSource` the label `X` is defined
by `X WORD 1` and again by `X EQU 5` in the same section; the assembly does not abort and
`X` ends with the value 5. With `X WORD 5` as the second line (`duplicateLabelSource`)
pass 1 aborts with the duplicate-symbol error of line 3. -/
theorem equ_redefines_label :
    errorOf (assemble (fileLines equRedefinesSource)) = none ∧
    symbolOf (assemble (fileLines equRedefinesSource)) "X" =
      some (some { address := 5, controlSection := "PROG".toList, isDefined := true }) ∧
    errorOf (assemble (fileLines duplicateLabelSource)) =
      some (.duplicateSymbol 3 "X".toList) := by
  decide

/-- What holds of placeholders: a label whose entry is not yet defined (the placeholder of
`EXTDEF` / `EXTREF`) is defined at the location counter in the current section, keeping
its `isExternal` flag, without error. -/
theorem defineLabel_placeholder (a : Assembler) (line : AssemblyLine) (s : Symbol)
    (hlabel : line.label ≠ []) (hop : line.opcode ≠ "EQU".toList)
    (hm : mapFind a.symbolTable line.label = some s) (hundef : s.isDefined = false) :
    defineLabel a line =
      .ok { a with
        symbolTable := mapInsert a.symbolTable line.label
          { address := a.locationCounter, controlSection := a.currentControlSection,
            isExternal := s.isExternal, isDefined := true } } := by
  have hequ : (line.opcode != "EQU".toList) = true := by simpa using hop
  unfold defineLabel
  simp only [isEmpty_eq_false_of_ne _ hlabel, hequ, hm, hundef, Bool.not_false, Bool.and_self,
    if_true, Bool.false_and, Bool.false_eq_true, if_false]

/-! ## C21: `NOBASE` in pass 2 -/

/-- C21 (the code at the failing input): in `nobaseSource` the line `LDA FAR` follows
`NOBASE` with no `BASE` in between. Pass 1 ends with the base released, but pass 2 binds
it again at `BASE BUF` and does nothing at `NOBASE`: `LDA FAR` is assembled as `034BBE`,
with flag `b` set and displacement 0xBBE = 3006 - 0. -/
theorem nobase_ignored_in_pass2 :
    baseOf (pass1 { sourceLines := parseLines (fileLines nobaseSource) 1 }) =
      some (false, 0) ∧
    baseOf (assemble (fileLines nobaseSource)) = some (true, 0) ∧
    (listingOf (assemble (fileLines nobaseSource))).map (fun rows => rows.drop 3) =
      some [⟨4, 0, "NOBASE", "", "", "PROG"⟩, ⟨5, 3, "LDA", "FAR", "034BBE", "PROG"⟩,
        ⟨6, 6, "RESB", "3000", "", "PROG"⟩, ⟨7, 3006, "RESW", "1", "", "PROG"⟩,
        ⟨8, 3009, "END", "", "", "PROG"⟩] ∧
    bFlag3 "034BBE".toList = 1 ∧ pFlag3 "034BBE".toList = 0 ∧
    dispField3 "034BBE".toList = 3006 := by
  decide

/-- What pass 2 does at a `NOBASE` line without operand: `generateObjectCode` returns no
object code and leaves the assembler, base state included, as it is. -/
theorem generateObjectCode_nobase (a : Assembler) (line : AssemblyLine)
    (hop : line.opcode = "NOBASE".toList) (hoperand : line.operand = []) :
    generateObjectCode a line = some ([], a) := by
  unfold generateObjectCode
  simp only [hop, hoperand]
  rfl

/-- What holds without a base: `selectDisplacement` sets at most the `p` flag. -/
theorem selectDisplacement_baseless (a : Assembler) (nixbpe t address : Int)
    (h : a.baseSet = false) :
    (selectDisplacement a nixbpe t address).1 = nixbpe ∨
    (selectDisplacement a nixbpe t address).1 = orInt nixbpe 0x02 := by
  unfold selectDisplacement
  simp only [h, Bool.false_eq_true, if_false]
  split
  · exact Or.inr rfl
  · exact Or.inl rfl

/-! ## C22: the fields of a source line -/

/-- C22 (the code at the failing input): `USE` as the first field is not taken as the
opcode: `parseLine` makes it the label and the second field `BLK` the opcode, and the
assembly of `columnUseSource` aborts with an invalid-opcode error for `BLK`. With an empty
first field (`indentedUseSource`) `USE` is the opcode and pass 1 reports the unsupported
directive. -/
theorem use_in_first_field_is_label :
    parseLine "USE\tBLK".toList 2 =
      { lineNumber := 2, label := "USE".toList, opcode := "BLK".toList } ∧
    errorOf (assemble (fileLines columnUseSource)) = some (.invalidOpcode 2 "BLK".toList) ∧
    parseLine "\tUSE\tBLK".toList 2 =
      { lineNumber := 2, opcode := "USE".toList, operand := "BLK".toList } ∧
    errorOf (assemble (fileLines indentedUseSource)) =
      some (.unsupportedDirective 2 "USE".toList) := by
  decide

/-! ## The line parser: what `parseLine` returns -/

theorem toUpper_toUpper (c : Char) : c.toUpper.toUpper = c.toUpper := by
  by_cases h : 97 ≤ c.toNat ∧ c.toNat ≤ 122
  · obtain ⟨h1, h2⟩ := h
    have hc : c = Char.ofNat c.toNat := (Char.ofNat_toNat c).symm
    generalize c.toNat = n at hc h1 h2
    subst hc
    interval_cases n <;> rfl
  · have : c.toUpper = c := by
      unfold Char.toUpper
      simp only [ge_iff_le]
      rw [if_neg]
      simpa using h
    rw [this, this]

theorem toUpperCase_toUpperCase (s : List Char) : toUpperCase (toUpperCase s) = toUpperCase s := by
  unfold toUpperCase
  rw [List.map_map]
  apply List.map_congr_left
  intro c _
  exact toUpper_toUpper c

theorem trim_of_mem_split (s : List Char) (d : Char) (t : List Char) (h : t ∈ split s d) :
    trim t = t := by
  unfold split at h
  obtain ⟨u, _, hu⟩ := List.mem_map.mp h
  rw [← hu, trim_trim]

/-- The record that `parseLine` builds from the tab-separated tokens of a line that is no
comment. -/
theorem parseLine_tokens (line : List Char) (n : Nat) (p0 : List Char)
    (rest : List (List Char)) (hne : line ≠ []) (hdot : line.head? ≠ some '.')
    (hs : split line '\t' = p0 :: rest) :
    parseLine line n =
      if (mapFind instructionTable (toUpperCase p0)).isSome ||
          isParsedDirective (toUpperCase p0) then
        { lineNumber := n, opcode := toUpperCase p0, operand := rest[0]?.getD [],
          comment := rest[1]?.getD [] }
      else
        { lineNumber := n, label := toUpperCase p0, opcode := toUpperCase (rest[0]?.getD []),
          operand := rest[1]?.getD [], comment := rest[2]?.getD [] } := by
  have h0 : (line.isEmpty || line.head? == some '.') = false := by
    rw [isEmpty_eq_false_of_ne _ hne, Bool.false_or]
    exact beq_eq_false_iff_ne.mpr hdot
  have hp0 : trim p0 = p0 := trim_of_mem_split line '\t' p0 (by rw [hs]; simp)
  have hrest : ∀ k : Nat, (rest[k]?.map trim).getD [] = rest[k]?.getD [] := by
    intro k
    cases hk : rest[k]? with
    | none => rfl
    | some t =>
      have hmem : t ∈ split line '\t' := by
        rw [hs]
        exact List.mem_cons_of_mem _ (List.getElem?_mem hk)
      simp only [Option.map_some', Option.getD_some]
      exact trim_of_mem_split line '\t' t hmem
  have hup : (rest[0]?.map (fun p => toUpperCase (trim p))).getD [] =
      toUpperCase (rest[0]?.getD []) := by
    cases hk : rest[0]? with
    | none => rfl
    | some t =>
      have hmem : t ∈ split line '\t' := by
        rw [hs]
        exact List.mem_cons_of_mem _ (List.getElem?_mem hk)
      simp only [Option.map_some', Option.getD_some]
      rw [trim_of_mem_split line '\t' t hmem]
  unfold parseLine
  simp only [h0, Bool.false_eq_true, if_false, hs, hp0, hrest, hup]

/-- What holds of the fields: for a line that is no comment, with first tab-separated
token `p0` and further tokens `rest`, if `p0` upper-cased is a key of the catalog or one
of `START`, `END`, `RESW`, `RESB`, `WORD`, `BYTE`, `CSECT`, `EXTDEF`, `EXTREF`, `BASE`,
`NOBASE`, `EQU`, `ORG`, `LTORG`, it is the opcode, the label is empty and the second token
is the operand; otherwise it is the label, the second token the opcode and the third the
operand. -/
theorem parseLine_fields (line : List Char) (n : Nat) (p0 : List Char)
    (rest : List (List Char)) (hne : line ≠ []) (hdot : line.head? ≠ some '.')
    (hs : split line '\t' = p0 :: rest) :
    (isOpcodeField p0 = true →
      (parseLine line n).label = [] ∧ (parseLine line n).opcode = toUpperCase p0 ∧
      (parseLine line n).operand = rest[0]?.getD []) ∧
    (isOpcodeField p0 = false →
      (parseLine line n).label = toUpperCase p0 ∧
      (parseLine line n).opcode = toUpperCase (rest[0]?.getD []) ∧
      (parseLine line n).operand = rest[1]?.getD []) := by
  have h := parseLine_tokens line n p0 rest hne hdot hs
  unfold isOpcodeField
  constructor
  · intro hc
    rw [h, if_pos hc]
    exact ⟨rfl, rfl, rfl⟩
  · intro hc
    rw [h, if_neg (by rw [hc]; decide)]
    exact ⟨rfl, rfl, rfl⟩

/-! ## C23: comment lines -/

/-- C23 (counterexample): a blank followed by `.note` is no comment for `parseLine`: the
text, upper-cased, becomes the label of a line without opcode, and after the assembly of
`indentedDotSource` the symbol table holds `.NOTE`. -/
theorem indented_dot_is_no_comment :
    parseLine " .note".toList 2 = { lineNumber := 2, label := ".NOTE".toList } ∧
    (parseLine " .note".toList 2).isComment = false ∧
    errorOf (assemble (fileLines indentedDotSource)) = none ∧
    symbolOf (assemble (fileLines indentedDotSource)) ".NOTE" =
      some (some { address := 0, controlSection := "PROG".toList, isDefined := true }) := by
  decide

/-- C23 (amended): `parseLine` sets the is-comment flag if and only if the line is empty
or its first character is `.`. -/
theorem parseLine_isComment (line : List Char) (n : Nat) :
    (parseLine line n).isComment = true ↔ (line = [] ∨ line.head? = some '.') := by
  constructor
  · intro h
    by_contra hcon
    rw [not_or] at hcon
    obtain ⟨hne, hdot⟩ := hcon
    cases hs : split line '\t' with
    | nil =>
      have h0 : (line.isEmpty || line.head? == some '.') = false := by
        rw [isEmpty_eq_false_of_ne _ hne, Bool.false_or]
        exact beq_eq_false_iff_ne.mpr hdot
      have hp : parseLine line n = { lineNumber := n } := by
        unfold parseLine
        simp only [h0, Bool.false_eq_true, if_false, hs]
      rw [hp] at h
      cases h
    | cons p0 rest =>
      rw [parseLine_tokens line n p0 rest hne hdot hs] at h
      split at h <;> cases h
  · intro h
    have h0 : (line.isEmpty || line.head? == some '.') = true := by
      rcases h with h | h
      · rw [h]; rfl
      · rw [h]; simp
    unfold parseLine
    rw [if_pos h0]

/-! ## C24: case folding in the parser -/

/-- C24 (counterexample): from `clear<tab>a` the parser returns the opcode `CLEAR` and the
operand `a`, not `A`; the assembly of `lowerRegisterSource` then aborts in the validation
before pass 2 with an invalid-register error for `a`. -/
theorem register_operand_keeps_lower_case :
    parseLine "clear\ta".toList 2 =
      { lineNumber := 2, opcode := "CLEAR".toList, operand := "a".toList } ∧
    errorOf (assemble (fileLines lowerRegisterSource)) =
      some (.invalidRegister 2 "a".toList) := by
  decide

/-- What holds of every line, comment or not: the label and the opcode that `parseLine`
returns are tab-separated tokens of the line folded to upper case (folding leaves a
leading `+` in place), and the operand is a tab-separated token of the line exactly as
written, blanks around it removed: register names, constants and literals alike are not
case-folded. -/
theorem parseLine_case (line : List Char) (n : Nat) :
    toUpperCase (parseLine line n).label = (parseLine line n).label ∧
    toUpperCase (parseLine line n).opcode = (parseLine line n).opcode ∧
    ((parseLine line n).label = [] ∨
      ∃ t ∈ split line '\t', (parseLine line n).label = toUpperCase t) ∧
    ((parseLine line n).opcode = [] ∨
      ∃ t ∈ split line '\t', (parseLine line n).opcode = toUpperCase t) ∧
    ((parseLine line n).operand = [] ∨ (parseLine line n).operand ∈ split line '\t') ∧
    (∀ m : List Char, toUpperCase ('+' :: m) = '+' :: toUpperCase m) := by
  have hplus : ∀ m : List Char, toUpperCase ('+' :: m) = '+' :: toUpperCase m := fun m => rfl
  by_cases hcom : line = [] ∨ line.head? = some '.'
  · have h0 : (line.isEmpty || line.head? == some '.') = true := by
      rcases hcom with h | h
      · rw [h]; rfl
      · rw [h]; simp
    have hp : parseLine line n = { lineNumber := n, isComment := true, comment := line } := by
      unfold parseLine
      rw [if_pos h0]
    rw [hp]
    exact ⟨rfl, rfl, Or.inl rfl, Or.inl rfl, Or.inl rfl, hplus⟩
  · rw [not_or] at hcom
    obtain ⟨hne, hdot⟩ := hcom
    cases hs : split line '\t' with
    | nil =>
      have h0 : (line.isEmpty || line.head? == some '.') = false := by
        rw [isEmpty_eq_false_of_ne _ hne, Bool.false_or]
        exact beq_eq_false_iff_ne.mpr hdot
      have hp : parseLine line n = { lineNumber := n } := by
        unfold parseLine
        simp only [h0, Bool.false_eq_true, if_false, hs]
      rw [hp]
      exact ⟨rfl, rfl, Or.inl rfl, Or.inl rfl, Or.inl rfl, hplus⟩
    | cons p0 rest =>
      have hget : ∀ k : Nat, rest[k]?.getD [] = [] ∨ rest[k]?.getD [] ∈ p0 :: rest := by
        intro k
        cases hk : rest[k]? with
        | none => exact Or.inl rfl
        | some t => exact Or.inr (List.mem_cons_of_mem _ (List.getElem?_mem hk))
      rw [parseLine_tokens line n p0 rest hne hdot hs]
      split
      · refine ⟨rfl, toUpperCase_toUpperCase _, Or.inl rfl,
          Or.inr ⟨p0, List.mem_cons_self _ _, rfl⟩, hget 0, hplus⟩
      · refine ⟨toUpperCase_toUpperCase _, toUpperCase_toUpperCase _,
          Or.inr ⟨p0, List.mem_cons_self _ _, rfl⟩, ?_, hget 1, hplus⟩
        rcases hget 0 with h | h
        · left
          show toUpperCase (rest[0]?.getD []) = []
          rw [h]; rfl
        · exact Or.inr ⟨_, h, rfl⟩

/-! ## C25: the End record -/

/-- C25 (the code at the failing input): in `equBeforeFirstSource` the first machine
instruction, `FIRST LDA BUF`, stands at address 6, after `LEN EQU 3` at address 3. The
End record is `E^000003`: the address of the `EQU` line, the first line of the section
whose opcode is none of `START`, `RESW`, `RESB`, `WORD`, `BYTE`. -/
theorem end_record_of_directive_line :
    endRecordsOf (assemble (fileLines equBeforeFirstSource)) =
      some [{ name := "PROG", endRecord := "E^000003", firstInstruction := some 6 }] ∧
    listingOf (assemble (fileLines equBeforeFirstSource)) =
      some [⟨1, 0, "START", "0", "", "PROG"⟩, ⟨2, 0, "RESW", "1", "", "PROG"⟩,
        ⟨3, 3, "EQU", "3", "", "PROG"⟩, ⟨4, 3, "RESW", "1", "", "PROG"⟩,
        ⟨5, 6, "LDA", "BUF", "032FF7", "PROG"⟩, ⟨6, 9, "END", "FIRST", "", "PROG"⟩] := by
  decide

/-- When each section starts with an instruction (`twoSectionSource`), the End record of
the first section carries that instruction's address and the other End record is bare. -/
theorem end_records_of_two_sections :
    endRecordsOf (assemble (fileLines twoSectionSource)) =
      some [{ name := "PROGA", endRecord := "E^000000", firstInstruction := some 0 },
        { name := "PROGB", endRecord := "E", firstInstruction := some 0 }] := by
  decide

/-- What holds of the other sections: a section not named as the first one gets the bare
End record `E`. -/
theorem endRecordLine_other (a : Assembler) (cs first : ControlSection)
    (hfirst : a.controlSections.head? = some first) (hname : cs.name ≠ first.name) :
    endRecordLine a cs = "E".toList := by
  have h : (cs.name == first.name) = false := beq_eq_false_iff_ne.mpr hname
  unfold endRecordLine
  simp only [hfirst, h, Bool.false_eq_true, if_false, List.append_nil]

/-! ## C27: the is-external flag -/

/-- C27 (the code at the failing input): in `importThenDefineSource` the name `BUF` is
declared by `EXTREF` in `PROGA` and later defined by the label of `BUF RESW 1` in `PROGB`;
after pass 1 its entry is defined in `PROGB` and still flagged external. In the opposite
order (`defineThenImportSource`) the entry is not flagged. -/
theorem imported_then_defined_stays_external :
    symbolOf (pass1 { sourceLines := parseLines (fileLines importThenDefineSource) 1 }) "BUF" =
      some (some { address := 0, controlSection := "PROGB".toList, isExternal := true,
                   isDefined := true }) ∧
    symbolOf (pass1 { sourceLines := parseLines (fileLines defineThenImportSource) 1 }) "BUF" =
      some (some { address := 0, controlSection := "PROGA".toList, isExternal := false,
                   isDefined := true }) := by
  decide

/-- What holds of a declaration: `EXTREF` (or `EXTDEF`) of one name leaves an existing
entry as it is and otherwise adds an undefined placeholder, flagged external exactly for
`EXTREF`. -/
theorem declareExternals_single (a : Assembler) (isRef : Bool) (name : List Char) :
    mapFind (declareExternals a isRef [name]).symbolTable (trim name) =
      match mapFind a.symbolTable (trim name) with
      | some s => some s
      | none => some { address := 0, controlSection := a.currentControlSection,
                       isExternal := isRef, isDefined := false } := by
  unfold declareExternals
  unfold declareExternals
  cases h : mapFind a.symbolTable (trim name) with
  | none => simp [h, mapFind_mapInsert_self]
  | some s => simp [h]

/-! ## C26: ill-formed constants and literals -/

/-- C26 (counterexample): `unknownConstantSource` holds `BYTE Z'12'` and
`bareLiteralSource` the literal `=5`; neither assembly aborts. The `BYTE` line gets no
bytes and no object code (the next line has the same address 0), and `=5` is placed as a
3-byte literal with object code `000000`. -/
theorem malformed_operands_assemble :
    errorOf (assemble (fileLines unknownConstantSource)) = none ∧
    listingOf (assemble (fileLines unknownConstantSource)) =
      some [⟨1, 0, "START", "0", "", "PROG"⟩, ⟨2, 0, "BYTE", "Z'12'", "", "PROG"⟩,
        ⟨3, 0, "WORD", "1", "000001", "PROG"⟩, ⟨4, 3, "END", "", "", "PROG"⟩] ∧
    errorOf (assemble (fileLines bareLiteralSource)) = none ∧
    listingOf (assemble (fileLines bareLiteralSource)) =
      some [⟨1, 0, "START", "0", "", "PROG"⟩, ⟨2, 0, "LDA", "=5", "032000", "PROG"⟩,
        ⟨3, 6, "END", "", "", "PROG"⟩, ⟨3, 3, "", "=5", "000000", "PROG"⟩] := by
  decide

/-- The constant `C` without a quoted body (`emptyConstantSource`): pass 1 moves the
counter by 1 - 3 = -2 (the section ends with length 1 after the `WORD`), and pass 2 stops
on the uncaught `std::out_of_range` of `substr(2, ...)`. -/
theorem empty_constant_crashes :
    lengthsOf (pass1 { sourceLines := parseLines (fileLines emptyConstantSource) 1 }) =
      some (1, [1]) ∧
    errorOf (assemble (fileLines emptyConstantSource)) = some .uncaughtException := by
  decide

theorem allocate_byte_other (a : Assembler) (line : AssemblyLine)
    (hop : line.opcode = "BYTE".toList) (hC : line.operand.head? ≠ some 'C')
    (hX : line.operand.head? ≠ some 'X') : allocate a line = .ok a := by
  have hd : isPass1Directive "BYTE".toList = false := by decide
  have he : ("BYTE".toList).isEmpty = false := by decide
  have h0 : ("BYTE".toList == "RESW".toList) = false := by decide
  have h1 : ("BYTE".toList == "RESB".toList) = false := by decide
  have h3 : ("BYTE".toList == "WORD".toList) = false := by decide
  have hc : (line.operand.head? == some 'C') = false := beq_eq_false_iff_ne.mpr hC
  have hx : (line.operand.head? == some 'X') = false := beq_eq_false_iff_ne.mpr hX
  unfold allocate
  simp only [hop, hd, he, h0, h1, h3, hc, hx, Bool.not_false, Bool.and_self, if_true,
    beq_self_eq_true, Bool.false_eq_true, if_false, ite_self]

/-- C26 (amended): constants and literals are not checked. A `BYTE` line whose operand
starts with neither `C` nor `X` is accepted by pass 1 (given a label that is no duplicate)
at the current address with no bytes allocated, and `generateObjectCode` returns the empty
object code for it; a literal that starts with neither `=C` nor `=X` advances the counter
by 3 when placed and `generateLiteralObjectCode` returns `000000` for it. -/
theorem unchecked_constants (a : Assembler) (line : AssemblyLine)
    (hc : line.isComment = false) (hlabel : LabelAvailable a line)
    (hop : line.opcode = "BYTE".toList) (hC : line.operand.head? ≠ some 'C')
    (hX : line.operand.head? ≠ some 'X') :
    AllocatesAt a line 0 ∧
    (∀ a2 : Assembler, generateObjectCode a2 line = some ([], a2)) ∧
    (∀ literal : List Char, literal.take 2 ≠ "=C".toList → literal.take 2 ≠ "=X".toList →
      literalAdvance literal = 3 ∧ generateLiteralObjectCode literal = some "000000".toList) := by
  refine ⟨?_, ?_, ?_⟩
  · refine allocatesAt_of_allocate a line 0 hc (by rw [hop]; decide) hlabel (fun table => ?_)
    exact ⟨_, allocate_byte_other _ _ hop hC hX, by simp, rfl, rfl⟩
  · intro a2
    have h0 : ("BYTE".toList == "WORD".toList) = false := by decide
    have hcb : (line.operand.head? == some 'C') = false := beq_eq_false_iff_ne.mpr hC
    have hxb : (line.operand.head? == some 'X') = false := beq_eq_false_iff_ne.mpr hX
    unfold generateObjectCode
    simp only [hop, h0, hcb, hxb, Bool.false_eq_true, if_false, beq_self_eq_true, if_true,
      ite_self]
  · intro literal h1 h2
    have hb1 : (literal.take 2 == "=C".toList) = false := beq_eq_false_iff_ne.mpr h1
    have hb2 : (literal.take 2 == "=X".toList) = false := beq_eq_false_iff_ne.mpr h2
    constructor
    · unfold literalAdvance
      simp only [hb1, hb2, Bool.false_eq_true, if_false]
    · unfold generateLiteralObjectCode
      simp only [hb1, hb2, Bool.false_eq_true, if_false]

/-- C26 (amended) at `BAD BYTE Z'12'` met in the state `storageState`, and at the literal
`=5`: no bytes and no object code for the constant, 3 bytes and `000000` for the literal. -/
theorem unchecked_constants_witness :
    AllocatesAt storageState (sourceLine 2 "BAD" "BYTE" "Z'12'") 0 ∧
    generateObjectCode storageState (sourceLine 2 "BAD" "BYTE" "Z'12'") =
      some ([], storageState) ∧
    literalAdvance "=5".toList = 3 ∧
    generateLiteralObjectCode "=5".toList = some "000000".toList :=
  ⟨(unchecked_constants storageState (sourceLine 2 "BAD" "BYTE" "Z'12'") rfl
      (labelAvailable_storageState _ _ _ _ (by decide)) rfl (by decide) (by decide)).1,
    (unchecked_constants storageState (sourceLine 2 "BAD" "BYTE" "Z'12'") rfl
      (labelAvailable_storageState _ _ _ _ (by decide)) rfl (by decide) (by decide)).2.1
      storageState,
    (unchecked_constants storageState (sourceLine 2 "BAD" "BYTE" "Z'12'") rfl
      (labelAvailable_storageState _ _ _ _ (by decide)) rfl (by decide) (by decide)).2.2
      "=5".toList (by decide) (by decide)⟩

/-! ## C28: the boundaries of the PC-relative range -/

/-- C28 (counterexample): in `minusBoundarySource` the instruction `LDA BUF` at 2045 has
the PC-relative displacement 0 - 2048 = -2048 while the base is bound to `BUF` = 0, so that
target - base = 0; it is assembled PC-relative, `032800`: flag `p` set, flag `b` clear,
displacement field 0x800. -/
theorem minus_2048_is_pc_relative :
    (listingOf (assemble (fileLines minusBoundarySource))).bind (fun rows => rows[4]?) =
      some ⟨5, 2045, "LDA", "BUF", "032800", "PROG"⟩ ∧
    baseOf (assemble (fileLines minusBoundarySource)) = some (true, 0) ∧
    symbolOf (assemble (fileLines minusBoundarySource)) "BUF" =
      some (some { address := 0, controlSection := "PROG".toList, isDefined := true }) ∧
    pFlag3 "032800".toList = 1 ∧ bFlag3 "032800".toList = 0 ∧
    dispField3 "032800".toList = 0x800 := by
  decide

/-- At +2048 (`plusBoundarySource`): `LDA FAR` at 3 with `FAR` = 2054 is assembled
base-relative, `034806`. -/
theorem plus_2048_is_base_relative :
    (listingOf (assemble (fileLines plusBoundarySource))).bind (fun rows => rows[3]?) =
      some ⟨4, 3, "LDA", "FAR", "034806", "PROG"⟩ ∧
    bFlag3 "034806".toList = 1 ∧ pFlag3 "034806".toList = 0 ∧
    dispField3 "034806".toList = 2054 := by
  decide

/-- C28 (amended): for a format-3 instruction with a symbolic operand that resolves to the
target `t`, the base being set and `t - baseRegister` in `[0, 4095]`: when the PC-relative
displacement `t - (address + 3)` is exactly +2048 the encoder picks base-relative
addressing (`b = 1`, `p = 0`, field `t - baseRegister`); when it is exactly -2048 the
encoder picks PC-relative addressing (`p = 1`, `b = 0`, field 0x800). -/
theorem generateFormat3ObjectCode_boundary (a : Assembler) (opcode operand : List Char)
    (address : Int) (instr : Instruction)
    (hcat : mapFind instructionTable opcode = some instr) (hfmt : instr.format = 3)
    (hne : operand ≠ [])
    (hsym : ¬(isImmediate operand = true ∧ (stoi (getBaseOperand operand)).isSome = true))
    (t : Int) (ht : t = calculateTargetAddress a (getBaseOperand operand) address)
    (hset : a.baseSet = true)
    (hbase : 0 ≤ t - a.baseRegister ∧ t - a.baseRegister ≤ 4095) :
    (t - (address + 3) = 2048 →
      bFlag3 (generateFormat3ObjectCode a opcode operand address) = 1 ∧
      pFlag3 (generateFormat3ObjectCode a opcode operand address) = 0 ∧
      (dispField3 (generateFormat3ObjectCode a opcode operand address) : Int) =
        t - a.baseRegister) ∧
    (t - (address + 3) = -2048 →
      pFlag3 (generateFormat3ObjectCode a opcode operand address) = 1 ∧
      bFlag3 (generateFormat3ObjectCode a opcode operand address) = 0 ∧
      dispField3 (generateFormat3ObjectCode a opcode operand address) = 0x800) := by
  have hn := nBit_le operand
  have hi := iBit_le operand
  have hx := xBit_le operand
  have hf := format3Fields_symbol a operand address hne hsym
  rw [← ht, setNIX_zero] at hf
  refine ⟨?_, ?_⟩
  · intro h
    obtain ⟨_, c2, _⟩ := selectDisplacement_cases a
      (Int.ofNat (32 * nBit operand + 16 * iBit operand + 8 * xBit operand)) t address
      (by omega) (fun _ => by omega)
    have hsel := c2 (by omega) hset hbase
    rw [orInt_flag_b _ _ _ hn hi hx] at hsel
    have h1 : (format3Fields a operand address).1 =
        Int.ofNat (32 * nBit operand + 16 * iBit operand + 8 * xBit operand + 4) := by
      rw [hf, hsel]
    have h2 : (format3Fields a operand address).2 = t - a.baseRegister := by rw [hf, hsel]
    obtain ⟨b1, hv⟩ := generateFormat3ObjectCode_value a opcode operand address instr hcat _
      (by omega) h1
    rw [h2] at hv
    unfold pFlag3 bFlag3 dispField3
    rw [hv]
    unfold toUnsigned
    refine ⟨by omega, by omega, by omega⟩
  · intro h
    obtain ⟨c1, _, _⟩ := selectDisplacement_cases a
      (Int.ofNat (32 * nBit operand + 16 * iBit operand + 8 * xBit operand)) t address
      (by omega) (fun _ => by omega)
    have hsel := c1 (by omega)
    rw [orInt_flag_p _ _ _ hn hi hx] at hsel
    have h1 : (format3Fields a operand address).1 =
        Int.ofNat (32 * nBit operand + 16 * iBit operand + 8 * xBit operand + 2) := by
      rw [hf, hsel]
    have h2 : (format3Fields a operand address).2 = t - (address + 3) := by rw [hf, hsel]
    obtain ⟨b1, hv⟩ := generateFormat3ObjectCode_value a opcode operand address instr hcat _
      (by omega) h1
    rw [h2, h] at hv
    unfold pFlag3 bFlag3 dispField3
    rw [hv]
    unfold toUnsigned
    refine ⟨by omega, by omega, by omega⟩

/-- C28 (amended) in the state `boundaryState` (`BUF` = 0, `FAR` = 2054, base 0): `LDA FAR`
at address 3 (displacement +2048) is base-relative with field 2054, and `LDA BUF` at
address 2045 (displacement -2048) is PC-relative with field 0x800. -/
theorem generateFormat3ObjectCode_boundary_witness :
    (bFlag3 (generateFormat3ObjectCode boundaryState "LDA".toList "FAR".toList 3) = 1 ∧
      pFlag3 (generateFormat3ObjectCode boundaryState "LDA".toList "FAR".toList 3) = 0 ∧
      (dispField3 (generateFormat3ObjectCode boundaryState "LDA".toList "FAR".toList 3) : Int) =
        2054 - boundaryState.baseRegister) ∧
    (pFlag3 (generateFormat3ObjectCode boundaryState "LDA".toList "BUF".toList 2045) = 1 ∧
      bFlag3 (generateFormat3ObjectCode boundaryState "LDA".toList "BUF".toList 2045) = 0 ∧
      dispField3 (generateFormat3ObjectCode boundaryState "LDA".toList "BUF".toList 2045) =
        0x800) :=
  ⟨(generateFormat3ObjectCode_boundary boundaryState "LDA".toList "FAR".toList 3
      { opcode := "LDA".toList, format := 3, machineCode := "00".toList } (by decide) rfl
      (by decide) (by decide) 2054 (by decide) rfl (by decide)).1 (by decide),
    (generateFormat3ObjectCode_boundary boundaryState "LDA".toList "BUF".toList 2045
      { opcode := "LDA".toList, format := 3, machineCode := "00".toList } (by decide) rfl
      (by decide) (by decide) 0 (by decide) rfl (by decide)).2 (by decide)⟩

/-! ## C29: format 3 without operand -/

theorem format3Fields_nil (a : Assembler) (address : Int) :
    format3Fields a [] address = (Int.ofNat 48, 0) := by
  unfold format3Fields
  rfl

/-- C29: for every format-3 mnemonic of the catalog, with opcode byte `op`, and an empty
operand, `generateFormat3ObjectCode` returns the two digits of `(op & 0xFC) | 3` followed
by `0000`, whatever the assembler state and the address: `n = i = 1`,
`x = b = p = e = 0` and a zero displacement. -/
theorem generateFormat3ObjectCode_no_operand (a : Assembler) (opcode : List Char)
    (address : Int) (instr : Instruction)
    (hcat : mapFind instructionTable opcode = some instr) (hfmt : instr.format = 3) :
    ∃ op : Nat, hexToDecimal instr.machineCode = Int.ofNat op ∧ op < 256 ∧
      generateFormat3ObjectCode a opcode [] address =
        hexByte (op &&& 0xFC ||| 3) ++ "0000".toList ∧
      nFlag3 (generateFormat3ObjectCode a opcode [] address) = 1 ∧
      iFlag3 (generateFormat3ObjectCode a opcode [] address) = 1 ∧
      xFlag3 (generateFormat3ObjectCode a opcode [] address) = 0 ∧
      bFlag3 (generateFormat3ObjectCode a opcode [] address) = 0 ∧
      pFlag3 (generateFormat3ObjectCode a opcode [] address) = 0 ∧
      eFlag3 (generateFormat3ObjectCode a opcode [] address) = 0 ∧
      dispField3 (generateFormat3ObjectCode a opcode [] address) = 0 := by
  obtain ⟨op, hop, hlt⟩ := catalog_opcode_nat opcode instr hcat
  have hcode : generateFormat3ObjectCode a opcode [] address =
      packFormat3 (Int.ofNat op) (Int.ofNat 48) 0 := by
    unfold generateFormat3ObjectCode
    simp only
    rw [instructionAt_of_find opcode instr hcat, hop, format3Fields_nil]
  have hbytes := packFormat3_bytes op 48 hlt (by decide) 0
  have hvalue := packFormat3_value op 48 hlt (by decide) 0
  have h3 : (48 >>> 4 &&& 0x03) = 3 := by decide
  have hz : toUnsigned 0 = 0 := by decide
  have hor : op &&& 0xFC ||| 3 = 4 * (op / 4) + 3 := by
    rw [and_0xFC op hlt]
    exact (Nat.mul_add_lt_is_or (show 3 < 2 ^ 2 by decide) (op / 4)).symm
  rw [h3] at hbytes hvalue
  rw [hz] at hbytes hvalue
  rw [hor] at hvalue
  rw [← hcode] at hvalue
  refine ⟨op, hop, hlt, ?_, ?_, ?_, ?_, ?_, ?_, ?_, ?_⟩
  · rw [hcode, hbytes]
    rfl
  · unfold nFlag3; rw [hvalue]; omega
  · unfold iFlag3; rw [hvalue]; omega
  · unfold xFlag3; rw [hvalue]; omega
  · unfold bFlag3; rw [hvalue]; omega
  · unfold pFlag3; rw [hvalue]; omega
  · unfold eFlag3; rw [hvalue]; omega
  · unfold dispField3; rw [hvalue]; omega

/-- C29 at `RSUB` (opcode byte 0x4C): the object code is `4F0000`. -/
theorem generateFormat3ObjectCode_no_operand_witness :
    ∃ op : Nat, hexToDecimal "4C".toList = Int.ofNat op ∧
      generateFormat3ObjectCode sampleSingle "RSUB".toList [] 0x1000 =
        hexByte (op &&& 0xFC ||| 3) ++ "0000".toList ∧
      generateFormat3ObjectCode sampleSingle "RSUB".toList [] 0x1000 = "4F0000".toList := by
  obtain ⟨op, h1, _, h3, _⟩ :=
    generateFormat3ObjectCode_no_operand sampleSingle "RSUB".toList 0x1000
      { opcode := "RSUB".toList, format := 3, machineCode := "4C".toList } (by decide) rfl
  exact ⟨op, h1, h3, by decide⟩

/-! ## C30: immediate integers in format 3 -/

theorem findSub_cons_of_ne (pat rest : List Char) (p c : Char) (hpc : p ≠ c)
    (h : findSub (p :: pat) rest = none) : findSub (p :: pat) (c :: rest) = none := by
  have hpre : (p :: pat).isPrefixOf (c :: rest) = false := by
    simp [List.isPrefixOf, hpc]
  rw [findSub, hpre, h]
  rfl

theorem format3Fields_immediate (a : Assembler) (K : List Char) (address k : Int)
    (hK : findSub ",X".toList K = none) (hk : stoi K = some k) :
    format3Fields a ('#' :: K) address = (Int.ofNat 16, k) := by
  have hidx : isIndexed ('#' :: K) = false := by
    have h : findSub ",X".toList ('#' :: K) = none :=
      findSub_cons_of_ne ['X'] K ',' '#' (by decide) hK
    unfold isIndexed
    rw [h]
    rfl
  have hbase : getBaseOperand ('#' :: K) = K := by
    have hd : (('#' :: K).head? == some '#' || ('#' :: K).head? == some '@') = true := rfl
    unfold getBaseOperand
    simp only [hd, if_true, List.drop_succ_cons, List.drop_zero, hK]
  have hnix : setNIX 0 ('#' :: K) = Int.ofNat 16 := by
    unfold setNIX
    rw [hidx]
    rfl
  have himm : isImmediate ('#' :: K) = true := rfl
  unfold format3Fields
  simp only [hnix, hbase, himm, hk, if_true]
  rfl

/-- C30: for every format-3 mnemonic of the catalog and every operand `#K` in which
`std::stoi` reads the integer `k` (`K` free of `,X`), the object code has `n = 0`, `i = 1`,
`x = b = p = e = 0` and the displacement field `k mod 4096`, the low 12 bits of `k`,
whatever the address of the instruction and the base state of the assembler. -/
theorem generateFormat3ObjectCode_immediate (a : Assembler) (opcode K : List Char)
    (address k : Int) (instr : Instruction)
    (hcat : mapFind instructionTable opcode = some instr) (hfmt : instr.format = 3)
    (hK : findSub ",X".toList K = none) (hk : stoi K = some k) :
    nFlag3 (generateFormat3ObjectCode a opcode ('#' :: K) address) = 0 ∧
    iFlag3 (generateFormat3ObjectCode a opcode ('#' :: K) address) = 1 ∧
    xFlag3 (generateFormat3ObjectCode a opcode ('#' :: K) address) = 0 ∧
    bFlag3 (generateFormat3ObjectCode a opcode ('#' :: K) address) = 0 ∧
    pFlag3 (generateFormat3ObjectCode a opcode ('#' :: K) address) = 0 ∧
    eFlag3 (generateFormat3ObjectCode a opcode ('#' :: K) address) = 0 ∧
    (dispField3 (generateFormat3ObjectCode a opcode ('#' :: K) address) : Int) = k % 4096 := by
  obtain ⟨op, hop, hlt⟩ := catalog_opcode_nat opcode instr hcat
  have hcode : generateFormat3ObjectCode a opcode ('#' :: K) address =
      packFormat3 (Int.ofNat op) (Int.ofNat 16) k := by
    unfold generateFormat3ObjectCode
    simp only
    rw [instructionAt_of_find opcode instr hcat, hop, format3Fields_immediate a K address k hK hk]
  have hvalue := packFormat3_value op 16 hlt (by decide) k
  have h1 : (16 >>> 4 &&& 0x03) = 1 := by decide
  have hor : op &&& 0xFC ||| 1 = 4 * (op / 4) + 1 := by
    rw [and_0xFC op hlt]
    exact (Nat.mul_add_lt_is_or (show 1 < 2 ^ 2 by decide) (op / 4)).symm
  rw [h1, hor] at hvalue
  rw [← hcode] at hvalue
  unfold toUnsigned at hvalue
  refine ⟨?_, ?_, ?_, ?_, ?_, ?_, ?_⟩
  · unfold nFlag3; rw [hvalue]; omega
  · unfold iFlag3; rw [hvalue]; omega
  · unfold xFlag3; rw [hvalue]; omega
  · unfold bFlag3; rw [hvalue]; omega
  · unfold pFlag3; rw [hvalue]; omega
  · unfold eFlag3; rw [hvalue]; omega
  · unfold dispField3; rw [hvalue]; omega

/-- C30 at `LDA #5` and `LDA #-1`, in the state `boundaryState` where a base is set, at
address 2045: the displacement fields are 5 and 0xFFF and `b = p = 0`; the object codes
are `010005` and `010FFF`. -/
theorem generateFormat3ObjectCode_immediate_witness :
    (dispField3 (generateFormat3ObjectCode boundaryState "LDA".toList "#5".toList 2045) : Int) =
      5 % 4096 ∧
    bFlag3 (generateFormat3ObjectCode boundaryState "LDA".toList "#5".toList 2045) = 0 ∧
    pFlag3 (generateFormat3ObjectCode boundaryState "LDA".toList "#5".toList 2045) = 0 ∧
    (dispField3 (generateFormat3ObjectCode boundaryState "LDA".toList "#-1".toList 2045) : Int) =
      (-1) % 4096 ∧
    generateFormat3ObjectCode boundaryState "LDA".toList "#5".toList 2045 = "010005".toList ∧
    generateFormat3ObjectCode boundaryState "LDA".toList "#-1".toList 2045 = "010FFF".toList :=
  ⟨(generateFormat3ObjectCode_immediate boundaryState "LDA".toList "5".toList 2045 5
      { opcode := "LDA".toList, format := 3, machineCode := "00".toList } (by decide) rfl
      (by decide) (by decide)).2.2.2.2.2.2,
    (generateFormat3ObjectCode_immediate boundaryState "LDA".toList "5".toList 2045 5
      { opcode := "LDA".toList, format := 3, machineCode := "00".toList } (by decide) rfl
      (by decide) (by decide)).2.2.2.1,
    (generateFormat3ObjectCode_immediate boundaryState "LDA".toList "5".toList 2045 5
      { opcode := "LDA".toList, format := 3, machineCode := "00".toList } (by decide) rfl
      (by decide) (by decide)).2.2.2.2.1,
    (generateFormat3ObjectCode_immediate boundaryState "LDA".toList "-1".toList 2045 (-1)
      { opcode := "LDA".toList, format := 3, machineCode := "00".toList } (by decide) rfl
      (by decide) (by decide)).2.2.2.2.2.2,
    by decide, by decide⟩

/-! ## C31: scenario 1 -/

/-- C31 (counterexample): for `sampleSingleSource` the object code of `LDA ALPHA` is not
`002000`: its first byte is 0x03, the opcode 0x00 with `n = i = 1`. -/
theorem scenario_one_first_byte :
    (listingOf (assemble (fileLines sampleSingleSource))).bind (fun rows => rows[1]?) =
      some ⟨2, 0x1000, "LDA", "ALPHA", "032000", "FIRST"⟩ ∧
    "032000".toList ≠ "002000".toList ∧
    nFlag3 "032000".toList = 1 ∧ iFlag3 "032000".toList = 1 ∧
    nFlag3 "002000".toList = 0 ∧ iFlag3 "002000".toList = 0 := by
  decide

/-- C31 (amended): in `sampleSingleSource` (`FIRST START 1000`, `LDA ALPHA`,
`ALPHA RESW 1`, `END FIRST`) the instruction stands at 0x1000 and `ALPHA` at 0x1003; the
instruction is encoded PC-relative with displacement 0 as `032000` (`n = i = 1`, `x = 0`,
`b = 0`, `p = 1`, `e = 0`), and the section length is 6. -/
theorem scenario_one_encoding :
    listingOf (assemble (fileLines sampleSingleSource)) =
      some [⟨1, 0x1000, "START", "1000", "", "FIRST"⟩,
        ⟨2, 0x1000, "LDA", "ALPHA", "032000", "FIRST"⟩,
        ⟨3, 0x1003, "RESW", "1", "", "FIRST"⟩, ⟨4, 0x1006, "END", "FIRST", "", "FIRST"⟩] ∧
    symbolOf (assemble (fileLines sampleSingleSource)) "ALPHA" =
      some (some { address := 0x1003, controlSection := "FIRST".toList, isDefined := true }) ∧
    pFlag3 "032000".toList = 1 ∧ bFlag3 "032000".toList = 0 ∧ xFlag3 "032000".toList = 0 ∧
    eFlag3 "032000".toList = 0 ∧ dispField3 "032000".toList = 0 ∧
    sectionsOf (assemble (fileLines sampleSingleSource)) =
      some [{ header := "H^FIRST ^001000^000006", length := 6, textBytes := 3,
              reserved := 3 }] := by
  decide

/-! ## C32: scenario 2 -/

/-- C32: in `scenarioTwoSource` (section `COPY`, `EXTREF BUF`) the instruction `+LDA BUF`
stands at 0x0010 and gets the object code `03100000`; one Modification record is
produced, with address 0x11, length 5, sign `+` and symbol `BUF`, and the object file
shows it under `COPY` as `M^000011^05^+BUF`. -/
theorem scenario_two_extended_extref :
    listingOf (assemble (fileLines scenarioTwoSource)) =
      some [⟨1, 0x10, "START", "10", "", "COPY"⟩, ⟨2, 0, "EXTREF", "BUF", "", "COPY"⟩,
        ⟨3, 0x10, "+LDA", "BUF", "03100000", "COPY"⟩, ⟨4, 0x14, "END", "", "", "COPY"⟩] ∧
    extRefsOf (assemble (fileLines scenarioTwoSource)) = some [("COPY", ["BUF"])] ∧
    modificationsOf (assemble (fileLines scenarioTwoSource)) =
      some [{ address := 0x11, length := 5, symbol := "BUF".toList, isAddition := true }] ∧
    modificationLinesOf (assemble (fileLines scenarioTwoSource)) =
      some [("COPY", ["M^000011^05^+BUF"])] := by
  decide

/-! ## C33: scenario 4 -/

/-- C33: in `scenarioFourSource` the instruction `LDA =C'EOF'` stands at 0x0030 and `LTORG`
is reached with the location counter at 0x0050. The literal is placed at 0x0050, the
literal-pool line inserted after `LTORG` has address 0x0050 and object code `454F46`, and
the `LDA` is `03201D`: `p = 1`, `b = 0`, displacement 0x1D = 0x50 - 0x33. -/
theorem scenario_four_literal :
    listingOf (assemble (fileLines scenarioFourSource)) =
      some [⟨1, 0x30, "START", "30", "", "PROG"⟩,
        ⟨2, 0x30, "LDA", "=C'EOF'", "03201D", "PROG"⟩,
        ⟨3, 0x33, "RESB", "29", "", "PROG"⟩, ⟨4, 0x53, "LTORG", "", "", "PROG"⟩,
        ⟨4, 0x50, "", "=C'EOF'", "454F46", "PROG"⟩, ⟨5, 0x53, "END", "", "", "PROG"⟩] ∧
    literalsOf (assemble (fileLines scenarioFourSource)) = some [("=C'EOF'", 0x50)] ∧
    poolLinesOf (assemble (fileLines scenarioFourSource)) =
      some [⟨4, 0x50, "", "=C'EOF'", "454F46", "PROG"⟩] ∧
    (assemble (fileLines scenarioFourSource)).toOption.map
        (fun a => calculateTargetAddress a "=C'EOF'".toList 0x30) = some 0x50 ∧
    pFlag3 "03201D".toList = 1 ∧ bFlag3 "03201D".toList = 0 ∧
    dispField3 "03201D".toList = 0x50 - 0x33 := by
  decide

/-! ## C34 and C40: the catalog -/

/-- C34 (counterexample): the catalog holds eleven entries of format 2, not twelve. -/
theorem catalog_has_eleven_of_format_two :
    (mnemonicsOfFormat 2).length = 11 ∧ (mnemonicsOfFormat 2).length ≠ 12 := by
  decide

/-- C34 (amended): the entries of format 1 in the catalog are exactly `FIX`, `FLOAT`, `HIO`,
`NORM`, `SIO`, `TIO`, and the entries of format 2 are exactly the eleven operations `ADDR`,
`CLEAR`, `COMPR`, `DIVR`, `MULR`, `RMO`, `SHIFTL`, `SHIFTR`, `SUBR`, `SVC`, `TIXR`; each
is found under its own name. -/
theorem catalog_formats_one_and_two :
    mnemonicsOfFormat 1 = ["FIX", "FLOAT", "HIO", "NORM", "SIO", "TIO"] ∧
    mnemonicsOfFormat 2 = ["ADDR", "CLEAR", "COMPR", "DIVR", "MULR", "RMO", "SHIFTL",
      "SHIFTR", "SUBR", "SVC", "TIXR"] ∧
    (∀ e ∈ instructionTable, mapFind instructionTable e.1 = some e.2 ∧ e.2.opcode = e.1) := by
  decide

/-- C40: every entry of the catalog has a machine code of exactly two upper-case
hexadecimal digits, the two digits of its opcode byte; every opcode byte (of format 3 and
of the other formats alike) has its two low bits clear, `op & 0xFC = op`; and no two
entries share an opcode byte. -/
theorem catalog_well_formed :
    (∀ e ∈ instructionTable, e.2.machineCode.length = 2 ∧
      (∀ c ∈ e.2.machineCode, c ∈ "0123456789ABCDEF".toList) ∧
      e.2.machineCode = hexByte (hexToDecimal e.2.machineCode).toNat) ∧
    (∀ e ∈ instructionTable, e.2.format = 3 →
      (hexToDecimal e.2.machineCode).toNat &&& 0xFC = (hexToDecimal e.2.machineCode).toNat) ∧
    (∀ e ∈ instructionTable,
      (hexToDecimal e.2.machineCode).toNat &&& 0xFC = (hexToDecimal e.2.machineCode).toNat) ∧
    (instructionTable.map (fun e => hexToDecimal e.2.machineCode)).Nodup ∧
    (instructionTable.map (fun e => e.1)).Nodup := by
  decide

/-! ## C35: gaps between object codes -/

theorem textStep_of_code (csName : List Char) (s : TextState) (line : AssemblyLine)
    (hcs : line.controlSection = csName) (hcode : line.objectCode ≠ []) :
    textStep csName s line =
      appendObjectCode (openOnOverflow csName (openOnGap csName s line) line) line := by
  have h1 : (line.controlSection != csName) = false := by simp [hcs]
  unfold textStep
  simp only [h1, isEmpty_eq_false_of_ne _ hcode, Bool.false_eq_true, if_false]

theorem openOnGap_start (csName : List Char) (s : TextState) (line : AssemblyLine) :
    (openOnGap csName s line).currentRecord.startAddress = s.currentRecord.startAddress ∧
      s.currentRecord.startAddress ≠ -1 ∨
    (openOnGap csName s line).currentRecord.startAddress = line.address := by
  unfold openOnGap
  simp only
  split
  · exact Or.inr rfl
  · rename_i h
    left
    refine ⟨rfl, ?_⟩
    intro h1
    apply h
    simp [h1]

theorem openOnOverflow_start (csName : List Char) (s : TextState) (line : AssemblyLine) :
    (openOnOverflow csName s line).currentRecord.startAddress = s.currentRecord.startAddress ∨
    (openOnOverflow csName s line).currentRecord.startAddress = line.address := by
  unfold openOnOverflow
  simp only
  split
  · exact Or.inr rfl
  · exact Or.inl rfl

/-- The state after a line with object code: the end address is the line's address plus
half its digits, the current record is not empty and starts at no negative address. -/
theorem textStep_state (csName : List Char) (s : TextState) (line : AssemblyLine)
    (hcs : line.controlSection = csName) (hcode : line.objectCode ≠ [])
    (hlen : line.objectCode.length < 2147483648) (haddr : 0 ≤ line.address)
    (hfit : line.address + ((line.objectCode.length / 2 : Nat) : Int) ≤ 2147483647)
    (hs : s.currentRecord.startAddress = -1 ∨ 0 ≤ s.currentRecord.startAddress) :
    (textStep csName s line).lastObjectCodeEndAddress =
      line.address + ((line.objectCode.length / 2 : Nat) : Int) ∧
    (textStep csName s line).currentRecord.objectCodes ≠ [] ∧
    0 ≤ (textStep csName s line).currentRecord.startAddress := by
  rw [textStep_of_code csName s line hcs hcode]
  refine ⟨?_, ?_, ?_⟩
  · unfold appendObjectCode
    simp only
    have h1 : wrapInt (Int.ofNat line.objectCode.length) / 2 =
        ((line.objectCode.length / 2 : Nat) : Int) := by
      have h0 : wrapInt (Int.ofNat line.objectCode.length) = (line.objectCode.length : Int) :=
        wrapInt_natCast _ hlen
      rw [h0]
      omega
    rw [h1]
    exact wrapInt_of_range _ ⟨by omega, hfit⟩
  · unfold appendObjectCode
    simp
  · have h1 : (appendObjectCode (openOnOverflow csName (openOnGap csName s line) line)
        line).currentRecord.startAddress =
        (openOnOverflow csName (openOnGap csName s line) line).currentRecord.startAddress := rfl
    rw [h1]
    rcases openOnOverflow_start csName (openOnGap csName s line) line with h | h
    · rw [h]
      rcases openOnGap_start csName s line with ⟨h3, h4⟩ | h3
      · rw [h3]
        rcases hs with hs | hs
        · exact absurd hs h4
        · exact hs
      · rw [h3]; exact haddr
    · rw [h]; exact haddr

theorem wrapInt_lower (x : Int) : -2147483648 ≤ wrapInt x := by
  unfold wrapInt; omega

theorem textStep_currentLength_lower (csName : List Char) (s : TextState)
    (line : AssemblyLine) (hcs : line.controlSection = csName) (hcode : line.objectCode ≠ []) :
    -2147483648 ≤ (textStep csName s line).currentLength := by
  rw [textStep_of_code csName s line hcs hcode]
  exact wrapInt_lower _

theorem textStep_gap_step (csName : List Char) (s : TextState) (line : AssemblyLine)
    (hcs : line.controlSection = csName) (hcode : line.objectCode ≠ [])
    (hend : 0 ≤ s.lastObjectCodeEndAddress) (hgap : line.address > s.lastObjectCodeEndAddress)
    (hne : s.currentRecord.objectCodes ≠ []) (hstart : 0 ≤ s.currentRecord.startAddress) :
    (textStep csName s line).currentRecord =
      { startAddress := line.address, objectCodes := [line.objectCode],
        controlSection := csName } ∧
    (textStep csName s line).textRecords = s.textRecords ++ [s.currentRecord] := by
  have h1 : (s.lastObjectCodeEndAddress != -1) = true := by
    simp only [bne_iff_ne, ne_eq]; omega
  have h2 : (s.currentRecord.startAddress != -1) = true := by
    simp only [bne_iff_ne, ne_eq]; omega
  have hg : openOnGap csName s line =
      { s with
        textRecords := s.textRecords ++ [s.currentRecord]
        currentRecord := { startAddress := line.address, controlSection := csName }
        currentLength := 0 } := by
    unfold openOnGap pushIfNonEmpty
    simp only [h1, h2, hgap, decide_True, Bool.and_self, Bool.or_true, if_true,
      isEmpty_eq_false_of_ne _ hne, Bool.not_false]
  rw [textStep_of_code csName s line hcs hcode, hg]
  unfold openOnOverflow pushIfNonEmpty
  simp only
  split <;> exact ⟨rfl, rfl⟩

theorem textStep_nogap_step (csName : List Char) (s : TextState) (line : AssemblyLine)
    (hcs : line.controlSection = csName) (hcode : line.objectCode ≠ [])
    (hnogap : line.address ≤ s.lastObjectCodeEndAddress)
    (hstart : 0 ≤ s.currentRecord.startAddress)
    (hlen : line.objectCode.length < 2147483648) (hlo : -2147483648 ≤ s.currentLength)
    (hcap : s.currentLength + (line.objectCode.length : Int) ≤ 60) :
    (textStep csName s line).currentRecord =
      { s.currentRecord with
        objectCodes := s.currentRecord.objectCodes ++ [line.objectCode] } ∧
    (textStep csName s line).textRecords = s.textRecords := by
  have h2 : (s.currentRecord.startAddress == -1) = false := by
    simp only [beq_eq_false_iff_ne, ne_eq]; omega
  have h3 : decide (line.address > s.lastObjectCodeEndAddress) = false := by
    simp only [decide_eq_false_iff_not]; omega
  have hg : openOnGap csName s line = s := by
    unfold openOnGap
    simp only [h2, h3, Bool.and_false, Bool.or_self, Bool.false_eq_true, if_false]
  have h0 : wrapInt (Int.ofNat line.objectCode.length) = (line.objectCode.length : Int) :=
    wrapInt_natCast _ hlen
  have ho : openOnOverflow csName s line = s := by
    unfold openOnOverflow
    simp only [h0]
    rw [wrapInt_of_range _ ⟨by omega, by omega⟩, if_neg (by omega)]
  rw [textStep_of_code csName s line hcs hcode, hg, ho]
  exact ⟨rfl, rfl⟩

/-- C35 (amended): for two consecutive lines `L1`, `L2` with object code of the section
(`L1` at a non-negative address), after `L1` has been taken: if the address of `L2` is
greater than the address of `L1` plus half the digits of its object code, rounded down,
the current Text record is closed and `L2` opens a new record at its own address; if it
is smaller or equal, `L2` is appended to the current record and no record is closed, as
long as the record stays within 60 characters. -/
theorem textStep_gap (csName : List Char) (s0 : TextState) (L1 L2 : AssemblyLine)
    (h1 : L1.controlSection = csName) (h2 : L2.controlSection = csName)
    (hc1 : L1.objectCode ≠ []) (hc2 : L2.objectCode ≠ [])
    (hlen1 : L1.objectCode.length < 2147483648) (hlen2 : L2.objectCode.length < 2147483648)
    (ha1 : 0 ≤ L1.address)
    (hfit : L1.address + ((L1.objectCode.length / 2 : Nat) : Int) ≤ 2147483647)
    (hs0 : s0.currentRecord.startAddress = -1 ∨ 0 ≤ s0.currentRecord.startAddress) :
    (L2.address > L1.address + ((L1.objectCode.length / 2 : Nat) : Int) →
      (textStep csName (textStep csName s0 L1) L2).currentRecord =
        { startAddress := L2.address, objectCodes := [L2.objectCode],
          controlSection := csName } ∧
      (textStep csName (textStep csName s0 L1) L2).textRecords =
        (textStep csName s0 L1).textRecords ++ [(textStep csName s0 L1).currentRecord]) ∧
    (L2.address ≤ L1.address + ((L1.objectCode.length / 2 : Nat) : Int) →
      (textStep csName s0 L1).currentLength + (L2.objectCode.length : Int) ≤ 60 →
      (textStep csName (textStep csName s0 L1) L2).currentRecord =
        { (textStep csName s0 L1).currentRecord with
          objectCodes := (textStep csName s0 L1).currentRecord.objectCodes ++
            [L2.objectCode] } ∧
      (textStep csName (textStep csName s0 L1) L2).textRecords =
        (textStep csName s0 L1).textRecords) := by
  obtain ⟨e1, e2, e3⟩ := textStep_state csName s0 L1 h1 hc1 hlen1 ha1 hfit hs0
  constructor
  · intro hgap
    exact textStep_gap_step csName _ L2 h2 hc2 (by rw [e1]; omega) (by rw [e1]; exact hgap)
      e2 e3
  · intro hnogap hcap
    exact textStep_nogap_step csName _ L2 h2 hc2 (by rw [e1]; exact hnogap) e3 hlen2
      (textStep_currentLength_lower csName s0 L1 h1 hc1) hcap

/-- C35 (counterexample): in `repeatedLiteralSource` the second literal-pool line, at
address 3, follows `LDA =C'EOF'` at address 6, whose three bytes end at 9. Its address
differs from 9, yet no record is closed: the one Text record of the section starts at 0
and holds all four object codes. -/
theorem smaller_address_stays_in_record :
    (listingOf (assemble (fileLines repeatedLiteralSource))).map (fun rows => rows.drop 4) =
      some [⟨4, 6, "LDA", "=C'EOF'", "032FFA", "PROG"⟩, ⟨5, 9, "END", "", "", "PROG"⟩,
        ⟨5, 3, "", "=C'EOF'", "454F46", "PROG"⟩] ∧
    (assemble (fileLines repeatedLiteralSource)).toOption.map
        (fun a => a.textRecords.map (fun r => (r.startAddress, r.objectCodes.map String.mk))) =
      some [(0, ["032000", "454F46", "032FFA", "454F46"])] := by
  decide

/-- C35 (amended) from `startTextState`, after a line at address 0 with the object code
`032003`: a line at address 9 closes the record and opens one at 9; a line at address 2,
below the end address 3, is appended to the record that starts at 0. -/
theorem textStep_gap_witness :
    ((textStep "PROG".toList (textStep "PROG".toList startTextState (codeLine 0 "032003"))
        (codeLine 9 "000005")).currentRecord =
        { startAddress := 9, objectCodes := ["000005".toList],
          controlSection := "PROG".toList } ∧
      (textStep "PROG".toList (textStep "PROG".toList startTextState (codeLine 0 "032003"))
        (codeLine 9 "000005")).textRecords =
        [{ startAddress := 0, objectCodes := ["032003".toList],
           controlSection := "PROG".toList }]) ∧
    ((textStep "PROG".toList (textStep "PROG".toList startTextState (codeLine 0 "032003"))
        (codeLine 2 "000005")).currentRecord =
        { startAddress := 0, objectCodes := ["032003".toList, "000005".toList],
          controlSection := "PROG".toList } ∧
      (textStep "PROG".toList (textStep "PROG".toList startTextState (codeLine 0 "032003"))
        (codeLine 2 "000005")).textRecords = []) :=
  ⟨(textStep_gap "PROG".toList startTextState (codeLine 0 "032003") (codeLine 9 "000005")
      rfl rfl (by decide) (by decide) (by decide) (by decide) (by decide) (by decide)
      (Or.inl rfl)).1 (by decide),
    (textStep_gap "PROG".toList startTextState (codeLine 0 "032003") (codeLine 2 "000005")
      rfl rfl (by decide) (by decide) (by decide) (by decide) (by decide) (by decide)
      (Or.inl rfl)).2 (by decide) (by decide)⟩

/-! ## C36: the target of a symbol defined by `EQU` -/

/-- C36 (the code at the failing input): in `equTargetSource` the label `LEN` is defined by
`LEN EQU 100` on a line whose address is the location counter 3. The symbol table records
the value 100, but `calculateTargetAddress` returns 3, the address of the line that bears
the label: `LDA LEN` at 3 is `032FFD` (displacement 3 - 6) and `LDA #LEN` at 6 is `012FFA`
(displacement 3 - 9). -/
theorem equ_label_resolves_to_line_address :
    symbolOf (assemble (fileLines equTargetSource)) "LEN" =
      some (some { address := 100, controlSection := "PROG".toList, isDefined := true }) ∧
    (assemble (fileLines equTargetSource)).toOption.map
        (fun a => calculateTargetAddress a "LEN".toList 3) = some 3 ∧
    listingOf (assemble (fileLines equTargetSource)) =
      some [⟨1, 0, "START", "0", "", "PROG"⟩, ⟨2, 0, "RESW", "1", "", "PROG"⟩,
        ⟨3, 3, "EQU", "100", "", "PROG"⟩, ⟨4, 3, "LDA", "LEN", "032FFD", "PROG"⟩,
        ⟨5, 6, "LDA", "#LEN", "012FFA", "PROG"⟩, ⟨6, 9, "END", "", "", "PROG"⟩] := by
  decide

/-- What `calculateTargetAddress` returns for a name that is no external reference of the
section taken for the instruction: the address of the first line of that section that
bears the name as its label, whatever the symbol table records; and, when no line bears
it, the address of its symbol-table entry if that entry is defined in the section and not
flagged external. -/
theorem calculateTargetAddress_label (a : Assembler) (operand : List Char) (address : Int)
    (hext : ∀ cs, a.controlSections.find? (fun cs => cs.name == sectionAt a address) = some cs →
      cs.extRef.contains operand = false) :
    (∀ line, a.sourceLines.find? (fun line => line.label == operand &&
        line.controlSection == sectionAt a address && !line.isComment) = some line →
      calculateTargetAddress a operand address = line.address) ∧
    (∀ s, a.sourceLines.find? (fun line => line.label == operand &&
        line.controlSection == sectionAt a address && !line.isComment) = none →
      mapFind a.symbolTable operand = some s → s.controlSection = sectionAt a address →
      s.isExternal = false → s.isDefined = true →
      calculateTargetAddress a operand address = s.address) := by
  unfold sectionAt at hext
  constructor
  · intro line hline
    unfold sectionAt at hline
    unfold calculateTargetAddress
    cases h1 : a.sourceLines.find? (fun line => line.address == address) with
    | none =>
      simp only [h1, Option.map, Option.getD] at hext hline
      cases h2 : a.controlSections.find? (fun cs => cs.name == []) with
      | none => simp only [h2, hline, Bool.false_eq_true, if_false]
      | some cs => simp only [h2, hext cs h2, hline, Bool.false_eq_true, if_false]
    | some l1 =>
      simp only [h1, Option.map, Option.getD] at hext hline
      cases h2 : a.controlSections.find? (fun cs => cs.name == l1.controlSection) with
      | none => simp only [h2, hline, Bool.false_eq_true, if_false]
      | some cs => simp only [h2, hext cs h2, hline, Bool.false_eq_true, if_false]
  · intro s hline hm hcs hx2 hd
    unfold sectionAt at hline hcs
    unfold calculateTargetAddress
    cases h1 : a.sourceLines.find? (fun line => line.address == address) with
    | none =>
      simp only [h1, Option.map, Option.getD] at hext hline hcs
      cases h2 : a.controlSections.find? (fun cs => cs.name == []) with
      | none =>
        simp only [h2, hline, hm, Bool.false_eq_true, if_false]
        simp [Option.filter, hcs, hx2, hd]
      | some cs =>
        simp only [h2, hext cs h2, hline, hm, Bool.false_eq_true, if_false]
        simp [Option.filter, hcs, hx2, hd]
    | some l1 =>
      simp only [h1, Option.map, Option.getD] at hext hline hcs
      cases h2 : a.controlSections.find? (fun cs => cs.name == l1.controlSection) with
      | none =>
        simp only [h2, hline, hm, Bool.false_eq_true, if_false]
        simp [Option.filter, hcs, hx2, hd]
      | some cs =>
        simp only [h2, hext cs h2, hline, hm, Bool.false_eq_true, if_false]
        simp [Option.filter, hcs, hx2, hd]

/-! ## C37: `EQU A-B` with an external operand -/

/-- C37 (the code at the failing input): in `equExternalSource` the name `BUFEND` is
imported by `EXTREF` and `BUFFER` is defined at 3. `MAXLEN EQU BUFEND-BUFFER` binds
`MAXLEN` to 0 - 3 = -3 and `MINLEN EQU BUFFER-BUFEND` binds `MINLEN` to 3 - 0 = 3, not to
0; no Modification record is produced. -/
theorem equ_with_external_operand :
    symbolOf (assemble (fileLines equExternalSource)) "BUFEND" =
      some (some { address := 0, controlSection := "PROG".toList, isExternal := true,
                   isDefined := false }) ∧
    symbolOf (assemble (fileLines equExternalSource)) "BUFFER" =
      some (some { address := 3, controlSection := "PROG".toList, isDefined := true }) ∧
    symbolOf (assemble (fileLines equExternalSource)) "MAXLEN" =
      some (some { address := -3, controlSection := "PROG".toList, isDefined := true }) ∧
    symbolOf (assemble (fileLines equExternalSource)) "MINLEN" =
      some (some { address := 3, controlSection := "PROG".toList, isDefined := true }) ∧
    modificationsOf (assemble (fileLines equExternalSource)) = some [] := by
  decide

/-! ## C39: the sizes of pass 1 and pass 2 agree -/

theorem generateFormat3ObjectCode_length (a : Assembler) (opcode operand : List Char)
    (address : Int) (instr : Instruction)
    (hcat : mapFind instructionTable opcode = some instr) :
    (generateFormat3ObjectCode a opcode operand address).length = 6 := by
  obtain ⟨op, hop, hlt⟩ := catalog_opcode_nat opcode instr hcat
  obtain ⟨b, p, hb, hp, hflags⟩ := format3Fields_flags a operand address
  have hn := nBit_le operand
  have hi := iBit_le operand
  have hx := xBit_le operand
  have hk : 32 * nBit operand + 16 * iBit operand + 8 * xBit operand + 4 * b + 2 * p < 64 := by
    omega
  unfold generateFormat3ObjectCode
  simp only
  rw [instructionAt_of_find opcode instr hcat, hop, hflags, packFormat3_bytes op _ hlt hk]
  simp [hexByte]

theorem generateFormat1ObjectCode_length (opcode : List Char) (instr : Instruction)
    (hcat : mapFind instructionTable opcode = some instr) :
    (generateFormat1ObjectCode opcode).length = 2 := by
  unfold generateFormat1ObjectCode
  rw [instructionAt_of_find opcode instr hcat,
    catalog_machineCode _ (mapFind_mem _ _ _ hcat)]
  simp [hexByte]

theorem generateFormat2ObjectCode_length (opcode operand : List Char) (instr : Instruction)
    (hcat : mapFind instructionTable opcode = some instr) :
    (generateFormat2ObjectCode opcode operand).length = 4 := by
  rw [generateFormat2ObjectCode_split, List.length_append,
    (generateFormat2ObjectCode_nil operand).1, instructionAt_of_find opcode instr hcat,
    catalog_machineCode _ (mapFind_mem _ _ _ hcat)]
  simp [hexByte]

theorem generateFormat4ObjectCode_length (a : Assembler) (opcode operand : List Char)
    (address : Int) : (generateFormat4ObjectCode a opcode operand address).1.length = 8 := by
  unfold generateFormat4ObjectCode packFormat4
  exact (intToHex_eight _).1

/-- What pass 2 does at a line whose opcode, with or without `+`, is a catalog mnemonic and
which is not taken as a literal-pool line: the encoder of the instruction's format
(format 4 for `+` on a format-3 mnemonic) gives the object code. -/
theorem generateObjectCode_catalog (a : Assembler) (line : AssemblyLine) (instr : Instruction)
    (h : mapFind instructionTable (stripPlus line.opcode) = some instr)
    (hpool : ¬ (line.operand.head? = some '=' ∧ line.label = "*".toList)) :
    generateObjectCode a line =
      if line.opcode.head? = some '+' ∧ instr.format = 3 then
        some (generateFormat4ObjectCode a (stripPlus line.opcode) line.operand line.address)
      else if instr.format = 1 then some (generateFormat1ObjectCode (stripPlus line.opcode), a)
      else if instr.format = 2 then
        some (generateFormat2ObjectCode (stripPlus line.opcode) line.operand, a)
      else some (generateFormat3ObjectCode a (stripPlus line.opcode) line.operand line.address,
        a) := by
  obtain ⟨hd, hne, hfmt⟩ := catalog_not_directive _ _ h
  obtain ⟨h1, h2, h3, h4, h5⟩ := isDirectiveName_split _ hd
  have hb : (line.opcode == "BASE".toList) = false := by
    simp only [isPass1Directive, Bool.or_eq_false_iff] at h1
    exact h1.1.1.1.1.1.2
  have hl : (line.opcode == "LTORG".toList) = false := by
    simp only [isPass1Directive, Bool.or_eq_false_iff] at h1
    exact h1.1.2
  have hlit : (!line.operand.isEmpty && line.operand.head? == some '=' && !line.label.isEmpty &&
      line.label == "*".toList) = false := by
    by_cases hh : line.operand.head? = some '='
    · have hlab : (line.label == "*".toList) = false := by
        cases hq : line.label == "*".toList with
        | false => rfl
        | true => exact absurd ⟨hh, eq_of_beq hq⟩ hpool
      rw [hlab, Bool.and_false]
    · simp [hh]
  have hs : (if (line.opcode.head? == some '+') = true then line.opcode.drop 1 else line.opcode)
      = stripPlus line.opcode := rfl
  unfold generateObjectCode
  simp only [h4, h5, hb, hl, hlit, hs, h, Bool.false_eq_true, if_false]
  by_cases hplus : line.opcode.head? = some '+'
  · rcases hfmt with hf | hf | hf <;> simp [hplus, hf]
  · rcases hfmt with hf | hf | hf <;> simp [hplus, hf]

/-- What holds of C39: for every line whose opcode, with or without `+`, is a catalog
mnemonic and which pass 2 does not take as a literal-pool line (label `*` together with
an operand that starts with `=`), and for every operand and every state of the two passes,
`processInstruction` advances the location counter by `size` bytes, where `size` is 4 for
`+` on a format-3 mnemonic and the catalog format (1, 2 or 3) otherwise, and
`generateObjectCode` returns an object code of exactly `2 * size` characters. -/
theorem object_code_digits_match_size (a1 a2 : Assembler) (line : AssemblyLine)
    (instr : Instruction)
    (h : mapFind instructionTable (stripPlus line.opcode) = some instr)
    (hpool : ¬ (line.operand.head? = some '=' ∧ line.label = "*".toList)) :
    ∃ (size : Nat) (pending : List (List Char)) (code : List Char) (a3 : Assembler),
      size = (if line.opcode.head? = some '+' ∧ instr.format = 3 then 4 else instr.format) ∧
      (size = 1 ∨ size = 2 ∨ size = 3 ∨ size = 4) ∧
      processInstruction a1 line =
        .ok { a1 with
          pendingLiterals := pending
          locationCounter := wrapInt (a1.locationCounter + (size : Int)) } ∧
      generateObjectCode a2 line = some (code, a3) ∧
      code.length = 2 * size := by
  obtain ⟨pending, hp⟩ := processInstruction_catalog a1 line instr h
  obtain ⟨_, _, hfmt⟩ := catalog_not_directive _ _ h
  have hg := generateObjectCode_catalog a2 line instr h hpool
  by_cases hplus : line.opcode.head? = some '+' ∧ instr.format = 3
  · rw [if_pos hplus] at hp hg
    refine ⟨4, pending, _, _, by rw [if_pos hplus], by omega, hp, hg, ?_⟩
    exact generateFormat4ObjectCode_length _ _ _ _
  · rw [if_neg hplus] at hp hg
    rcases hfmt with hf | hf | hf
    · rw [if_pos hf] at hg
      refine ⟨1, pending, _, _, by rw [if_neg hplus, hf], by omega, ?_, hg, ?_⟩
      · rw [hp, hf]
      · exact generateFormat1ObjectCode_length _ instr h
    · have hf1 : ¬ instr.format = 1 := by omega
      rw [if_neg hf1, if_pos hf] at hg
      refine ⟨2, pending, _, _, by rw [if_neg hplus, hf], by omega, ?_, hg, ?_⟩
      · rw [hp, hf]
      · exact generateFormat2ObjectCode_length _ _ instr h
    · have hf1 : ¬ instr.format = 1 := by omega
      have hf2 : ¬ instr.format = 2 := by omega
      rw [if_neg hf1, if_neg hf2] at hg
      refine ⟨3, pending, _, _, by rw [if_neg hplus, hf], by omega, ?_, hg, ?_⟩
      · rw [hp, hf]
      · exact generateFormat3ObjectCode_length _ _ _ _ instr h

/-- The sizes of the two passes at the line `+LDA BUF` (from the initial state): four
bytes in pass 1, eight characters in pass 2. -/
theorem object_code_digits_match_size_witness :
    mapFind instructionTable (stripPlus (parseLine "\t+LDA\tBUF".toList 2).opcode) =
      some { opcode := "LDA".toList, format := 3, machineCode := "00".toList } ∧
    ∃ (size : Nat) (pending : List (List Char)) (code : List Char) (a3 : Assembler),
      size = (if (parseLine "\t+LDA\tBUF".toList 2).opcode.head? = some '+' ∧
        (3 : Nat) = 3 then 4 else 3) ∧
      (size = 1 ∨ size = 2 ∨ size = 3 ∨ size = 4) ∧
      processInstruction {} (parseLine "\t+LDA\tBUF".toList 2) =
        .ok { ({} : Assembler) with
          pendingLiterals := pending
          locationCounter := wrapInt (({} : Assembler).locationCounter + (size : Int)) } ∧
      generateObjectCode {} (parseLine "\t+LDA\tBUF".toList 2) = some (code, a3) ∧
      code.length = 2 * size :=
  ⟨by decide, object_code_digits_match_size {} {} (parseLine "\t+LDA\tBUF".toList 2)
    { opcode := "LDA".toList, format := 3, machineCode := "00".toList } (by decide)
    (by decide)⟩

/-- C39 (the code at the failing input): the line `* LDA =C'AB'` of `starLabelSource` has the catalog
mnemonic `LDA` (format 3). `processInstruction` advances the location counter by 3 bytes,
but `generateObjectCode` takes the line as a literal-pool line and returns `4142`, four
characters instead of six. In the assembled program the line at address 0 carries `4142`
and the pool line follows at address 3. -/
theorem star_label_takes_literal_branch :
    mapFind instructionTable (stripPlus (parseLine "*\tLDA\t=C'AB'".toList 2).opcode) =
      some { opcode := "LDA".toList, format := 3, machineCode := "00".toList } ∧
    (match processInstruction {} (parseLine "*\tLDA\t=C'AB'".toList 2) with
      | .ok a => some a.locationCounter
      | .error _ => none) = some 3 ∧
    (generateObjectCode {} (parseLine "*\tLDA\t=C'AB'".toList 2)).map (fun r => r.1) =
      some "4142".toList ∧
    listingOf (assemble (fileLines starLabelSource)) =
      some [⟨1, 0, "START", "0", "", "PROG"⟩, ⟨2, 0, "LDA", "=C'AB'", "4142", "PROG"⟩,
        ⟨3, 5, "END", "", "", "PROG"⟩, ⟨3, 3, "", "=C'AB'", "4142", "PROG"⟩] ∧
    (textRecordsOf (assemble (fileLines starLabelSource))).map
        (fun rs => rs.map (fun r => r.line)) =
      some ["T^000000^02^4142", "T^000003^02^4142"] := by
  decide

/-! ## C38: the Text records of a section hold its object codes in order -/

theorem openOnGap_collected (csName : List Char) (prior : List TextRecord)
    (done : List AssemblyLine) (line : AssemblyLine) (s : TextState)
    (h : Collected csName prior done s) :
    Opened csName prior done line (openOnGap csName s line) := by
  obtain ⟨groups, cur, hne, haddr, hflat, htr, hcur⟩ := h
  unfold openOnGap
  simp only
  split
  · cases cur with
    | nil =>
      refine ⟨groups, [], hne, haddr, hflat, ?_, rfl⟩
      have hstart : s.currentRecord.startAddress = -1 := by rw [hcur]; rfl
      simp [hstart, htr]
    | cons l rest =>
      have hl : l.address ≠ -1 := haddr l (List.mem_cons_self _ _)
      have hstart : s.currentRecord.startAddress = l.address := by rw [hcur]; rfl
      have hcodes : s.currentRecord.objectCodes.isEmpty = false := by rw [hcur]; rfl
      refine ⟨groups ++ [l :: rest], [], ?_, ?_, ?_, ?_, rfl⟩
      · intro g hg
        rcases List.mem_append.mp hg with hg | hg
        · exact hne g hg
        · rw [List.mem_singleton.mp hg]; exact List.cons_ne_nil _ _
      · intro x hx; cases hx
      · rw [← hflat]; simp
      · have hb : (s.currentRecord.startAddress != -1) = true := by
          rw [hstart]; simpa using hl
        rw [hcur] at hb hcodes
        simp only [hb, if_true, pushIfNonEmpty, hcodes, Bool.not_false, htr, hcur,
          List.map_append, List.map_cons, List.map_nil, List.append_assoc]
  · rename_i hcond
    cases cur with
    | nil =>
      have hstart : s.currentRecord.startAddress = -1 := by rw [hcur]; rfl
      simp [hstart] at hcond
    | cons l rest =>
      exact ⟨groups, l :: rest, hne, haddr, hflat, htr, hcur⟩

theorem openOnOverflow_opened (csName : List Char) (prior : List TextRecord)
    (done : List AssemblyLine) (line : AssemblyLine) (s : TextState)
    (h : Opened csName prior done line s) :
    Opened csName prior done line (openOnOverflow csName s line) := by
  unfold openOnOverflow
  simp only
  split
  · obtain ⟨groups, cur, hne, haddr, hflat, htr, hcur⟩ := h
    cases cur with
    | nil =>
      refine ⟨groups, [], hne, haddr, hflat, ?_, rfl⟩
      simp [pushIfNonEmpty, hcur, htr]
    | cons l rest =>
      refine ⟨groups ++ [l :: rest], [], ?_, ?_, ?_, ?_, rfl⟩
      · intro g hg
        rcases List.mem_append.mp hg with hg | hg
        · exact hne g hg
        · rw [List.mem_singleton.mp hg]; exact List.cons_ne_nil _ _
      · intro x hx; cases hx
      · rw [← hflat]; simp
      · simp [pushIfNonEmpty, hcur, htr, recordOfLines]
  · exact h

theorem appendObjectCode_opened (csName : List Char) (prior : List TextRecord)
    (done : List AssemblyLine) (line : AssemblyLine) (s : TextState)
    (hcs : line.controlSection = csName) (hcode : line.objectCode ≠ [])
    (hline : line.address ≠ -1) (h : Opened csName prior done line s) :
    Collected csName prior (done ++ [line]) (appendObjectCode s line) := by
  obtain ⟨groups, cur, hne, haddr, hflat, htr, hcur⟩ := h
  refine ⟨groups, cur ++ [line], hne, ?_, ?_, htr, ?_⟩
  · intro l hl
    rcases List.mem_append.mp hl with hl | hl
    · exact haddr l hl
    · rw [List.mem_singleton.mp hl]; exact hline
  · have hkeep : (line.controlSection == csName && !line.objectCode.isEmpty) = true := by
      simp [hcs, hcode]
    unfold sectionLines
    rw [List.filter_append, ← List.append_assoc]
    unfold sectionLines at hflat
    rw [hflat]
    simp [List.filter, hkeep]
  · unfold appendObjectCode
    simp only [hcur, recordOfLines, List.map_append, List.map_cons, List.map_nil]

theorem textStep_collected (csName : List Char) (prior : List TextRecord)
    (done : List AssemblyLine) (line : AssemblyLine) (s : TextState)
    (hline : line.objectCode ≠ [] → line.address ≠ -1)
    (h : Collected csName prior done s) :
    Collected csName prior (done ++ [line]) (textStep csName s line) := by
  have hskip : (line.controlSection == csName && !line.objectCode.isEmpty) = false →
      Collected csName prior (done ++ [line]) s := by
    intro hk
    obtain ⟨groups, cur, hne, haddr, hflat, htr, hcur⟩ := h
    refine ⟨groups, cur, hne, haddr, ?_, htr, hcur⟩
    unfold sectionLines
    unfold sectionLines at hflat
    rw [List.filter_append, hflat]
    simp [List.filter, hk]
  unfold textStep
  by_cases hcs : line.controlSection = csName
  · by_cases hcode : line.objectCode = []
    · have hk : (line.controlSection == csName && !line.objectCode.isEmpty) = false := by
        simp [hcode]
      simp only [hcs, hcode, bne_self_eq_false, Bool.false_eq_true, if_false, List.isEmpty_nil,
        if_true]
      exact hskip hk
    · have he : line.objectCode.isEmpty = false := by
        cases hq : line.objectCode with
        | nil => exact absurd hq hcode
        | cons c cs => rfl
      simp only [hcs, he, bne_self_eq_false, Bool.false_eq_true, if_false]
      exact appendObjectCode_opened csName prior done line _ hcs hcode (hline hcode)
        (openOnOverflow_opened csName prior done line _
          (openOnGap_collected csName prior done line s h))
  · have hk : (line.controlSection == csName && !line.objectCode.isEmpty) = false := by
      simp [hcs]
    have hb : (line.controlSection != csName) = true := by simp [hcs]
    simp only [hb, if_true]
    exact hskip hk

theorem foldl_textStep_collected (csName : List Char) (prior : List TextRecord) :
    ∀ (rest done : List AssemblyLine) (s : TextState),
      (∀ line ∈ rest, line.objectCode ≠ [] → line.address ≠ -1) →
      Collected csName prior done s →
      Collected csName prior (done ++ rest) (rest.foldl (textStep csName) s) := by
  intro rest
  induction rest with
  | nil => intro done s _ h; simpa using h
  | cons line rest ih =>
    intro done s haddr h
    have h1 := textStep_collected csName prior done line s
      (haddr line (List.mem_cons_self _ _)) h
    have h2 := ih (done ++ [line]) (textStep csName s line)
      (fun l hl => haddr l (List.mem_cons_of_mem _ hl)) h1
    simpa using h2

/-- What one control section adds to the Text records when no object-code line has the
address -1: the records of consecutive non-empty runs of its object-code lines. -/
theorem textRecordsOfSection_groups (lines : List AssemblyLine) (prior : List TextRecord)
    (cs : ControlSection)
    (haddr : ∀ line ∈ lines, line.objectCode ≠ [] → line.address ≠ -1) :
    ∃ groups : List (List AssemblyLine),
      (∀ g ∈ groups, g ≠ []) ∧ groups.flatten = sectionLines lines cs.name ∧
      textRecordsOfSection lines prior cs = prior ++ groups.map (recordOfLines cs.name) := by
  have h0 : Collected cs.name prior []
      { textRecords := prior
        currentRecord := { startAddress := -1, objectCodes := [], controlSection := cs.name }
        currentLength := 0
        lastObjectCodeEndAddress := -1 } :=
    ⟨[], [], by simp, by simp, rfl, by simp, rfl⟩
  have h1 := foldl_textStep_collected cs.name prior lines [] _ haddr h0
  rw [List.nil_append] at h1
  obtain ⟨groups, cur, hne, _, hflat, htr, hcur⟩ := h1
  unfold textRecordsOfSection
  simp only
  cases cur with
  | nil =>
    refine ⟨groups, hne, by simpa using hflat, ?_⟩
    simp [pushIfNonEmpty, hcur, htr, recordOfLines]
  | cons l rest =>
    refine ⟨groups ++ [l :: rest], ?_, ?_, ?_⟩
    · intro g hg
      rcases List.mem_append.mp hg with hg | hg
      · exact hne g hg
      · rw [List.mem_singleton.mp hg]; exact List.cons_ne_nil _ _
    · rw [← hflat]; simp
    · simp [pushIfNonEmpty, hcur, htr, recordOfLines]

theorem foldl_sections_other (lines : List AssemblyLine) (name : List Char)
    (haddr : ∀ line ∈ lines, line.objectCode ≠ [] → line.address ≠ -1) :
    ∀ (css : List ControlSection) (prior : List TextRecord),
      name ∉ css.map (fun cs => cs.name) →
      (css.foldl (textRecordsOfSection lines) prior).filter
          (fun r => r.controlSection == name) =
        prior.filter (fun r => r.controlSection == name) := by
  intro css
  induction css with
  | nil => intro prior _; rfl
  | cons c rest ih =>
    intro prior hnot
    have hc : c.name ≠ name := by
      intro hx; exact hnot (by simp [hx])
    have hrest : name ∉ rest.map (fun cs => cs.name) := by
      intro hx; exact hnot (by simp only [List.map_cons]; exact List.mem_cons_of_mem _ hx)
    obtain ⟨groups, _, _, hrec⟩ := textRecordsOfSection_groups lines prior c haddr
    rw [List.foldl_cons, ih _ hrest, hrec, List.filter_append]
    have hnone : (groups.map (recordOfLines c.name)).filter
        (fun r => r.controlSection == name) = [] := by
      rw [List.filter_eq_nil_iff]
      intro r hr
      obtain ⟨g, _, hg⟩ := List.mem_map.mp hr
      rw [← hg]
      simp [recordOfLines, hc]
    rw [hnone, List.append_nil]

theorem foldl_sections_groups (lines : List AssemblyLine) (cs : ControlSection)
    (haddr : ∀ line ∈ lines, line.objectCode ≠ [] → line.address ≠ -1) :
    ∀ (css : List ControlSection) (prior : List TextRecord),
      (css.map (fun c => c.name)).Nodup → cs ∈ css →
      (∀ r ∈ prior, r.controlSection ≠ cs.name) →
      ∃ groups : List (List AssemblyLine),
        (∀ g ∈ groups, g ≠ []) ∧ groups.flatten = sectionLines lines cs.name ∧
        (css.foldl (textRecordsOfSection lines) prior).filter
            (fun r => r.controlSection == cs.name) =
          groups.map (recordOfLines cs.name) := by
  intro css
  induction css with
  | nil => intro prior _ hmem; cases hmem
  | cons c rest ih =>
    intro prior hnodup hmem hprior
    rw [List.map_cons, List.nodup_cons] at hnodup
    obtain ⟨hnot, hnodup⟩ := hnodup
    have hpriorNil : prior.filter (fun r => r.controlSection == cs.name) = [] := by
      rw [List.filter_eq_nil_iff]
      intro r hr
      simp [hprior r hr]
    by_cases hname : c.name = cs.name
    · obtain ⟨groups, hne, hflat, hrec⟩ := textRecordsOfSection_groups lines prior c haddr
      rw [hname] at hnot hflat hrec
      refine ⟨groups, hne, hflat, ?_⟩
      rw [List.foldl_cons, foldl_sections_other lines cs.name haddr rest _ hnot, hrec,
        List.filter_append, hpriorNil, List.nil_append, List.filter_eq_self]
      intro r hr
      obtain ⟨g, _, hg⟩ := List.mem_map.mp hr
      rw [← hg]
      simp [recordOfLines]
    · have hmem2 : cs ∈ rest := by
        rcases List.mem_cons.mp hmem with hx | hx
        · exact absurd (by rw [hx]) hname
        · exact hx
      obtain ⟨groups, _, _, hrec⟩ := textRecordsOfSection_groups lines prior c haddr
      rw [List.foldl_cons]
      apply ih _ hnodup hmem2
      intro r hr
      rw [hrec] at hr
      rcases List.mem_append.mp hr with hr | hr
      · exact hprior r hr
      · obtain ⟨g, _, hg⟩ := List.mem_map.mp hr
        rw [← hg]
        exact hname

/-- What holds of C38: for every state of the assembler whose control sections have
pairwise distinct names and in which no line with object code has the address -1 (the
mark of `generateTextRecords` for "no record open"), and for every control section, the Text
records of the section are, in emission order, the records of consecutive non-empty runs
of the section's object-code lines in source order: each record holds the object codes of
its run and starts at the address of the first line of the run. So the concatenation of
the records' object codes is the sequence of the non-empty object codes of the section's
lines, and no record is empty. -/
theorem text_records_hold_section_codes (a : Assembler) (cs : ControlSection)
    (hnames : (a.controlSections.map (fun c => c.name)).Nodup)
    (hcs : cs ∈ a.controlSections)
    (haddr : ∀ line ∈ a.sourceLines, line.objectCode ≠ [] → line.address ≠ -1) :
    ∃ groups : List (List AssemblyLine),
      groups.flatten = sectionLines a.sourceLines cs.name ∧
      (generateTextRecords a).textRecords.filter (fun r => r.controlSection == cs.name) =
        groups.map (recordOfLines cs.name) ∧
      (∀ g ∈ groups, ∃ l rest, g = l :: rest ∧
        recordOfLines cs.name g =
          { startAddress := l.address
            objectCodes := l.objectCode :: rest.map (fun x => x.objectCode)
            controlSection := cs.name }) ∧
      ((((generateTextRecords a).textRecords.filter
          (fun r => r.controlSection == cs.name)).map (fun r => r.objectCodes)).flatten =
        (sectionLines a.sourceLines cs.name).map (fun line => line.objectCode)) ∧
      (∀ r ∈ (generateTextRecords a).textRecords.filter
          (fun r => r.controlSection == cs.name), r.objectCodes ≠ []) := by
  obtain ⟨groups, hne, hflat, hrec⟩ :=
    foldl_sections_groups a.sourceLines cs haddr a.controlSections [] hnames hcs
      (fun r hr => by cases hr)
  have hrec2 : (generateTextRecords a).textRecords.filter
      (fun r => r.controlSection == cs.name) = groups.map (recordOfLines cs.name) := hrec
  refine ⟨groups, hflat, hrec2, ?_, ?_, ?_⟩
  · intro g hg
    cases g with
    | nil => exact absurd rfl (hne [] hg)
    | cons l rest => exact ⟨l, rest, rfl, rfl⟩
  · rw [hrec2, ← hflat, List.map_map, List.map_flatten]
    rfl
  · intro r hr
    rw [hrec2] at hr
    obtain ⟨g, hg, hgr⟩ := List.mem_map.mp hr
    rw [← hgr]
    cases g with
    | nil => exact absurd rfl (hne [] hg)
    | cons l rest => exact List.cons_ne_nil _ _

/-- The Text records of `twoSectionState`, section `PROG`: two records, one per run, and one
record for `SUB`. -/
theorem text_records_hold_section_codes_witness :
    (generateTextRecords twoSectionState).textRecords =
      [{ startAddress := 0, objectCodes := ["010001".toList], controlSection := "PROG".toList },
       { startAddress := 9, objectCodes := ["010002".toList], controlSection := "PROG".toList },
       { startAddress := 0, objectCodes := ["4F0000".toList], controlSection := "SUB".toList }] ∧
    ∃ groups : List (List AssemblyLine),
      groups.flatten = sectionLines twoSectionState.sourceLines "PROG".toList ∧
      (generateTextRecords twoSectionState).textRecords.filter
          (fun r => r.controlSection == "PROG".toList) =
        groups.map (recordOfLines "PROG".toList) ∧
      (∀ g ∈ groups, ∃ l rest, g = l :: rest ∧
        recordOfLines "PROG".toList g =
          { startAddress := l.address
            objectCodes := l.objectCode :: rest.map (fun x => x.objectCode)
            controlSection := "PROG".toList }) ∧
      ((((generateTextRecords twoSectionState).textRecords.filter
          (fun r => r.controlSection == "PROG".toList)).map (fun r => r.objectCodes)).flatten =
        (sectionLines twoSectionState.sourceLines "PROG".toList).map
          (fun line => line.objectCode)) ∧
      (∀ r ∈ (generateTextRecords twoSectionState).textRecords.filter
          (fun r => r.controlSection == "PROG".toList), r.objectCodes ≠ []) :=
  ⟨by decide, text_records_hold_section_codes twoSectionState { name := "PROG".toList }
    (by decide) (by decide) (by decide)⟩

/-- C38 (the code at the failing input): in `negativeAddressSource` the directive `RESB -1` moves the
location counter to -1, so `LDA #1` is assembled at address -1 and `LDA #2` at 2. The
section's lines carry the object codes `010001`, `010002`, but the one Text record of the
section, `T^000002^03^010002`, holds only the second: the record opened at -1 is taken
for "no record open" and is replaced with its object code when the next line comes. -/
theorem object_code_at_minus_one_is_dropped :
    listingOf (assemble (fileLines negativeAddressSource)) =
      some [⟨1, 0, "START", "0", "", "PROG"⟩, ⟨2, 0, "RESB", "-1", "", "PROG"⟩,
        ⟨3, -1, "LDA", "#1", "010001", "PROG"⟩, ⟨4, 2, "LDA", "#2", "010002", "PROG"⟩,
        ⟨5, 5, "END", "", "", "PROG"⟩] ∧
    lineCodesOf (assemble (fileLines negativeAddressSource)) "PROG" =
      some ["010001", "010002"] ∧
    recordCodesOf (assemble (fileLines negativeAddressSource)) "PROG" = some ["010002"] ∧
    (textRecordsOf (assemble (fileLines negativeAddressSource))).map
        (fun rs => rs.map (fun r => r.line)) = some ["T^000002^03^010002"] := by
  decide

/-! ## C6: `WORD A-B` in the section that defines `A` -/

/-- What `isExternalReference` tests: the name has a symbol-table entry flagged external
(whatever section the entry belongs to), or it is in the `EXTREF` list of the first control
section with the given name. -/
theorem isExternalReference_iff (a : Assembler) (symbol controlSection : List Char) :
    isExternalReference a symbol controlSection = true ↔
      (∃ s, mapFind a.symbolTable symbol = some s ∧ s.isExternal = true) ∨
      (∃ cs, a.controlSections.find? (fun cs => cs.name == controlSection) = some cs ∧
        symbol ∈ cs.extRef) := by
  unfold isExternalReference
  cases h1 : mapFind a.symbolTable symbol with
  | none =>
    cases h2 : a.controlSections.find? (fun cs => cs.name == controlSection) with
    | none => simp
    | some cs => simp
  | some s =>
    cases hx : s.isExternal with
    | true => simp [hx]
    | false =>
      cases h2 : a.controlSections.find? (fun cs => cs.name == controlSection) with
      | none => simp [hx]
      | some cs => simp [hx]

/-- The whole of `generateModificationRecords`: the records that the lines push, in source
order, are appended to the records already there. -/
theorem generateModificationRecords_records (a : Assembler) :
    (generateModificationRecords a).modificationRecords =
      a.modificationRecords ++
        (a.sourceLines.map (modificationRecordsOfLine a)).flatten := by
  have key : ∀ (lines : List AssemblyLine) (recs : List ModificationRecord),
      lines.foldl (fun recs line => recs ++ modificationRecordsOfLine a line) recs =
        recs ++ (lines.map (modificationRecordsOfLine a)).flatten := by
    intro lines
    induction lines with
    | nil => intro recs; simp
    | cons line rest ih =>
      intro recs
      rw [List.foldl_cons, ih, List.map_cons, List.flatten_cons, List.append_assoc]
  exact key a.sourceLines a.modificationRecords

/-- C6 (the code at the failing input): in `wordOwnSectionSource` the section `PROGB`
defines `BUF` (at 0) and `X` (at 3), imports nothing, and holds `W WORD BUF-X` at address
6; only `PROGA` imports `BUF`. The entry of `BUF` is defined in `PROGB` and still flagged
external, so `generateModificationRecords` appends the record `(6, 6, BUF, +)` for the
operand `BUF` of `PROGB`'s own section, written `M^000006^06^+BUF` under `PROGB`; the
object code of the line is `000000`. -/
theorem word_operand_of_own_section_gets_record :
    listingOf (assemble (fileLines wordOwnSectionSource)) =
      some [⟨1, 0, "START", "0", "", "PROGA"⟩, ⟨2, 0, "EXTREF", "BUF", "", "PROGA"⟩,
        ⟨3, 0, "CSECT", "", "", "PROGB"⟩, ⟨4, 0, "RESW", "1", "", "PROGB"⟩,
        ⟨5, 3, "RESW", "1", "", "PROGB"⟩, ⟨6, 6, "WORD", "BUF-X", "000000", "PROGB"⟩,
        ⟨7, 9, "END", "", "", "PROGB"⟩] ∧
    extRefsOf (assemble (fileLines wordOwnSectionSource)) =
      some [("PROGA", ["BUF"]), ("PROGB", [])] ∧
    symbolOf (assemble (fileLines wordOwnSectionSource)) "BUF" =
      some (some { address := 0, controlSection := "PROGB".toList, isExternal := true,
                   isDefined := true }) ∧
    symbolOf (assemble (fileLines wordOwnSectionSource)) "X" =
      some (some { address := 3, controlSection := "PROGB".toList, isDefined := true }) ∧
    modificationsOf (assemble (fileLines wordOwnSectionSource)) =
      some [{ address := 6, length := 6, symbol := "BUF".toList, isAddition := true }] ∧
    modificationLinesOf (assemble (fileLines wordOwnSectionSource)) =
      some [("PROGA", []), ("PROGB", ["M^000006^06^+BUF"])] := by
  decide

/-! ## C24: the fields of a line and their case -/

theorem dropWhile_append_of_all (p : Char → Bool) (pre l : List Char)
    (h : ∀ c ∈ pre, p c = true) : (pre ++ l).dropWhile p = l.dropWhile p := by
  induction pre with
  | nil => rfl
  | cons c cs ih =>
    rw [List.cons_append, List.dropWhile_cons, if_pos (h c (List.mem_cons_self _ _))]
    exact ih (fun x hx => h x (List.mem_cons_of_mem _ hx))

theorem dropWhile_of_all (p : Char → Bool) (l : List Char) (h : ∀ c ∈ l, p c = true) :
    l.dropWhile p = [] := by
  have := dropWhile_append_of_all p l [] h
  simpa using this

theorem dropWhile_of_head (p : Char → Bool) (l : List Char)
    (h : ∀ c, l.head? = some c → p c = false) : l.dropWhile p = l := by
  cases l with
  | nil => rfl
  | cons c cs =>
    rw [List.dropWhile_cons, if_neg]
    rw [h c rfl]
    exact Bool.false_ne_true

/-- What `trim` returns for a field as written: its text without the blanks around. -/
theorem trim_padded (field core : List Char) (h : Padded field core) : trim field = core := by
  obtain ⟨pre, post, hf, hpre, hpost, hhead, hlast, _⟩ := h
  have hb : ∀ c : Char, (c = ' ' ∨ c = '\r' ∨ c = '\n') → isTrimChar c = true := by
    intro c hc
    rcases hc with hc | hc | hc <;> rw [hc] <;> rfl
  have hnb : ∀ c : Char, (c ≠ ' ' ∧ c ≠ '\t' ∧ c ≠ '\r' ∧ c ≠ '\n') → isTrimChar c = false := by
    intro c hc
    obtain ⟨h1, h2, h3, h4⟩ := hc
    simp [isTrimChar, h1, h2, h3, h4]
  unfold trim
  rw [hf, List.append_assoc, dropWhile_append_of_all _ pre _ (fun c hc => hb c (hpre c hc))]
  cases core with
  | nil =>
    rw [List.nil_append, dropWhile_of_all _ post (fun c hc => hb c (hpost c hc))]
    rfl
  | cons h t =>
    rw [dropWhile_of_head _ ((h :: t) ++ post) (by
      intro c hc
      exact hnb c (hhead c (by simpa using hc)))]
    rw [List.reverse_append,
      dropWhile_append_of_all _ post.reverse _ (fun c hc =>
        hb c (hpost c (List.mem_reverse.mp hc))),
      dropWhile_of_head _ (h :: t).reverse (by
        intro c hc
        apply hnb c
        apply hlast c
        rw [List.getLast?_eq_head?_reverse]
        exact hc),
      List.reverse_reverse]

theorem padded_no_tab (field core : List Char) (h : Padded field core) : '\t' ∉ field := by
  obtain ⟨pre, post, hf, hpre, hpost, _, _, hcore⟩ := h
  rw [hf]
  intro hmem
  rcases List.mem_append.mp hmem with hm | hm
  · rcases List.mem_append.mp hm with hm | hm
    · rcases hpre _ hm with h | h | h <;> cases h
    · exact hcore hm
  · rcases hpost _ hm with h | h | h <;> cases h

theorem map_trim_of_padded (fields cores : List (List Char))
    (h : List.Forall₂ Padded fields cores) :
    fields.map trim = cores ∧ ∀ f ∈ fields, '\t' ∉ f := by
  induction h with
  | nil => exact ⟨rfl, fun f hf => by cases hf⟩
  | cons hp _ ih =>
    refine ⟨?_, ?_⟩
    · rw [List.map_cons, trim_padded _ _ hp, ih.1]
    · intro f hf
      rcases List.mem_cons.mp hf with hx | hx
      · rw [hx]; exact padded_no_tab _ _ hp
      · exact ih.2 f hx

/-- The tokens that `getline` reads from a line written from tab-free fields: the fields,
without the last one when it is empty. -/
theorem getlineTokens_joinFields (fields : List (List Char))
    (h : ∀ f ∈ fields, '\t' ∉ f) :
    getlineTokens '\t' (joinFields fields) = fields ∨
    ∃ init, fields = init ++ [[]] ∧ getlineTokens '\t' (joinFields fields) = init := by
  induction fields with
  | nil => exact Or.inl rfl
  | cons f rest ih =>
    cases rest with
    | nil =>
      cases hf : f with
      | nil => exact Or.inr ⟨[], rfl, rfl⟩
      | cons c cs =>
        left
        show getlineTokens '\t' (c :: cs) = [c :: cs]
        rw [← hf]
        exact getlineTokens_single '\t' f (h f (List.mem_cons_self _ _))
          (by rw [hf]; exact List.cons_ne_nil _ _)
    | cons g rest2 =>
      have hstep : getlineTokens '\t' (joinFields (f :: g :: rest2)) =
          f :: getlineTokens '\t' (joinFields (g :: rest2)) :=
        getlineTokens_append '\t' f _ (h f (List.mem_cons_self _ _))
      rcases ih (fun x hx => h x (List.mem_cons_of_mem _ hx)) with h1 | ⟨init, h1, h2⟩
      · left
        rw [hstep, h1]
      · right
        refine ⟨f :: init, ?_, ?_⟩
        · rw [h1]; rfl
        · rw [hstep, h2]

theorem split_joinFields (fields : List (List Char)) (h : ∀ f ∈ fields, '\t' ∉ f) (k : Nat) :
    (split (joinFields fields) '\t')[k]?.getD [] = (fields.map trim)[k]?.getD [] := by
  unfold split
  rcases getlineTokens_joinFields fields h with h1 | ⟨init, h1, h2⟩
  · rw [h1]
  · rw [h2]
    have hmap : fields.map trim = init.map trim ++ [[]] := by
      rw [h1, List.map_append]
      rfl
    rw [hmap]
    by_cases hk : k < (init.map trim).length
    · rw [List.getElem?_append_left hk]
    · have hle : (init.map trim).length ≤ k := Nat.le_of_not_lt hk
      rw [List.getElem?_eq_none hle, List.getElem?_append_right hle]
      cases hd : k - (init.map trim).length with
      | zero => rfl
      | succ m => rfl

theorem firstFieldNames_iff (w : List Char) :
    ((mapFind instructionTable w).isSome || isParsedDirective w) = true ↔
      w ∈ firstFieldNames := by
  have hkeys : ∀ (m : List (List Char × Instruction)),
      (mapFind m w).isSome = true ↔ w ∈ m.map (fun e => e.1) := by
    intro m
    induction m with
    | nil => simp [mapFind]
    | cons e rest ih =>
      obtain ⟨k, v⟩ := e
      rw [List.map_cons, List.mem_cons]
      unfold mapFind
      by_cases hk : k = w
      · rw [if_pos hk]
        exact ⟨fun _ => Or.inl hk.symm, fun _ => rfl⟩
      · rw [if_neg hk]
        constructor
        · intro hx
          exact Or.inr (ih.mp hx)
        · intro hx
          rcases hx with hx | hx
          · exact absurd hx.symm hk
          · exact ih.mpr hx
  unfold firstFieldNames
  rw [Bool.or_eq_true, List.mem_append, hkeys]
  apply or_congr Iff.rfl
  simp [isParsedDirective, or_assoc]

/-- C24 (amended): for every line that is no comment, written as fields separated by tabs,
each field being a text with blanks around it: when the first text folded to upper case
is a mnemonic of the catalog or one of the fourteen directive names, `parseLine` returns
it, folded, as the opcode, the second text as the operand and the third as the comment;
otherwise it returns the first text folded as the label, the second text folded as the
opcode, the third text as the operand and the fourth as the comment. Folding maps every
character with `toupper` and so leaves a leading `+` in place; the operand is the text
exactly as written: register names, constants and literals alike are not folded. -/
theorem parseLine_fields_case (fields cores : List (List Char)) (n : Nat)
    (hpad : List.Forall₂ Padded fields cores)
    (hne : joinFields fields ≠ []) (hdot : (joinFields fields).head? ≠ some '.') :
    parseLine (joinFields fields) n =
      (if (cores[0]?.getD []).map Char.toUpper ∈ firstFieldNames then
        { lineNumber := n
          opcode := (cores[0]?.getD []).map Char.toUpper
          operand := cores[1]?.getD []
          comment := cores[2]?.getD [] }
      else
        { lineNumber := n
          label := (cores[0]?.getD []).map Char.toUpper
          opcode := (cores[1]?.getD []).map Char.toUpper
          operand := cores[2]?.getD []
          comment := cores[3]?.getD [] }) ∧
    (∀ m : List Char, ('+' :: m).map Char.toUpper = '+' :: m.map Char.toUpper) := by
  refine ⟨?_, fun m => rfl⟩
  obtain ⟨hmap, htab⟩ := map_trim_of_padded fields cores hpad
  have hget : ∀ k : Nat, (split (joinFields fields) '\t')[k]?.getD [] = cores[k]?.getD [] := by
    intro k
    rw [split_joinFields fields htab k, hmap]
  have hnil : ¬ ([] : List Char) ∈ firstFieldNames := by decide
  cases hs : split (joinFields fields) '\t' with
  | nil =>
    have h0 : ((joinFields fields).isEmpty || (joinFields fields).head? == some '.') = false := by
      rw [isEmpty_eq_false_of_ne _ hne, Bool.false_or]
      exact beq_eq_false_iff_ne.mpr hdot
    have hp : parseLine (joinFields fields) n = { lineNumber := n } := by
      unfold parseLine
      simp only [h0, Bool.false_eq_true, if_false, hs]
    have hc : ∀ k : Nat, cores[k]?.getD [] = [] := by
      intro k
      rw [← hget k, hs]
      rfl
    rw [hp, hc 0, hc 1, hc 2, hc 3]
    simp only [List.map_nil, hnil, if_false]
  | cons p0 rest =>
    have hc0 : cores[0]?.getD [] = p0 := by
      rw [← hget 0, hs]
      simp
    have hck : ∀ k : Nat, cores[k + 1]?.getD [] = rest[k]?.getD [] := by
      intro k
      rw [← hget (k + 1), hs]
      simp
    rw [parseLine_tokens _ n p0 rest hne hdot hs, hc0, hck 0, hck 1, hck 2]
    unfold toUpperCase
    by_cases hin : p0.map Char.toUpper ∈ firstFieldNames
    · rw [if_pos hin, if_pos ((firstFieldNames_iff _).mpr hin)]
    · rw [if_neg hin, if_neg (fun hx => hin ((firstFieldNames_iff _).mp hx))]

theorem padded_intro (pre core post : List Char)
    (hpre : pre.all (fun c => c == ' ' || c == '\r' || c == '\n') = true)
    (hpost : post.all (fun c => c == ' ' || c == '\r' || c == '\n') = true)
    (hhead : core.head?.all (fun c => c != ' ' && c != '\t' && c != '\r' && c != '\n') = true)
    (hlast : core.getLast?.all (fun c => c != ' ' && c != '\t' && c != '\r' && c != '\n') = true)
    (htab : core.contains '\t' = false) : Padded (pre ++ core ++ post) core := by
  refine ⟨pre, post, rfl, ?_, ?_, ?_, ?_, ?_⟩
  · intro c hc
    have := List.all_eq_true.mp hpre c hc
    simpa [or_assoc] using this
  · intro c hc
    have := List.all_eq_true.mp hpost c hc
    simpa [or_assoc] using this
  · intro c hc
    rw [hc] at hhead
    simpa [and_assoc] using hhead
  · intro c hc
    rw [hc] at hlast
    simpa [and_assoc] using hlast
  · intro hc
    have : core.contains '\t' = true := by simpa using hc
    rw [htab] at this
    cases this

/-- C24 (amended) at the line `loop<tab> +lda <tab>=c'eof'`: label `LOOP`, opcode `+LDA`
with its `+`, operand `=c'eof'` as written; and at `clear<tab>a`: opcode `CLEAR`, operand
`a`. The last two facts are the same records, computed by `parseLine` on the lines. -/
theorem parseLine_fields_case_witness :
    (joinFields ["loop".toList, " +lda ".toList, "=c'eof'".toList] =
        "loop\t +lda \t=c'eof'".toList ∧
      parseLine (joinFields ["loop".toList, " +lda ".toList, "=c'eof'".toList]) 7 =
        { lineNumber := 7, label := "LOOP".toList, opcode := "+LDA".toList,
          operand := "=c'eof'".toList }) ∧
    (joinFields ["clear".toList, "a".toList] = "clear\ta".toList ∧
      parseLine (joinFields ["clear".toList, "a".toList]) 2 =
        { lineNumber := 2, opcode := "CLEAR".toList, operand := "a".toList }) ∧
    parseLine "loop\t +lda \t=c'eof'".toList 7 =
      { lineNumber := 7, label := "LOOP".toList, opcode := "+LDA".toList,
        operand := "=c'eof'".toList } ∧
    parseLine "clear\ta".toList 2 =
      { lineNumber := 2, opcode := "CLEAR".toList, operand := "a".toList } :=
  ⟨⟨by decide,
    (parseLine_fields_case ["loop".toList, " +lda ".toList, "=c'eof'".toList]
      ["loop".toList, "+lda".toList, "=c'eof'".toList] 7
      (List.Forall₂.cons (padded_intro [] "loop".toList [] rfl rfl rfl rfl rfl)
        (List.Forall₂.cons (padded_intro [' '] "+lda".toList [' '] rfl rfl rfl rfl rfl)
          (List.Forall₂.cons (padded_intro [] "=c'eof'".toList [] rfl rfl rfl rfl rfl)
            List.Forall₂.nil)))
      (by decide) (by decide)).1.trans (by decide)⟩,
   ⟨by decide,
    (parseLine_fields_case ["clear".toList, "a".toList] ["clear".toList, "a".toList] 2
      (List.Forall₂.cons (padded_intro [] "clear".toList [] rfl rfl rfl rfl rfl)
        (List.Forall₂.cons (padded_intro [] "a".toList [] rfl rfl rfl rfl rfl)
          List.Forall₂.nil))
      (by decide) (by decide)).1.trans (by decide)⟩,
   by decide, by decide⟩

theorem isTrimChar_false_iff (c : Char) :
    isTrimChar c = false ↔ c ≠ ' ' ∧ c ≠ '\t' ∧ c ≠ '\r' ∧ c ≠ '\n' := by
  simp [isTrimChar, and_assoc]

theorem head_dropWhile_isTrimChar (l : List Char) (c : Char)
    (h : (l.dropWhile isTrimChar).head? = some c) : isTrimChar c = false := by
  induction l with
  | nil => cases h
  | cons x xs ih =>
    rw [List.dropWhile_cons] at h
    by_cases hx : isTrimChar x = true
    · rw [if_pos hx] at h
      exact ih h
    · rw [if_neg hx] at h
      have hxc : x = c := by simpa using h
      rw [← hxc]
      simpa using hx

/-- Every field without a tab is its trimmed text with blanks around it. -/
theorem padded_trim (field : List Char) (htab : '\t' ∉ field) : Padded field (trim field) := by
  have hblank : ∀ c ∈ field, isTrimChar c = true → c = ' ' ∨ c = '\r' ∨ c = '\n' := by
    intro c hc hp
    have hne : c ≠ '\t' := fun hx => htab (hx ▸ hc)
    simp only [isTrimChar, Bool.or_eq_true, beq_iff_eq] at hp
    rcases hp with ((h | h) | h) | h
    · exact Or.inl h
    · exact absurd h hne
    · exact Or.inr (Or.inl h)
    · exact Or.inr (Or.inr h)
  have h1 : field = field.takeWhile isTrimChar ++ field.dropWhile isTrimChar :=
    (List.takeWhile_append_dropWhile isTrimChar field).symm
  have h2 : (field.dropWhile isTrimChar).reverse =
      (field.dropWhile isTrimChar).reverse.takeWhile isTrimChar ++
        (field.dropWhile isTrimChar).reverse.dropWhile isTrimChar :=
    (List.takeWhile_append_dropWhile isTrimChar _).symm
  have h3 : field.dropWhile isTrimChar =
      trim field ++ ((field.dropWhile isTrimChar).reverse.takeWhile isTrimChar).reverse := by
    have := congrArg List.reverse h2
    rw [List.reverse_reverse, List.reverse_append] at this
    exact this
  have hsub : ∀ c ∈ field.dropWhile isTrimChar, c ∈ field := by
    intro c hc
    rw [h1]
    exact List.mem_append_right _ hc
  refine ⟨field.takeWhile isTrimChar,
    ((field.dropWhile isTrimChar).reverse.takeWhile isTrimChar).reverse, ?_, ?_, ?_, ?_, ?_, ?_⟩
  · rw [List.append_assoc, ← h3]
    exact h1
  · intro c hc
    have hp := List.mem_takeWhile_imp hc
    have hmem : c ∈ field := by
      rw [h1]
      exact List.mem_append_left _ hc
    exact hblank c hmem hp
  · intro c hc
    have hc2 := List.mem_reverse.mp hc
    have hp := List.mem_takeWhile_imp hc2
    have hmem : c ∈ (field.dropWhile isTrimChar).reverse := by
      rw [h2]
      exact List.mem_append_left _ hc2
    exact hblank c (hsub c (List.mem_reverse.mp hmem)) hp
  · intro c hc
    apply (isTrimChar_false_iff c).mp
    apply head_dropWhile_isTrimChar field c
    rw [h3]
    cases ht : trim field with
    | nil => rw [ht] at hc; cases hc
    | cons x xs =>
      rw [ht] at hc
      rw [List.cons_append]
      exact hc
  · intro c hc
    apply (isTrimChar_false_iff c).mp
    apply head_dropWhile_isTrimChar (field.dropWhile isTrimChar).reverse c
    rw [List.getLast?_eq_head?_reverse] at hc
    unfold trim at hc
    rw [List.reverse_reverse] at hc
    exact hc
  · intro hc
    have hmem : '\t' ∈ field.dropWhile isTrimChar := by
      rw [h3]
      exact List.mem_append_left _ hc
    exact htab (hsub _ hmem)

theorem joinFields_cons (field : List Char) (fields : List (List Char)) (h : fields ≠ []) :
    joinFields (field :: fields) = field ++ '\t' :: joinFields fields := by
  cases fields with
  | nil => exact absurd rfl h
  | cons g rest => rfl

/-- Every line is written from fields without tabs. -/
theorem line_has_fields (line : List Char) :
    ∃ fields : List (List Char), joinFields fields = line ∧ ∀ f ∈ fields, '\t' ∉ f := by
  induction line with
  | nil => exact ⟨[], rfl, fun f hf => by cases hf⟩
  | cons c cs ih =>
    obtain ⟨fields, hj, hf⟩ := ih
    by_cases hc : c = '\t'
    · cases fields with
      | nil =>
        refine ⟨[[], []], ?_, ?_⟩
        · rw [← hj, hc]; rfl
        · intro f hx
          simp only [List.mem_cons, List.mem_singleton, List.not_mem_nil, or_false, or_self] at hx
          rw [hx]
          exact List.not_mem_nil _
      | cons g rest =>
        refine ⟨[] :: g :: rest, ?_, ?_⟩
        · rw [joinFields_cons _ _ (List.cons_ne_nil _ _), hj, hc]; rfl
        · intro f hx
          rcases List.mem_cons.mp hx with h | h
          · rw [h]; exact List.not_mem_nil _
          · exact hf f h
    · cases fields with
      | nil =>
        refine ⟨[[c]], ?_, ?_⟩
        · rw [← hj]; rfl
        · intro f hx
          rw [List.mem_singleton.mp hx]
          intro hm
          exact hc (List.mem_singleton.mp hm).symm
      | cons g rest =>
        refine ⟨(c :: g) :: rest, ?_, ?_⟩
        · rw [← hj]
          cases rest with
          | nil => rfl
          | cons g2 rest2 => rfl
        · intro f hx
          rcases List.mem_cons.mp hx with h | h
          · rw [h]
            intro hm
            rcases List.mem_cons.mp hm with h2 | h2
            · exact hc h2.symm
            · exact hf g (List.mem_cons_self _ _) h2
          · exact hf f (List.mem_cons_of_mem _ h)

/-- Every line can be written from fields separated by tabs, each of them a text with
blanks around it. -/
theorem line_has_padded_fields (line : List Char) :
    ∃ fields cores : List (List Char),
      joinFields fields = line ∧ List.Forall₂ Padded fields cores := by
  obtain ⟨fields, hj, hf⟩ := line_has_fields line
  refine ⟨fields, fields.map trim, hj, ?_⟩
  clear hj
  induction fields with
  | nil => exact List.Forall₂.nil
  | cons f rest ih =>
    exact List.Forall₂.cons (padded_trim f (hf f (List.mem_cons_self _ _)))
      (ih (fun x hx => hf x (List.mem_cons_of_mem _ hx)))

end SICXE
